import Mathlib

/-!
# Tape: staged benchmarking pipeline

A shallow embedding of the pipeline engine of `pkg/infra` (proposer, integrator,
broadcaster, observer, timing ledger, configuration validation) together with
the properties stated about it.

Conventions of the embedding.

* Go `int`, `int32` and `int64` values are embedded as `Int` (or `Nat` for list
  lengths and counters that only grow).  The entry queue has capacity
  `CH_MAX_CAPACITY = 1e6` and is filled completely before its consumer starts,
  so every run that gets past generation has `TxNum < 1e6`; no counter of the
  pipeline can then leave the `int32` range and no wrap-around is modelled,
  except where a definition says so (`wrapInt64`, `wrapInt32`).
* A Go panic (index out of range, division by zero, nil dereference,
  `logger.Panicf`) is the value `none`.
* `*Element` pointers are indices into a heap of records; channels are lists,
  oldest entry first.
* `time.Now().UnixNano()` is an explicit argument `now` of the function that
  reads the clock.
-/

namespace Tape

/-! ## Data model -/

/-- Raw bytes (`[]byte`). -/
abbrev Bytes := List Nat

/-- The protobuf message `peer.Response`, fields read by this package. -/
structure Response where
  Status : Int
  Message : String
  deriving DecidableEq, Repr

/-- The protobuf message `peer.ProposalResponse`, fields read by this package. -/
structure ProposalResponse where
  Response : Response
  Payload : Bytes
  Endorsement : Bytes
  deriving DecidableEq, Repr

/-- The protobuf message `common.Envelope`. -/
structure Envelope where
  Payload : Bytes
  Signature : Bytes
  deriving DecidableEq, Repr

/-- The record `Element` of `element.go`: the data for the whole lifecycle of a
transaction.  `lock` is `true` while the mutex is held. -/
structure Element where
  Proposal : Bytes
  SignedProposal : Option Bytes
  Responses : List ProposalResponse
  lock : Bool
  Envelope : Option Envelope
  Txid : String
  deriving DecidableEq, Repr

/-- A `float64` read from the YAML file: a finite value is a rational number,
and the three special values are kept apart. -/
inductive F64 where
  | nan : F64
  | negInf : F64
  | finite (q : ℚ) : F64
  | posInf : F64
  deriving DecidableEq

/-- Go's `x < 0` on `float64`: false for NaN. -/
def F64.ltZero : F64 → Bool
  | .nan => false
  | .negInf => true
  | .finite q => decide (q < 0)
  | .posInf => false

/-- Go's `x > 1` on `float64`: false for NaN. -/
def F64.gtOne : F64 → Bool
  | .nan => false
  | .negInf => false
  | .finite q => decide (1 < q)
  | .posInf => true

/-- The struct `Node` of `config.go`. -/
structure Node where
  Address : String
  TLSCACert : String
  TLSCAKey : String
  TLSCARoot : String
  TLSCACertByte : Bytes
  TLSCAKeyByte : Bytes
  TLSCARootByte : Bytes
  deriving DecidableEq

/-- The struct `Config` of `config.go`, field by field.  `Identity` is the
client identity, kept as the serialized creator bytes. -/
structure Config where
  Endorsers : List Node
  Committer : Node
  Orderer : Node
  Channel : String
  Chaincode : String
  Version : String
  Args : List String
  MSPID : String
  PrivateKey : String
  SignCert : String
  Identity : Option Bytes
  End2End : Bool
  Rate : Int
  Burst : Int
  TxNum : Int
  TxTime : Int
  TxType : String
  TxIDStart : Int
  Session : String
  HotAccountRatio : F64
  ConflictRatio : F64
  ConnNum : Int
  ClientPerConnNum : Int
  IntegratorNum : Int
  BroadcasterNum : Int
  EndorserNum : Int
  CheckTxID : Bool
  CheckRWSet : Bool
  LogPath : String
  ReportPath : String
  Seed : Int
  deriving DecidableEq

/-- A node with every field empty. -/
def Node.empty : Node :=
  ⟨"", "", "", "", [], [], []⟩

/-- The zero value `&Config{}`. -/
def Config.zero : Config where
  Endorsers := []
  Committer := Node.empty
  Orderer := Node.empty
  Channel := ""
  Chaincode := ""
  Version := ""
  Args := []
  MSPID := ""
  PrivateKey := ""
  SignCert := ""
  Identity := none
  End2End := false
  Rate := 0
  Burst := 0
  TxNum := 0
  TxTime := 0
  TxType := ""
  TxIDStart := 0
  Session := ""
  HotAccountRatio := .finite 0
  ConflictRatio := .finite 0
  ConnNum := 0
  ClientPerConnNum := 0
  IntegratorNum := 0
  BroadcasterNum := 0
  EndorserNum := 0
  CheckTxID := false
  CheckRWSet := false
  LogPath := ""
  ReportPath := ""
  Seed := 0

/-! ## Proposer: handling of one endorsement result (`proposer.go`, lines 137-155) -/

/-- The pair `(resp, err)` returned by `grpcClient.ProcessProposal`. -/
structure EndorseResult where
  resp : Option ProposalResponse
  err : Option String
  deriving DecidableEq

/-- Lines 148-149 of `Proposer.Start`: the response is appended to the record
and the length of the list is compared with `config.EndorserNum`.  The second
component tells whether the branch of line 149 is taken. -/
def appendResponse (cfg : Config) (e : Element) (resp : ProposalResponse) :
    Element × Bool :=
  let e1 : Element := { e with Responses := e.Responses ++ [resp] }
  (e1, decide (cfg.EndorserNum ≤ (e1.Responses.length : Int)))

/-- Lines 147-155 of `Proposer.Start` as seen by the record and by the
integration queue `p.outCh`: append under the lock, and on the quorum test
place the record on the queue.  A queue entry is the record as it is at the
moment of the send. -/
def appendAndCheck (cfg : Config) (e : Element) (outCh : List Element)
    (resp : ProposalResponse) : Element × List Element :=
  let r := appendResponse cfg e resp
  if r.2 then (r.1, outCh ++ [r.1]) else (r.1, outCh)

/-- The test of line 138, `err != nil || Status < 200 || Status >= 400`,
evaluated left to right: `some none` when the test holds (the failure branch),
`some (some resp)` when it does not, and `none` for the panic of a nil response
dereferenced without an error. -/
def endorsementOf (res : EndorseResult) : Option (Option ProposalResponse) :=
  match res.err with
  | some _ => some none
  | none =>
    match res.resp with
    | none => none
    | some r =>
      if r.Response.Status < 200 ∨ r.Response.Status ≥ 400 then some none
      else some (some r)

/-- Lines 137-155 of `Proposer.Start`: the test of the endorsement result, the
`continue` on failure and the append-and-check on success. -/
def Proposer.handleResult (cfg : Config) (e : Element) (outCh : List Element)
    (res : EndorseResult) : Option (Element × List Element) :=
  match endorsementOf res with
  | none => none
  | some none => some (e, outCh)
  | some (some r) => some (appendAndCheck cfg e outCh r)

/-- Successive executions of lines 147-155 on one record and the integration
queue, one per response of the list, in the order of the list. -/
def appendAll (cfg : Config) : Element → List Element → List ProposalResponse →
    Element × List Element
  | e, outCh, [] => (e, outCh)
  | e, outCh, r :: rs =>
    let s := appendAndCheck cfg e outCh r
    appendAll cfg s.1 s.2 rs

/-- Successive append-and-check steps on one record, one per response of the
list, in the order of the list.  Entry `k` of the result is the record right
after step `k` and whether step `k` placed it on the integration queue. -/
def appendSteps (cfg : Config) : Element → List ProposalResponse → List (Element × Bool)
  | _, [] => []
  | e, r :: rs =>
    let s := appendResponse cfg e r
    s :: appendSteps cfg s.1 rs

/-! ## Abort counter (`metric.go`) and observer (`observer.go`) -/

/-- The struct `MetricInstance`: the process-wide abort counter. -/
structure MetricInstance where
  Abort : Nat
  deriving DecidableEq, Repr

/-- The constructor `NewMetricInstance`. -/
def NewMetricInstance : MetricInstance := ⟨0⟩

/-- The method `MetricInstance.AddAbort`: an atomic increment by one. -/
def MetricInstance.AddAbort (m : MetricInstance) : MetricInstance :=
  ⟨m.Abort + 1⟩

/-- A transaction of a committed block (`peer.FilteredTransaction`). -/
structure FilteredTransaction where
  Txid : String
  TxValidationCode : Int
  deriving DecidableEq, Repr

/-- The enum value `peer.TxValidationCode_VALID`. -/
def TxValidationCode_VALID : Int := 0

/-- Lines 59-65 of `processFilteredBlock`: every transaction of the block is
counted as valid, or added to the abort counter. -/
def Observer.classify : Nat → MetricInstance → List FilteredTransaction → Nat × MetricInstance
  | validTxNum, m, [] => (validTxNum, m)
  | validTxNum, m, tx :: txs =>
    if tx.TxValidationCode = TxValidationCode_VALID then
      Observer.classify (validTxNum + 1) m txs
    else
      Observer.classify validTxNum m.AddAbort txs

/-- The value of an `int32` after a conversion or an arithmetic operation:
two's complement on 32 bits. -/
def wrapInt32 (x : Int) : Int :=
  (x + 2147483648) % 4294967296 - 2147483648

/-- Line 67 of `processFilteredBlock`: the completion test
`validTxNum+Metric.Abort >= int32(config.TxNum)`, a comparison of `int32`
values: the sum is computed on `int32` and `config.TxNum` is converted. -/
def Observer.complete (cfg : Config) (validTxNum : Nat) (m : MetricInstance) : Bool :=
  decide (wrapInt32 cfg.TxNum ≤ wrapInt32 ((validTxNum + m.Abort : Nat) : Int))

/-- The counters of a run: the observer's local `validTxNum`, the shared
abort counter, whether `observerEndCh` has been closed, and whether the
observer stands between the classification of a block and the test of
line 67. -/
structure Tally where
  validTxNum : Nat
  Metric : MetricInstance
  observerEndCh : Bool
  atTest : Bool
  deriving DecidableEq, Repr

/-- The counters at the start of a run. -/
def Tally.init : Tally := ⟨0, NewMetricInstance, false, false⟩

/-- The steps that move the counters: an integrator discards the record
`txid` (`integrator.go`, lines 37-41); the observer receives a block and
classifies its transactions (lines 53-65); the observer runs the completion
test (lines 67-70); the observer's 30 second timer fires (lines 71-73). -/
inductive TallyEvent where
  | discard (txid : String)
  | block (txs : List FilteredTransaction)
  | test
  | timeout
  deriving DecidableEq, Repr

/-- One step of the counters.  A block is taken only by an observer that waits
at its `select` and has not returned, and the test follows a block.  The first
loop of a block (lines 54-57) writes observed times into a ledger of `TxNum`
entries: with no entry at all, it panics on the first transaction. -/
def Tally.step (cfg : Config) (s : Tally) : TallyEvent → Option Tally
  | .discard _ => some { s with Metric := s.Metric.AddAbort }
  | .block txs =>
    if s.observerEndCh ∨ s.atTest then none
    else if txs ≠ [] ∧ cfg.TxNum ≤ 0 then none
    else
      let r := Observer.classify s.validTxNum s.Metric txs
      some { s with validTxNum := r.1, Metric := r.2, atTest := true }
  | .test =>
    if s.observerEndCh ∨ ¬ s.atTest then none
    else if Observer.complete cfg s.validTxNum s.Metric then
      some { s with observerEndCh := true, atTest := false }
    else
      some { s with atTest := false }
  | .timeout =>
    if s.observerEndCh ∨ s.atTest then none
    else some { s with observerEndCh := true }

/-- A run of the counters from a state. -/
def Tally.run (cfg : Config) : Tally → List TallyEvent → Option Tally
  | s, [] => some s
  | s, ev :: evs =>
    match Tally.step cfg s ev with
    | none => none
    | some s1 => Tally.run cfg s1 evs

/-- Number of transactions of the blocks of a run, i.e. observed and classified. -/
def classifiedCount : List TallyEvent → Nat
  | [] => 0
  | .block txs :: evs => txs.length + classifiedCount evs
  | _ :: evs => classifiedCount evs

/-- Number of records discarded by integrators in a run. -/
def discardCount : List TallyEvent → Nat
  | [] => 0
  | .discard _ :: evs => 1 + discardCount evs
  | _ :: evs => discardCount evs

/-- Number of transactions with validation code VALID in the blocks of a run. -/
def validCount : List TallyEvent → Nat
  | [] => 0
  | .block txs :: evs =>
    (txs.filter (fun tx => tx.TxValidationCode = TxValidationCode_VALID)).length + validCount evs
  | _ :: evs => validCount evs

/-- The transaction ids a run accounts for: those of the discarded records and
those of the transactions of the blocks, in the order of the run. -/
def accountedTxids : List TallyEvent → List String
  | [] => []
  | .discard txid :: evs => txid :: accountedTxids evs
  | .block txs :: evs => txs.map (fun tx => tx.Txid) ++ accountedTxids evs
  | .test :: evs => accountedTxids evs
  | .timeout :: evs => accountedTxids evs

/-! ## Integrator (`integrator.go`) -/

/-- The function `Integrator.Integrate`, for an envelope assembly
`CreateSignedTx` given as argument: on an error nothing is written, otherwise
the envelope is stored in the record. -/
def Integrator.Integrate (CreateSignedTx : Bytes → List ProposalResponse → Except String Envelope)
    (e : Element) : Except String Element :=
  match CreateSignedTx e.Proposal e.Responses with
  | .error err => .error err
  | .ok envelope => .ok { e with Envelope := some envelope }

/-- One iteration of `Integrator.Start` on the record `e` pulled from `inCh`:
the result is the abort counter, the envelope queue `it.outCh` and the record
afterwards. -/
def Integrator.iteration
    (CreateSignedTx : Bytes → List ProposalResponse → Except String Envelope)
    (m : MetricInstance) (outCh : List Element) (e : Element) :
    MetricInstance × List Element × Element :=
  match Integrator.Integrate CreateSignedTx e with
  | .error _ => (m.AddAbort, outCh, e)
  | .ok integrated => (m, outCh ++ [integrated], integrated)

/-! ## Configuration validation (`config.go`) -/

/-- The method `Config.mustValid`.  `logger.Panicf` panics; `logger.Printf` and
`fmt.Printf` only write diagnostics, which do not appear in the result. -/
def mustValid (c : Config) : Option Config :=
  if c.Rate < 0 then none
  else if c.Burst < 1 then none
  else
    let c1 : Config := if c.Rate > c.Burst then { c with Rate := c.Burst } else c
    if c1.ConflictRatio.ltZero || c1.ConflictRatio.gtOne then none
    else if c1.HotAccountRatio.ltZero || c1.HotAccountRatio.gtOne then none
    else some c1

/-! ## Sequence indices and routing (`process.go`, `proposer.go`) -/

/-- The global map `txid2id` (`map[string]int`) as an association list, newest
binding first.  `NewInitiator` only ever stores loop indices `i >= 0`, so the
values are natural numbers. -/
abbrev TxidMap := List (String × Nat)

/-- The map read `txid2id[txid]`: the zero value `0` for a missing key. -/
def TxidMap.get (m : TxidMap) (txid : String) : Nat :=
  (m.lookup txid).getD 0

/-- The arithmetic of `parseElementIndexes` on a sequence index, with Go's
truncated `/` and `%`; a zero divisor panics. -/
def routeSequence (cfg : Config) (sequence : Nat) : Option (Int × Int) :=
  if cfg.ClientPerConnNum = 0 ∨ cfg.ConnNum = 0 then none
  else
    some ((Int.tmod (Int.tdiv (sequence : Int) cfg.ClientPerConnNum) cfg.ConnNum),
      Int.tmod (sequence : Int) cfg.ClientPerConnNum)

/-- The function `parseElementIndexes`: `(connIndex, clientIndex)` of a record. -/
def parseElementIndexes (cfg : Config) (txid2id : TxidMap) (e : Element) : Option (Int × Int) :=
  routeSequence cfg (txid2id.get e.Txid)

/-- Where a proposer worker stands in the loop of `Proposer.Start`: at the
`select` (line 128); inside the call of line 137 for the record `p`; or after
the send of line 151 and before line 153, holding the lock of the record `p`. -/
inductive ProposerPC where
  | idle
  | calling (p : Nat)
  | forwarded (p : Nat)
  deriving DecidableEq, Repr

/-- The struct `Proposer`: its three indices, its private queue `inCh` (of
record pointers) and its position in `Start`.  The fields `outCh` and
`tokenCh` are shared by all workers and live in the pipeline state; the client
handle, the address and `expectTPS` play no part in the control flow. -/
structure Proposer where
  endorserIndex : Nat
  connIndex : Nat
  clientIndex : Nat
  inCh : List Nat
  pc : ProposerPC
  deriving DecidableEq, Repr

/-- The grid `[][][]*Proposer`. -/
abbrev Grid := List (List (List Proposer))

/-- The cell `proposers[i][j][k]`, when the three indices are in range. -/
def Grid.cell (g : Grid) (i j k : Nat) : Option Proposer :=
  match g[i]? with
  | none => none
  | some conns =>
    match conns[j]? with
    | none => none
    | some clients => clients[k]?

/-- The grid with the cell `proposers[i][j][k]` replaced by `f` of it. -/
def Grid.update (g : Grid) (i j k : Nat) (f : Proposer → Proposer) : Grid :=
  g.modify (fun conns => conns.modify (fun clients => clients.modify f k) j) i

/-- The grid built by `NewProposers`.  `make` panics on a negative length or
capacity, and the row of an endorser beyond `EndorserNum` is out of range; rows
of `EndorserNum` without an endorser stay nil. -/
def NewProposers (cfg : Config) : Option Grid :=
  if cfg.EndorserNum < 0 ∨ cfg.Burst < 0 ∨
      cfg.EndorserNum < (cfg.Endorsers.length : Int) then none
  else if cfg.Endorsers ≠ [] ∧
      (cfg.ConnNum < 0 ∨ (0 < cfg.ConnNum ∧ cfg.ClientPerConnNum < 0)) then none
  else
    some ((List.range cfg.Endorsers.length).map (fun i =>
        (List.range cfg.ConnNum.toNat).map (fun j =>
          (List.range cfg.ClientPerConnNum.toNat).map (fun k =>
            (⟨i, j, k, [], .idle⟩ : Proposer))))
      ++ List.replicate (cfg.EndorserNum.toNat - cfg.Endorsers.length) [])

/-- The send `ps.proposers[endorserIndex][connIndex][clientIndex].inCh <- e` of
`dispatchElements`, for the pointer `p` of the record: an index out of range
panics. -/
def Grid.send (g : Grid) (endorserIndex : Nat) (connIndex clientIndex : Int) (p : Nat) :
    Option Grid :=
  if connIndex < 0 ∨ clientIndex < 0 then none
  else
    match g.cell endorserIndex connIndex.toNat clientIndex.toNat with
    | none => none
    | some _ =>
      some (g.update endorserIndex connIndex.toNat clientIndex.toNat
        (fun c => { c with inCh := c.inCh ++ [p] }))

/-- One iteration of `Proposers.dispatchElements` for the endorser
`endorserIndex` on the record `e` with pointer `p` received from its queue. -/
def dispatchElements (cfg : Config) (txid2id : TxidMap) (g : Grid) (endorserIndex : Nat)
    (e : Element) (p : Nat) : Option Grid :=
  match parseElementIndexes cfg txid2id e with
  | none => none
  | some (connIndex, clientIndex) => g.send endorserIndex connIndex clientIndex p

/-! ## Timing ledger (`timekeeper.go`) -/

/-- The struct `TimeKeeper`: the four timestamps of a transaction, in
nanoseconds; the zero value is an unset timestamp. -/
structure TimeKeeper where
  ProposedTime : Int
  EndorsedTime : Int
  BroadcastTime : Int
  ObservedTime : Int
  deriving DecidableEq, Repr

/-- The struct `TimeKeepers`. -/
structure TimeKeepers where
  transactions : List TimeKeeper
  endorseLatency : List Int
  orderCommitLatency : List Int
  totalLatency : List Int
  commitLatencySorted : Option (List Int)
  deriving DecidableEq, Repr

/-- The function `initTimeKeepers`: arrays of length `TxNum`, all zero. -/
def initTimeKeepers (cfg : Config) : Option TimeKeepers :=
  if cfg.TxNum < 0 then none
  else
    let n := cfg.TxNum.toNat
    some ⟨List.replicate n ⟨0, 0, 0, 0⟩, List.replicate n 0, List.replicate n 0,
      List.replicate n 0, none⟩

/-- The method `keepProposedTime` at the clock reading `proposedTime`.  The line
written to `logCh` is not part of the ledger and is left out, here and below. -/
def keepProposedTime (txid2id : TxidMap) (tks : TimeKeepers) (txid : String)
    (proposedTime : Int) : Option TimeKeepers :=
  let id := txid2id.get txid
  match tks.transactions[id]? with
  | none => none
  | some tk =>
    some { tks with
      transactions := tks.transactions.set id { tk with ProposedTime := proposedTime } }

/-- The method `keepEndorsedTime` at the clock reading `endorsedTime`. -/
def keepEndorsedTime (txid2id : TxidMap) (tks : TimeKeepers) (txid : String)
    (endorsedTime : Int) : Option TimeKeepers :=
  let id := txid2id.get txid
  match tks.transactions[id]? with
  | none => none
  | some tk =>
    if id < tks.endorseLatency.length then
      some { tks with
        transactions := tks.transactions.set id { tk with EndorsedTime := endorsedTime }
        endorseLatency := tks.endorseLatency.set id (endorsedTime - tk.ProposedTime) }
    else none

/-- The method `keepBroadcastTime` at the clock reading `broadcastTime`. -/
def keepBroadcastTime (txid2id : TxidMap) (tks : TimeKeepers) (txid : String)
    (broadcastTime : Int) : Option TimeKeepers :=
  let id := txid2id.get txid
  match tks.transactions[id]? with
  | none => none
  | some tk =>
    some { tks with
      transactions := tks.transactions.set id { tk with BroadcastTime := broadcastTime } }

/-- The method `keepObservedTime` at the clock reading `observedTime`. -/
def keepObservedTime (txid2id : TxidMap) (tks : TimeKeepers) (txid : String)
    (observedTime : Int) : Option TimeKeepers :=
  let id := txid2id.get txid
  match tks.transactions[id]? with
  | none => none
  | some tk =>
    if id < tks.totalLatency.length ∧ id < tks.orderCommitLatency.length then
      some { tks with
        transactions := tks.transactions.set id { tk with ObservedTime := observedTime }
        totalLatency := tks.totalLatency.set id (observedTime - tk.ProposedTime)
        orderCommitLatency :=
          tks.orderCommitLatency.set id (observedTime - tk.BroadcastTime) }
    else none

/-! ## The pipeline as a transition system

The state of the running pipeline from the moment `proposers.StartAsync()` is
called (generation and signing are complete), and one transition per stretch of
code that a goroutine executes between two points where another goroutine can
run: a channel operation, the remote call, or the acquisition of a record's
lock.  Token acquisition (`getToken`) only delays a worker and is not
represented.  Channel capacities are not represented either: a send never
blocks, so every schedule of the program is a schedule of the model. -/

/-- The shared state of the pipeline. -/
structure World where
  txid2id : TxidMap
  heap : List Element
  signedChs : List (List Nat)
  proposers : Grid
  endorsedCh : List Nat
  integratedCh : List Nat
  ordererCh : List Nat
  timeKeepers : TimeKeepers
  Metric : MetricInstance
  validTxNum : Nat
  observerEndCh : Bool
  clock : Int
  deriving DecidableEq, Repr

/-- A reading `now` of a clock that never runs backwards. -/
def World.readClock (w : World) (now : Int) : Option World :=
  if w.clock ≤ now then some { w with clock := now } else none

/-- The map `txid2id` after the loop of `NewInitiator` over the given ids. -/
def buildTxidMap (txids : List String) : TxidMap :=
  (txids.zip (List.range txids.length)).foldl (fun m b => b :: m) []

/-- The pipeline when `proposers.StartAsync()` is called: one signed record per
transaction id, each record in the queue of every endorser. -/
def World.start (cfg : Config) (txids : List String) : Option World :=
  match NewProposers cfg, initTimeKeepers cfg with
  | some g, some tks =>
    some
      { txid2id := buildTxidMap txids
        heap := txids.map (fun t => ⟨[], some [], [], false, none, t⟩)
        signedChs := List.replicate cfg.EndorserNum.toNat (List.range txids.length)
        proposers := g
        endorsedCh := []
        integratedCh := []
        ordererCh := []
        timeKeepers := tks
        Metric := NewMetricInstance
        validTxNum := 0
        observerEndCh := false
        clock := 0 }
  | _, _ => none

/-- Dispatcher of the endorser `i`: one iteration of `dispatchElements`. -/
def World.dispatch (cfg : Config) (w : World) (i : Nat) : Option World :=
  match w.signedChs[i]? with
  | some (p :: rest) =>
    match w.heap[p]? with
    | none => none
    | some e =>
      match dispatchElements cfg w.txid2id w.proposers i e p with
      | none => none
      | some g => some { w with signedChs := w.signedChs.set i rest, proposers := g }
  | _ => none

/-- Worker `(i, j, k)`, lines 129-134 of `Proposer.Start`: a record is taken
from `inCh`, the proposed time is kept, and the remote call starts. -/
def World.propose (w : World) (i j k : Nat) (now : Int) : Option World :=
  match w.proposers.cell i j k with
  | none => none
  | some c =>
    match c.pc, c.inCh with
    | .idle, p :: rest =>
      match w.heap[p]?, w.readClock now with
      | some e, some w1 =>
        match keepProposedTime w1.txid2id w1.timeKeepers e.Txid now with
        | none => none
        | some tks =>
          some { w1 with
            timeKeepers := tks
            proposers := w1.proposers.update i j k
              (fun c => { c with inCh := rest, pc := .calling p }) }
      | _, _ => none
    | _, _ => none

/-- Worker `(i, j, k)`, lines 137-151 of `Proposer.Start`: the remote call
returns `res`; on success the worker takes the lock of the record, appends, and
on the quorum test sends the record on `outCh`.  It then stands before
line 153 with the lock held. -/
def World.endorse (cfg : Config) (w : World) (i j k : Nat) (res : EndorseResult) :
    Option World :=
  match w.proposers.cell i j k with
  | none => none
  | some c =>
    match c.pc with
    | .calling p =>
      match w.heap[p]?, endorsementOf res with
      | some _, some none =>
        some { w with proposers := w.proposers.update i j k (fun c => { c with pc := .idle }) }
      | some e, some (some r) =>
        if e.lock then none
        else
          let s := appendResponse cfg e r
          if s.2 then
            some { w with
              heap := w.heap.set p { s.1 with lock := true }
              endorsedCh := w.endorsedCh ++ [p]
              proposers := w.proposers.update i j k (fun c => { c with pc := .forwarded p }) }
          else
            some { w with
              heap := w.heap.set p s.1
              proposers := w.proposers.update i j k (fun c => { c with pc := .idle }) }
      | _, _ => none
    | _ => none

/-- Worker `(i, j, k)`, lines 153-155 of `Proposer.Start`: the endorsed time is
kept and the lock of the record is released. -/
def World.stamp (w : World) (i j k : Nat) (now : Int) : Option World :=
  match w.proposers.cell i j k with
  | none => none
  | some c =>
    match c.pc with
    | .forwarded p =>
      match w.heap[p]?, w.readClock now with
      | some e, some w1 =>
        match keepEndorsedTime w1.txid2id w1.timeKeepers e.Txid now with
        | none => none
        | some tks =>
          some { w1 with
            timeKeepers := tks
            heap := w1.heap.set p { e with lock := false }
            proposers := w1.proposers.update i j k (fun c => { c with pc := .idle }) }
      | _, _ => none
    | _ => none

/-- An integrator: one iteration of `Integrator.Start`. -/
def World.integrate (CreateSignedTx : Bytes → List ProposalResponse → Except String Envelope)
    (w : World) : Option World :=
  match w.endorsedCh with
  | [] => none
  | p :: rest =>
    match w.heap[p]? with
    | none => none
    | some e =>
      match Integrator.Integrate CreateSignedTx e with
      | .error _ => some { w with endorsedCh := rest, Metric := w.Metric.AddAbort }
      | .ok e1 =>
        some { w with
          endorsedCh := rest
          heap := w.heap.set p e1
          integratedCh := w.integratedCh ++ [p] }

/-- A broadcaster: one iteration of `Broadcaster.send`, the broadcast time is
kept and the envelope of the record is handed to the orderer. -/
def World.broadcast (w : World) (now : Int) : Option World :=
  match w.integratedCh with
  | [] => none
  | p :: rest =>
    match w.heap[p]?, w.readClock now with
    | some e, some w1 =>
      match keepBroadcastTime w1.txid2id w1.timeKeepers e.Txid now with
      | none => none
      | some tks =>
        some { w1 with
          integratedCh := rest
          timeKeepers := tks
          ordererCh := w1.ordererCh ++ [p] }
    | _, _ => none

/-- Lines 54-57 of `processFilteredBlock`: the observed time of every
transaction of the block, each with its own clock reading. -/
def World.keepObservedTimes (w : World) : List (FilteredTransaction × Int) → Option World
  | [] => some w
  | (tx, now) :: rest =>
    match w.readClock now with
    | none => none
    | some w1 =>
      match keepObservedTime w1.txid2id w1.timeKeepers tx.Txid now with
      | none => none
      | some tks => World.keepObservedTimes { w1 with timeKeepers := tks } rest

/-- A transaction id is committed only after its envelope was handed to the
orderer. -/
def World.submitted (w : World) (txid : String) : Bool :=
  w.ordererCh.any (fun p =>
    match w.heap[p]? with
    | none => false
    | some e => e.Txid == txid)

/-- The observer: one block through `processFilteredBlock` (lines 53-70).  The
committing peer only delivers transactions that were submitted. -/
def World.observe (cfg : Config) (w : World) (block : List (FilteredTransaction × Int)) :
    Option World :=
  if w.observerEndCh ∨ ¬ block.all (fun b => w.submitted b.1.Txid) then none
  else
    match w.keepObservedTimes block with
    | none => none
    | some w1 =>
      let r := Observer.classify w1.validTxNum w1.Metric (block.map (fun b => b.1))
      some { w1 with
        validTxNum := r.1
        Metric := r.2
        observerEndCh := Observer.complete cfg r.1 r.2 }

/-- The transitions of the pipeline. -/
inductive Action where
  | dispatch (i : Nat)
  | propose (i j k : Nat) (now : Int)
  | endorse (i j k : Nat) (res : EndorseResult)
  | stamp (i j k : Nat) (now : Int)
  | integrate
  | broadcast (now : Int)
  | observe (block : List (FilteredTransaction × Int))
  deriving DecidableEq

/-- One transition; `none` when the action is not enabled or panics. -/
def World.step (cfg : Config)
    (CreateSignedTx : Bytes → List ProposalResponse → Except String Envelope)
    (w : World) : Action → Option World
  | .dispatch i => w.dispatch cfg i
  | .propose i j k now => w.propose i j k now
  | .endorse i j k res => w.endorse cfg i j k res
  | .stamp i j k now => w.stamp i j k now
  | .integrate => w.integrate CreateSignedTx
  | .broadcast now => w.broadcast now
  | .observe block => w.observe cfg block

/-- A schedule executed from a state. -/
def World.run (cfg : Config)
    (CreateSignedTx : Bytes → List ProposalResponse → Except String Envelope) :
    World → List Action → Option World
  | w, [] => some w
  | w, a :: as =>
    match World.step cfg CreateSignedTx w a with
    | none => none
    | some w1 => World.run cfg CreateSignedTx w1 as

/-- The order `proposed <= endorsed <= broadcast <= observed` on an entry of
the ledger whose four timestamps are set (non-zero). -/
def TimeKeeper.ordered (tk : TimeKeeper) : Prop :=
  tk.ProposedTime ≠ 0 → tk.EndorsedTime ≠ 0 → tk.BroadcastTime ≠ 0 → tk.ObservedTime ≠ 0 →
    tk.ProposedTime ≤ tk.EndorsedTime ∧ tk.EndorsedTime ≤ tk.BroadcastTime ∧
      tk.BroadcastTime ≤ tk.ObservedTime

/-! ## Concrete inputs used in the examples below -/

/-- One endorser, one connection, one client, one transaction. -/
def exampleConfig : Config :=
  { Config.zero with
    Endorsers := [Node.empty]
    EndorserNum := 1
    End2End := true
    Rate := 0
    Burst := 1
    TxNum := 1
    ConnNum := 1
    ClientPerConnNum := 1
    IntegratorNum := 1
    BroadcasterNum := 1 }

/-- Two endorsers, otherwise as `exampleConfig`. -/
def twoEndorsers : Config :=
  { exampleConfig with Endorsers := [Node.empty, Node.empty], EndorserNum := 2 }

/-- A configuration whose rate 50 is above its burst 10. -/
def rateAboveBurst : Config :=
  { exampleConfig with Rate := 50, Burst := 10 }

/-- Two planned transactions, otherwise as `exampleConfig`. -/
def twoTransactions : Config :=
  { exampleConfig with TxNum := 2 }

/-- A run of the counters for two planned transactions: the record `tx1` is
discarded by an integrator, the transaction `tx0` is committed as valid. -/
def exampleRun : List TallyEvent :=
  [.discard "tx1", .block [⟨"tx0", TxValidationCode_VALID⟩], .test]

/-- Two connections of three clients each, seven transactions, otherwise as
`exampleConfig`. -/
def gridConfig : Config :=
  { exampleConfig with ConnNum := 2, ClientPerConnNum := 3, TxNum := 7 }

/-- The grid of `gridConfig`: one endorser, two connections, three clients. -/
def exampleGrid : Grid :=
  [[[⟨0, 0, 0, [], .idle⟩, ⟨0, 0, 1, [], .idle⟩, ⟨0, 0, 2, [], .idle⟩],
    [⟨0, 1, 0, [], .idle⟩, ⟨0, 1, 1, [], .idle⟩, ⟨0, 1, 2, [], .idle⟩]]]

/-- A block of two transactions committed in a run that planned one. -/
def crowdedRun : List TallyEvent :=
  [.block [⟨"tx0", TxValidationCode_VALID⟩, ⟨"other", TxValidationCode_VALID⟩], .test]

/-- A successful endorsement. -/
def exampleResponse : ProposalResponse := ⟨⟨200, "OK"⟩, [1], [7]⟩

/-- An envelope assembly that succeeds on every non-empty response list. -/
def exampleAssembly : Bytes → List ProposalResponse → Except String Envelope
  | _, [] => .error "Fail to find any response"
  | prop, r :: _ => .ok ⟨prop ++ r.Payload, []⟩

/-- A schedule of the single transaction `tx0`: the broadcaster runs between
the send of line 151 and the timestamp of line 153 of the proposer. -/
def raceSchedule : List Action :=
  [ .dispatch 0,
    .propose 0 0 0 1,
    .endorse 0 0 0 ⟨some exampleResponse, none⟩,
    .integrate,
    .broadcast 2,
    .stamp 0 0 0 3,
    .observe [(⟨"tx0", TxValidationCode_VALID⟩, 4)] ]

/-- The same transaction with the proposer running lines 151-155 without
interruption: the endorsed time is kept before any downstream stage runs. -/
def orderlySchedule : List Action :=
  [ .dispatch 0,
    .propose 0 0 0 1,
    .endorse 0 0 0 ⟨some exampleResponse, none⟩,
    .stamp 0 0 0 2,
    .integrate,
    .broadcast 3,
    .observe [(⟨"tx0", TxValidationCode_VALID⟩, 4)] ]

/-! ## Ratios outside the unit interval (`config.go`) -/

/-- A `float64` that is not within the range [0, 1]: a finite value below 0 or
above 1, an infinity, or NaN. -/
def F64.outsideUnit : F64 → Prop
  | .nan => True
  | .negInf => True
  | .finite q => q < 0 ∨ 1 < q
  | .posInf => True

/-- A configuration as read from a file with `conflictRatio: .nan`. -/
def nanRatioConfig : Config :=
  { exampleConfig with ConflictRatio := .nan }

/-! ## Concrete ledger used in the examples of the timing ledger -/

/-- A ledger of two transactions, the first proposed at 5 and broadcast at 9. -/
def exampleLedger : TimeKeepers :=
  ⟨[⟨5, 0, 9, 0⟩, ⟨0, 0, 0, 0⟩], [0, 0], [0, 0], [0, 0], none⟩

/-! ## Initiator (`initiator.go`) and signer (`signer.go`)

Both run to completion before any consumer of their output queue is started
(`End2End`), so a send on a full queue blocks for ever.  A queue is the list of
its entries, oldest first; the nil sentinel is `none`.  A function that panics,
exits through `logger.Fatalf` or blocks for ever has the value `none`. -/

/-- The constant `CH_MAX_CAPACITY` of `process.go`. -/
def CH_MAX_CAPACITY : Nat := 1000000

/-- The struct `Initiator`: the proposals and the transaction ids. -/
structure Initiator where
  proposals : List Bytes
  txids : List String
  deriving DecidableEq, Repr

/-- The records built by the first `n` iterations of the loop of
`Initiator.StartSync`, `&Element{Proposal: it.proposals[i], Txid: it.txids[i]}`
for `i < n`, in the order of the loop. -/
def Initiator.elements (it : Initiator) : Nat → Option (List Element)
  | 0 => some []
  | n + 1 =>
    match Initiator.elements it n, it.proposals[n]?, it.txids[n]? with
    | some l, some prop, some txid => some (l ++ [⟨prop, none, [], false, none, txid⟩])
    | _, _, _ => none

/-- The values that `Initiator.StartSync` sends on `it.outCh`, in order: the
records of the loop over `len(it.proposals)`, then the nil of `it.End()`. -/
def Initiator.sends (it : Initiator) : Option (List (Option Element)) :=
  match Initiator.elements it it.proposals.length with
  | none => none
  | some l => some (l.map some ++ [none])

/-- A goroutine sends the values in order on a queue of the given capacity that
nobody reads: the queue afterwards, or `none` when a send finds the queue full. -/
def sendAll {α : Type} (capacity : Nat) : List α → List α → Option (List α)
  | buf, [] => some buf
  | buf, v :: vs =>
    if buf.length < capacity then sendAll capacity (buf ++ [v]) vs else none

/-- The method `Initiator.StartSync` on the entry queue `outCh` of the given
capacity: the queue when the method returns. -/
def Initiator.StartSync (it : Initiator) (capacity : Nat) (outCh : List (Option Element)) :
    Option (List (Option Element)) :=
  match it.sends with
  | none => none
  | some vs => sendAll capacity outCh vs

/-- The method `Signer.SignElement`, for a signing function `SignProposal`
given as argument. -/
def Signer.SignElement (SignProposal : Bytes → Except String Bytes) (e : Element) :
    Except String Element :=
  match SignProposal e.Proposal with
  | .error err => .error err
  | .ok signedProposal => .ok { e with SignedProposal := some signedProposal }

/-- The first `n` iterations of the loop of lines 36-40 of `Signer.StartSync`,
`s.outCh[i] <- e` for `i < n`, on queues of the given capacity. -/
def Signer.fanOut (capacity : Nat) (e : Element) (outCh : List (List (Option Element))) :
    Nat → Option (List (List (Option Element)))
  | 0 => some outCh
  | n + 1 =>
    match Signer.fanOut capacity e outCh n with
    | none => none
    | some chs =>
      match chs[n]? with
      | none => none
      | some q => if q.length < capacity then some (chs.set n (q ++ [some e])) else none

/-- The method `Signer.StartSync` while `doneCh` is open: the entries of `inCh`
are taken in order up to the nil sentinel; the result is the per-endorser
queues when the method returns.  Without a sentinel the method waits for
ever. -/
def Signer.StartSync (cfg : Config) (SignProposal : Bytes → Except String Bytes)
    (capacity : Nat) :
    List (Option Element) → List (List (Option Element)) →
      Option (List (List (Option Element)))
  | [], _ => none
  | none :: _, outCh => some outCh
  | some e :: rest, outCh =>
    match Signer.SignElement SignProposal e with
    | .error _ => none
    | .ok e1 =>
      match Signer.fanOut capacity e1 outCh cfg.EndorserNum.toNat with
      | none => none
      | some chs => Signer.StartSync cfg SignProposal capacity rest chs

/-- An initiator for three transactions. -/
def exampleInitiator : Initiator :=
  ⟨[[1], [2], [3]], ["tx0", "tx1", "tx2"]⟩

/-- A signing function that always succeeds. -/
def exampleSign : Bytes → Except String Bytes :=
  fun prop => .ok (0 :: prop)

/-! ## Transaction ids (`initiator.go`) -/

/-- The value of an `int` after an arithmetic operation: two's complement on
64 bits. -/
def wrapInt64 (x : Int) : Int :=
  (x + 9223372036854775808) % 18446744073709551616 - 9223372036854775808

/-- The character of a decimal digit. -/
def digitChar (d : Nat) : Char := Char.ofNat (48 + d)

/-- The decimal digits of a natural number, least significant first; the first
argument bounds the number of digits. -/
def decimalRev : Nat → Nat → List Char
  | 0, _ => []
  | fuel + 1, n =>
    if n < 10 then [digitChar n] else digitChar (n % 10) :: decimalRev fuel (n / 10)

/-- The decimal digits of a natural number, most significant first. -/
def decimal (n : Nat) : List Char := (decimalRev (n + 1) n).reverse

/-- The function `strconv.Itoa`: the decimal representation of an `int`, with a
leading `-` for a negative value. -/
def Itoa (n : Int) : String :=
  if n < 0 then ⟨'-' :: decimal n.natAbs⟩ else ⟨decimal n.natAbs⟩

/-- The function `generateCustomTXID`; `name` is the value of `getName(20)`
drawn by the call. -/
def generateCustomTXID (cfg : Config) (i : Int) (session : String) (name : String) : String :=
  Itoa (wrapInt64 (cfg.TxIDStart + i)) ++ "_+=+_" ++ session ++ "_+=+_" ++ name

/-- The function `getSession`; `name` is the value of `getName(20)` drawn when
no session is configured. -/
def getSession (cfg : Config) (name : String) : String :=
  if cfg.Session ≠ "" then cfg.Session else name

/-- The state of `NewInitiator` after the first `n` iterations of its loop:
the map `txid2id` and the proposals and ids stored so far.  `CreateProposal`
(it wraps the proposal builder of the ledger library), the argument lists of
the workload generator and the random names are given as arguments; an error
of `CreateProposal` ends the process. -/
def NewInitiator.iterate (cfg : Config)
    (CreateProposal : String → String → String → String → List String →
      Except String (Bytes × String))
    (ccArgsList : List (List String)) (session : String) (names : Nat → String) :
    Nat → Option (TxidMap × Initiator)
  | 0 => some ([], ⟨[], []⟩)
  | n + 1 =>
    match NewInitiator.iterate cfg CreateProposal ccArgsList session names n with
    | none => none
    | some (txid2id, it) =>
      match ccArgsList[n]? with
      | none => none
      | some ccArgs =>
        let tempTXID :=
          if cfg.CheckTxID then "" else generateCustomTXID cfg n session (names n)
        match CreateProposal tempTXID cfg.Channel cfg.Chaincode cfg.Version ccArgs with
        | .error _ => none
        | .ok (proposal, txID) =>
          some ((txID, n) :: txid2id, ⟨it.proposals ++ [proposal], it.txids ++ [txID]⟩)

/-- The function `NewInitiator`: the map `txid2id` and the initiator. -/
def NewInitiator (cfg : Config)
    (CreateProposal : String → String → String → String → List String →
      Except String (Bytes × String))
    (ccArgsList : List (List String)) (session : String) (names : Nat → String) :
    Option (TxidMap × Initiator) :=
  if cfg.TxNum < 0 then none
  else NewInitiator.iterate cfg CreateProposal ccArgsList session names cfg.TxNum.toNat

/-- A proposal builder that keeps the transaction id it is given. -/
def exampleCreateProposal : String → String → String → String → List String →
    Except String (Bytes × String) :=
  fun txid _ _ _ _ => if txid = "" then .error "no id" else .ok ([], txid)

/-- Three planned transactions with ids starting at 100. -/
def threeTransactions : Config :=
  { exampleConfig with TxNum := 3, TxIDStart := 100 }

/-! ## `float64` arithmetic

A finite `float64` is the rational number it denotes.  An arithmetic operation
on `float64` is the exact operation followed by `roundF64`; under- and
overflow of the exponent are not represented (the values at hand are counts,
rates and nanoseconds). -/

/-- The integer nearest to a rational, ties to the even one. -/
def roundHalfEven (t : ℚ) : Int :=
  let f := ⌊t⌋
  if t - f < 1 / 2 then f
  else if 1 / 2 < t - f then f + 1
  else if f % 2 = 0 then f else f + 1

/-- Rounding to the nearest `float64`.  A value `num / 2^k` with `k <= 64` and
`|num| <= 2^53` is a `float64` and is its own rounding; any other value is
rounded to 53 significant bits, ties to even. -/
def roundF64 (q : ℚ) : ℚ :=
  if q.den ∣ 2 ^ 64 ∧ q.num.natAbs ≤ 2 ^ 53 then q
  else
    let ulp : ℚ := (2 : ℚ) ^ (Int.log 2 |q| - 52)
    (roundHalfEven (q / ulp) : ℚ) * ulp

/-- Go's conversion of a `float64` to an integer type: truncation toward
zero. -/
def truncToInt (x : ℚ) : Int := Int.tdiv x.num x.den

/-! ## Percentiles of the commit latency (`timekeeper.go`) -/

/-- The method `sortCommitLatency`: a copy of `totalLatency`, sorted in
ascending order by `sort.Slice`. -/
def sortCommitLatency (tks : TimeKeepers) : TimeKeepers :=
  { tks with commitLatencySorted := some (tks.totalLatency.insertionSort (· ≤ ·)) }

/-- The method `getCommitLatencyOfPercentile`: the value returned and the
ledger afterwards (the sorted copy is cached by the first call). -/
def getCommitLatencyOfPercentile (cfg : Config) (tks : TimeKeepers) (p : Int) :
    Option (ℚ × TimeKeepers) :=
  let tks1 := if tks.commitLatencySorted = none then sortCommitLatency tks else tks
  let index0 :=
    truncToInt (roundF64 (roundF64 (roundF64 (p : ℚ) / 100) * roundF64 (cfg.TxNum : ℚ)))
  let index := if index0 < 0 then 0 else if index0 ≥ cfg.TxNum then cfg.TxNum - 1 else index0
  match tks1.commitLatencySorted with
  | none => none
  | some sorted =>
    if index < 0 then none
    else
      match sorted[index.toNat]? with
      | none => none
      | some x => some (roundF64 (roundF64 (x : ℚ) / 1000000000), tks1)

/-- A ledger of five transactions with their total latencies. -/
def latencyLedger : TimeKeepers :=
  ⟨List.replicate 5 ⟨0, 0, 0, 0⟩, List.replicate 5 0, List.replicate 5 0,
    [4000000000, 1000000000, 5000000000, 3000000000, 2000000000], none⟩

/-- Five planned transactions, otherwise as `exampleConfig`. -/
def fiveTransactions : Config :=
  { exampleConfig with TxNum := 5 }

/-! ## Token generation (`proposer.go`, `broadcaster.go`) -/

/-- What a token-generation loop does: it sleeps for a number of nanoseconds,
or it sends a token on `tokenCh`. -/
inductive TokenEvent where
  | sleep (ns : Int)
  | push
  deriving DecidableEq, Repr

/-- The sleep of the proposer pool's loop:
`time.Duration(1e9 / float64(config.Rate) * float64(config.EndorserNum))`. -/
def Proposers.interval (cfg : Config) : Int :=
  truncToInt (roundF64 (roundF64 (1000000000 / roundF64 (cfg.Rate : ℚ)) *
    roundF64 (cfg.EndorserNum : ℚ)))

/-- The first `n` iterations of the loop of `Proposers.generateTokens`. -/
def Proposers.generateTokens (cfg : Config) : Nat → List TokenEvent
  | 0 => []
  | n + 1 =>
    if cfg.Rate = 0 then Proposers.generateTokens cfg n ++ [.push]
    else Proposers.generateTokens cfg n ++ [.sleep (Proposers.interval cfg), .push]

/-- The sleep of the broadcaster pool's loop: `1e9 / config.Rate` on `int`. -/
def Broadcasters.interval (cfg : Config) : Int :=
  Int.tdiv 1000000000 cfg.Rate

/-- The first `n` iterations of the loop of `Broadcasters.generateTokens`. -/
def Broadcasters.generateTokens (cfg : Config) : Nat → List TokenEvent
  | 0 => []
  | n + 1 =>
    if cfg.Rate = 0 then Broadcasters.generateTokens cfg n ++ [.push]
    else Broadcasters.generateTokens cfg n ++ [.push, .sleep (Broadcasters.interval cfg)]

/-- Two endorsers and a rate of ten tokens per second. -/
def rateTen : Config :=
  { twoEndorsers with Rate := 10, Burst := 10 }

/-! ## End of the run and report (`observer.go`, `process.go`) -/

/-- Lines 71-73 of `processFilteredBlock`: no block arrived for 30 seconds, the
observer closes `observerEndCh` and returns. -/
def World.timeout (w : World) : Option World :=
  if w.observerEndCh then none else some { w with observerEndCh := true }

/-- The first three lines that `WaitObserverEnd` sends to the report:
the planned total `config.TxNum`, the difference
`int32(config.TxNum)-Metric.Abort` computed on `int32`, and `Metric.Abort`. -/
def reportCounts (cfg : Config) (m : MetricInstance) : List String :=
  [ "ALL Transactions: " ++ Itoa cfg.TxNum,
    "VALID Transactions: " ++ Itoa (wrapInt32 (wrapInt32 cfg.TxNum - (m.Abort : Int))),
    "ABORTED Transactions: " ++ Itoa (m.Abort : Int) ]

/-- The counts reported by `WaitObserverEnd`, which waits until
`observerEndCh` is closed. -/
def World.report (cfg : Config) (w : World) : Option (List String) :=
  if w.observerEndCh then some (reportCounts cfg w.Metric) else none

/-- The states a schedule passes through, the first one included, up to the
first action that is not enabled. -/
def World.states (cfg : Config)
    (CreateSignedTx : Bytes → List ProposalResponse → Except String Envelope) :
    World → List Action → List World
  | w, [] => [w]
  | w, a :: as =>
    match World.step cfg CreateSignedTx w a with
    | none => [w]
    | some w1 => w :: World.states cfg CreateSignedTx w1 as

/-- Scenario B: ten planned transactions and two endorsers, one connection and
one client per endorser. -/
def scenarioB : Config :=
  { twoEndorsers with TxNum := 10 }

/-- The ten transaction ids of scenario B. -/
def scenarioBTxids : List String :=
  ["tx0", "tx1", "tx2", "tx3", "tx4", "tx5", "tx6", "tx7", "tx8", "tx9"]

/-- An endorsement with a non-success status. -/
def failedResponse : ProposalResponse := ⟨⟨500, "failed"⟩, [], []⟩

/-- A schedule of scenario B: every record is routed to both endorsers; the
endorser 0 answers with status 200 and the endorser 1 with status 500. -/
def scenarioBSchedule : List Action :=
  (List.range 10).flatMap (fun p =>
    [ .dispatch 0, .dispatch 1,
      .propose 0 0 0 (2 * (p : Int) + 1),
      .endorse 0 0 0 ⟨some exampleResponse, none⟩,
      .propose 1 0 0 (2 * (p : Int) + 2),
      .endorse 1 0 0 ⟨some failedResponse, none⟩ ])


/-! ## Assignments to the timing ledger along a run -/

/-- The four timestamp fields of a ledger entry. -/
inductive Field where
  | proposed
  | endorsed
  | broadcast
  | observed
  deriving DecidableEq, Repr

/-- The value of a field of a ledger entry. -/
def Field.read : Field → TimeKeeper → Int
  | .proposed, tk => tk.ProposedTime
  | .endorsed, tk => tk.EndorsedTime
  | .broadcast, tk => tk.BroadcastTime
  | .observed, tk => tk.ObservedTime

/-- The assignments to timestamp fields that a transition executes from the
state `w`, each as the field and the index `id := txid2id[txid]` of the entry:
the call of `keepProposedTime` at line 134 of `Proposer.Start` for the record
taken from `inCh`, the call of `keepEndorsedTime` at line 153 for the record the
worker holds, the call of `keepBroadcastTime` of the broadcaster for the record
taken from its queue, and one call of `keepObservedTime` per transaction of a
block. -/
def World.writes (w : World) : Action → List (Field × Nat)
  | .propose i j k _ =>
    match w.proposers.cell i j k with
    | none => []
    | some c =>
      match c.inCh with
      | [] => []
      | p :: _ =>
        match w.heap[p]? with
        | none => []
        | some e => [(.proposed, w.txid2id.get e.Txid)]
  | .stamp i j k _ =>
    match w.proposers.cell i j k with
    | none => []
    | some c =>
      match c.pc with
      | .forwarded p =>
        match w.heap[p]? with
        | none => []
        | some e => [(.endorsed, w.txid2id.get e.Txid)]
      | _ => []
  | .broadcast _ =>
    match w.integratedCh with
    | [] => []
    | p :: _ =>
      match w.heap[p]? with
      | none => []
      | some e => [(.broadcast, w.txid2id.get e.Txid)]
  | .observe block => block.map (fun b => (.observed, w.txid2id.get b.1.Txid))
  | _ => []

/-- The assignments to timestamp fields along a schedule, in the order of
execution, up to the first action that is not enabled. -/
def World.log (cfg : Config)
    (CreateSignedTx : Bytes → List ProposalResponse → Except String Envelope) :
    World → List Action → List (Field × Nat)
  | _, [] => []
  | w, a :: as =>
    match World.step cfg CreateSignedTx w a with
    | none => []
    | some w1 => w.writes a ++ World.log cfg CreateSignedTx w1 as

/-- The transaction ids of the blocks delivered in a schedule, in order. -/
def committed : List Action → List String
  | [] => []
  | .observe block :: as => block.map (fun b => b.1.Txid) ++ committed as
  | _ :: as => committed as

/-- The number of occurrences of the record `q` in the queue of a worker. -/
def Proposer.queued (q : Nat) (c : Proposer) : Nat := c.inCh.count q

/-- Whether the worker is inside the remote call for the record `q`. -/
def Proposer.inCall (q : Nat) (c : Proposer) : Nat :=
  if c.pc = .calling q then 1 else 0

/-- Whether the worker has forwarded the record `q` and not yet kept its
endorsed time. -/
def Proposer.holding (q : Nat) (c : Proposer) : Nat :=
  if c.pc = .forwarded q then 1 else 0

/-- The sum of a measure over all workers of the grid. -/
def Grid.sum (g : Grid) (h : Proposer → Nat) : Nat :=
  (g.map (fun conns => (conns.map (fun clients => (clients.map h).sum)).sum)).sum

/-- The number of occurrences of the record `q` in the queues of the
dispatchers. -/
def World.waiting (w : World) (q : Nat) : Nat :=
  (w.signedChs.map (fun ch => ch.count q)).sum

/-- The number of responses appended to the record `q`. -/
def World.responses (w : World) (q : Nat) : Nat :=
  match w.heap[q]? with
  | none => 0
  | some e => e.Responses.length

/-- The position of the record `q` in the proposer stage, with `L` the
assignments executed so far: every endorser's copy of the record is waiting,
queued, in a call, or answered; the record is forwarded once, after which its
endorsed time is kept once; and it passes each later queue once. -/
structure Stage (cfg : Config) (txids : List String) (w : World) (L : List (Field × Nat))
    (q : Nat) : Prop where
  heap : w.heap.map (fun e => e.Txid) = txids
  map : w.txid2id = buildTxidMap txids
  proposed : L.count (.proposed, q) + w.waiting q + w.proposers.sum (Proposer.queued q) ≤
    cfg.EndorserNum.toNat
  copies : w.waiting q + w.proposers.sum (Proposer.queued q) +
    w.proposers.sum (Proposer.inCall q) + w.responses q ≤ cfg.EndorserNum.toNat
  once : w.proposers.sum (Proposer.holding q) + L.count (.endorsed, q) ≤ 1
  quorum : 1 ≤ w.proposers.sum (Proposer.holding q) + L.count (.endorsed, q) →
    cfg.EndorserNum.toNat ≤ w.responses q
  downstream : w.endorsedCh.count q + w.integratedCh.count q + L.count (.broadcast, q) ≤
    w.proposers.sum (Proposer.holding q) + L.count (.endorsed, q)

/-- Two endorsers and one transaction: both workers take the record. -/
def doubleProposal : List Action :=
  [.dispatch 0, .dispatch 1, .propose 0 0 0 1, .propose 1 0 0 2]

/-- Two endorsers and one transaction, from dispatch to commit. -/
def twoEndorserRun : List Action :=
  [ .dispatch 0, .dispatch 1,
    .propose 0 0 0 1,
    .propose 1 0 0 2,
    .endorse 0 0 0 ⟨some exampleResponse, none⟩,
    .endorse 1 0 0 ⟨some exampleResponse, none⟩,
    .stamp 1 0 0 3,
    .integrate,
    .broadcast 4,
    .observe [(⟨"tx0", TxValidationCode_VALID⟩, 5)] ]

/-! ## The observer without the peer (`observer.go`) -/

/-- Lines 53-70 of `processFilteredBlock` on a block received from
`deliverCh`, whatever the block holds: `World.observe` is this function
restricted to the blocks a committing peer delivers. -/
def World.processFilteredBlock (cfg : Config) (w : World)
    (block : List (FilteredTransaction × Int)) : Option World :=
  if w.observerEndCh then none
  else
    match w.keepObservedTimes block with
    | none => none
    | some w1 =>
      let r := Observer.classify w1.validTxNum w1.Metric (block.map (fun b => b.1))
      some { w1 with
        validTxNum := r.1
        Metric := r.2
        observerEndCh := Observer.complete cfg r.1 r.2 }

/-- A ledger of one transaction, proposed at 5 and broadcast at 9. -/
def singleLedger : TimeKeepers :=
  ⟨[⟨5, 0, 9, 0⟩], [0], [0], [0], none⟩

/-- A schedule of two planned transactions in which only `tx0` is committed. -/
def partialSchedule : List Action :=
  [ .dispatch 0,
    .propose 0 0 0 1,
    .endorse 0 0 0 ⟨some exampleResponse, none⟩,
    .stamp 0 0 0 2,
    .integrate,
    .broadcast 3,
    .observe [(⟨"tx0", TxValidationCode_VALID⟩, 4)] ]

/-! ## Envelope assembly (`proposal.go`) -/

/-- The function `checkResponsesStatusValidity`: the error of the first
response whose status is below 200 or not below 400, `none` for a nil error. -/
def checkResponsesStatusValidity : List ProposalResponse → Option String
  | [] => none
  | r :: rs =>
    if r.Response.Status < 200 ∨ r.Response.Status ≥ 400 then
      some ("proposal response was not successful, error code " ++ Itoa r.Response.Status ++
        ", msg " ++ r.Response.Message)
    else checkResponsesStatusValidity rs

/-- The function `getProposalResponsePayloadByte`, `responses[0].Payload`: an
empty list panics. -/
def getProposalResponsePayloadByte (responses : List ProposalResponse) : Option Bytes :=
  match responses[0]? with
  | none => none
  | some r => some r.Payload

/-- The loop of `checkResponsePayloadValidity` from the index `i` on: the
index 0 is skipped, and `bytes.Compare(payloadBytes, r.Payload) != 0` at a later
index returns the error. -/
def checkResponsePayloadValidity.loop (payloadBytes : Bytes) :
    Nat → List ProposalResponse → Option String
  | _, [] => none
  | i, r :: rs =>
    if i = 0 then checkResponsePayloadValidity.loop payloadBytes (i + 1) rs
    else if payloadBytes ≠ r.Payload then
      some "ProposalResponsePayloads from Peers do not match"
    else checkResponsePayloadValidity.loop payloadBytes (i + 1) rs

/-- The function `checkResponsePayloadValidity`: the outer `none` is the panic
of `getProposalResponsePayloadByte`, the inner one a nil error. -/
def checkResponsePayloadValidity (responses : List ProposalResponse) :
    Option (Option String) :=
  match getProposalResponsePayloadByte responses with
  | none => none
  | some payloadBytes => some (checkResponsePayloadValidity.loop payloadBytes 0 responses)

/-- The function `collectEndorsements`: `none` when it panics. -/
def collectEndorsements (responses : List ProposalResponse) :
    Option (Except String (List Bytes)) :=
  match checkResponsesStatusValidity responses with
  | some err => some (.error err)
  | none =>
    match checkResponsePayloadValidity responses with
    | none => none
    | some (some err) => some (.error err)
    | some none => some (.ok (responses.map (fun r => r.Endorsement)))

/-- The function `CreateSignedTx` of `proposal.go`.  `mustPrintTXRWSet` only
prints, and panics on a payload it cannot decode; lines 97-116 build the header,
the action payload (with `collectEndorsements`), the transaction, the payload
and the envelope with the protobuf and ledger libraries and are given as the
argument `assemble`. -/
def CreateSignedTx (cfg : Config) (mustPrintTXRWSet : List ProposalResponse → Option Unit)
    (assemble : Bytes → List ProposalResponse → Option (Except String Envelope))
    (proposal : Bytes) (responses : List ProposalResponse) :
    Option (Except String Envelope) :=
  if responses.length = 0 then some (.error "Fail to find any response")
  else if cfg.CheckRWSet then
    match mustPrintTXRWSet responses with
    | none => none
    | some _ => assemble proposal responses
  else assemble proposal responses

/-- A response with status 200 whose payload differs from that of
`exampleResponse`. -/
def otherPayloadResponse : ProposalResponse := ⟨⟨200, "OK"⟩, [2], [8]⟩

/-! ## Connections (`client.go`) -/

/-- The constant `MAX_TRY`. -/
def MAX_TRY : Nat := 3

/-- A handle `*comm.GRPCClient`. -/
structure GRPCClient where
  id : Nat
  deriving DecidableEq, Repr

/-- A connection `*grpc.ClientConn` that is not nil. -/
structure ClientConn where
  target : String
  deriving DecidableEq, Repr

/-- The function `errors.Wrapf` of the library `github.com/pkg/errors`, on the
formatted message: a nil error is returned as nil, any other error is
annotated with the message. -/
def Wrapf (err : Option String) (message : String) : Option String :=
  match err with
  | none => none
  | some cause => some (message ++ ": " ++ cause)

/-- The function `newGRPCClient`; `NewGRPCClient` is the constructor of the
package `comm` applied to the client configuration of the node. -/
def newGRPCClient (NewGRPCClient : Node → Except String GRPCClient) (node : Node) :
    Except String GRPCClient :=
  match NewGRPCClient node with
  | .error err => .error ("error connecting to " ++ node.Address ++ ": " ++ err)
  | .ok grpcClient => .ok grpcClient

/-- The loop of lines 95-105 of `DialConnection` and the return of line 106,
from the attempt `i` with `n` attempts left.  The pair `conn, err` declared
by `:=` in the body of the loop is local to the body; the `err` of line 106 is
the variable `err` of line 90, given here as the argument `err`.  The format of
line 106 has two verbs and one operand. -/
def DialConnection.loop (NewConnection : Nat → Option ClientConn × Option String)
    (address : String) (err : Option String) :
    Nat → Nat → Option ClientConn × Option String
  | _, 0 => (none, Wrapf err ("failed to dial " ++ address ++ ": %!s(MISSING)"))
  | i, n + 1 =>
    match NewConnection i with
    | (conn, none) => (conn, none)
    | (_, some _) => DialConnection.loop NewConnection address err (i + 1) n

/-- The function `DialConnection`: the pair `(conn, err)` it returns.
`NewConnection client address i` is the result of the `i`-th call of
`gRPCClient.NewConnection`. -/
def DialConnection (NewGRPCClient : Node → Except String GRPCClient)
    (NewConnection : GRPCClient → String → Nat → Option ClientConn × Option String)
    (node : Node) : Option ClientConn × Option String :=
  match newGRPCClient NewGRPCClient node with
  | .error err => (none, some err)
  | .ok gRPCClient =>
    DialConnection.loop (NewConnection gRPCClient node.Address) node.Address none 1 MAX_TRY

/-- A node at the address `peer0:7051`. -/
def examplePeer : Node :=
  { Node.empty with Address := "peer0:7051" }

/-- A network on which every connection attempt fails. -/
def unreachable : GRPCClient → String → Nat → Option ClientConn × Option String :=
  fun _ _ _ => (none, some "context deadline exceeded")

/-! ## Records discarded by the integrators along a run -/

/-- The record that a transition discards, as its pointer: an integrator whose
envelope assembly fails adds one to the abort counter and drops the record
(`integrator.go`, lines 37-41). -/
def World.discarded
    (CreateSignedTx : Bytes → List ProposalResponse → Except String Envelope)
    (w : World) : Action → List Nat
  | .integrate =>
    match w.endorsedCh with
    | [] => []
    | p :: _ =>
      match w.heap[p]? with
      | none => []
      | some e =>
        match Integrator.Integrate CreateSignedTx e with
        | .error _ => [p]
        | .ok _ => []
  | _ => []

/-- The records discarded by integrators along a schedule, in the order of
execution, up to the first action that is not enabled. -/
def World.discards (cfg : Config)
    (CreateSignedTx : Bytes → List ProposalResponse → Except String Envelope) :
    World → List Action → List Nat
  | _, [] => []
  | w, a :: as =>
    match World.step cfg CreateSignedTx w a with
    | none => []
    | some w1 => w.discarded CreateSignedTx a ++ World.discards cfg CreateSignedTx w1 as

/-- The position of the record `q` after the proposer stage, with `L` the
assignments executed so far and `D` the records discarded so far: a record
that was forwarded is discarded, waiting for an integrator or a broadcaster, or
handed to the orderer, and only records of the heap are forwarded. -/
structure Flow (w : World) (L : List (Field × Nat)) (D : List Nat) (q : Nat) : Prop where
  passed : D.count q + w.ordererCh.count q + w.integratedCh.count q + w.endorsedCh.count q ≤
    w.proposers.sum (Proposer.holding q) + L.count (.endorsed, q)
  valid : 1 ≤ D.count q + w.ordererCh.count q + w.integratedCh.count q + w.endorsedCh.count q →
    q < w.heap.length

/-- Two planned transactions: `tx0` is discarded by an integrator, `tx1` is
committed as valid. -/
def mixedSchedule : List Action :=
  [ .dispatch 0, .dispatch 0,
    .propose 0 0 0 1,
    .endorse 0 0 0 ⟨some exampleResponse, none⟩,
    .stamp 0 0 0 2,
    .propose 0 0 0 3,
    .endorse 0 0 0 ⟨some otherPayloadResponse, none⟩,
    .stamp 0 0 0 4,
    .integrate, .integrate,
    .broadcast 5,
    .observe [(⟨"tx1", TxValidationCode_VALID⟩, 6)] ]

/-- An envelope assembly that fails on the payload `[1]` of `exampleResponse`
and succeeds on every other first response. -/
def pickyAssembly : Bytes → List ProposalResponse → Except String Envelope
  | _, [] => .error "Fail to find any response"
  | prop, r :: _ =>
    if r.Payload = [1] then .error "ProposalResponsePayloads from Peers do not match"
    else .ok ⟨prop ++ r.Payload, []⟩

/-- An initiator built for `CH_MAX_CAPACITY` transactions. -/
def millionInitiator : Initiator :=
  ⟨List.replicate CH_MAX_CAPACITY [], List.replicate CH_MAX_CAPACITY "tx"⟩

/-- A pipeline state with the ledger `singleLedger` of the transaction `tx0`,
the observer waiting for a block. -/
def ledgerWorld : World :=
  { txid2id := [("tx0", 0)]
    heap := [⟨[], some [], [], false, none, "tx0"⟩]
    signedChs := [[]]
    proposers := [[[⟨0, 0, 0, [], .idle⟩]]]
    endorsedCh := []
    integratedCh := []
    ordererCh := [0]
    timeKeepers := singleLedger
    Metric := NewMetricInstance
    validTxNum := 0
    observerEndCh := false
    clock := 9 }
/-! ## Theorems -/

/-! ### Proposer: the quorum test (C1, C2) -/

theorem appendSteps_length (cfg : Config) (rs : List ProposalResponse) :
    ∀ e : Element, (appendSteps cfg e rs).length = rs.length := by
  induction rs with
  | nil => intro e; rfl
  | cons r rs ih => intro e; simp [appendSteps, ih]

theorem appendSteps_get (cfg : Config) (rs : List ProposalResponse) :
    ∀ (e : Element) (k : Nat) (x : Element × Bool),
      (appendSteps cfg e rs)[k]? = some x →
      x.1.Responses.length = e.Responses.length + k + 1 ∧
      x.2 = decide (cfg.EndorserNum ≤ ((e.Responses.length + k + 1 : Nat) : Int)) := by
  induction rs with
  | nil => intro e k x h; simp [appendSteps] at h
  | cons r rs ih =>
    intro e k x h
    cases k with
    | zero =>
      simp [appendSteps, appendResponse] at h
      subst h
      simp
    | succ k =>
      simp only [appendSteps, List.getElem?_cons_succ] at h
      have := ih _ k x h
      simp only [appendResponse, List.length_append, List.length_singleton] at this
      constructor
      · omega
      · rw [this.2]
        congr 2
        omega

theorem appendResponse_length (cfg : Config) (e : Element) (r : ProposalResponse) :
    ((appendResponse cfg e r).1.Responses.length : Int) = (e.Responses.length : Int) + 1 := by
  simp [appendResponse]

theorem appendResponse_snd (cfg : Config) (e : Element) (r : ProposalResponse) :
    (appendResponse cfg e r).2 = decide (cfg.EndorserNum ≤ (e.Responses.length : Int) + 1) := by
  simp [appendResponse]

theorem appendSteps_count (cfg : Config) (rs : List ProposalResponse) :
    ∀ e : Element, (e.Responses.length : Int) + (rs.length : Int) ≤ cfg.EndorserNum →
      ((appendSteps cfg e rs).filter (fun x => x.2)).length =
        if rs ≠ [] ∧ (e.Responses.length : Int) + (rs.length : Int) = cfg.EndorserNum
        then 1 else 0 := by
  induction rs with
  | nil => intro e _; simp [appendSteps]
  | cons r rs ih =>
    intro e h
    have hl : ((r :: rs).length : Int) = (rs.length : Int) + 1 := by simp
    rw [hl] at h ⊢
    have h1 := ih (appendResponse cfg e r).1 (by rw [appendResponse_length]; omega)
    rw [appendResponse_length] at h1
    simp only [appendSteps, List.filter_cons, appendResponse_snd, decide_eq_true_eq]
    by_cases hq : cfg.EndorserNum ≤ (e.Responses.length : Int) + 1
    · have hrs : rs = [] := by
        apply List.eq_nil_of_length_eq_zero
        omega
      subst hrs
      simp only [List.length_nil, Nat.cast_zero, zero_add] at h
      have heq : (e.Responses.length : Int) + 1 = cfg.EndorserNum := by omega
      simp [hq, appendSteps, heq]
    · rw [if_neg hq, h1]
      by_cases hrs : rs = []
      · subst hrs
        have : ¬ ((e.Responses.length : Int) + 1 = cfg.EndorserNum) := by omega
        simp [this]
      · have hiff : ((e.Responses.length : Int) + 1 + (rs.length : Int) = cfg.EndorserNum) ↔
            ((e.Responses.length : Int) + ((rs.length : Int) + 1) = cfg.EndorserNum) := by
          constructor <;> intro h <;> omega
        simp [hrs, hiff]

theorem appendAndCheck_fst (cfg : Config) (e : Element) (outCh : List Element)
    (resp : ProposalResponse) :
    (appendAndCheck cfg e outCh resp).1 = { e with Responses := e.Responses ++ [resp] } := by
  simp only [appendAndCheck, appendResponse]
  split <;> rfl

theorem appendAndCheck_snd (cfg : Config) (e : Element) (outCh : List Element)
    (resp : ProposalResponse) :
    (appendAndCheck cfg e outCh resp).2 =
      if cfg.EndorserNum ≤ (e.Responses.length : Int) + 1 then
        outCh ++ [{ e with Responses := e.Responses ++ [resp] }]
      else outCh := by
  simp only [appendAndCheck, appendResponse, List.length_append, List.length_singleton,
    Nat.cast_add, Nat.cast_one, decide_eq_true_eq]
  split <;> rfl

theorem appendAll_eq (cfg : Config) (rs : List ProposalResponse) :
    ∀ (e : Element) (outCh : List Element),
      (e.Responses.length : Int) + (rs.length : Int) ≤ cfg.EndorserNum →
      appendAll cfg e outCh rs =
        ({ e with Responses := e.Responses ++ rs },
          if rs ≠ [] ∧ (e.Responses.length : Int) + (rs.length : Int) = cfg.EndorserNum
          then outCh ++ [{ e with Responses := e.Responses ++ rs }] else outCh) := by
  induction rs with
  | nil => intro e outCh _; simp [appendAll]
  | cons r rs ih =>
    intro e outCh h
    have hl : ((r :: rs).length : Int) = (rs.length : Int) + 1 := by simp
    rw [hl] at h ⊢
    have hfst := appendAndCheck_fst cfg e outCh r
    have hsnd := appendAndCheck_snd cfg e outCh r
    have hlen1 : (((appendAndCheck cfg e outCh r).1.Responses.length : Nat) : Int)
        = (e.Responses.length : Int) + 1 := by
      rw [hfst]; simp
    have h1 := ih (appendAndCheck cfg e outCh r).1 (appendAndCheck cfg e outCh r).2
      (by rw [hlen1]; omega)
    simp only [appendAll]
    rw [h1, hlen1, hfst, hsnd]
    simp only [List.append_assoc, List.singleton_append]
    by_cases hrs : rs = []
    · subst hrs
      simp only [List.length_nil, Nat.cast_zero, zero_add, add_zero] at h ⊢
      by_cases hq : cfg.EndorserNum ≤ (e.Responses.length : Int) + 1
      · have heq : (e.Responses.length : Int) + 1 = cfg.EndorserNum := by omega
        simp [hq, heq]
      · have hne : ¬ ((e.Responses.length : Int) + 1 = cfg.EndorserNum) := by omega
        simp [hq, hne]
    · have hpos : 0 < rs.length := List.length_pos.2 hrs
      have hq : ¬ (cfg.EndorserNum ≤ (e.Responses.length : Int) + 1) := by omega
      have hiff : ((e.Responses.length : Int) + 1 + (rs.length : Int) = cfg.EndorserNum) ↔
          ((e.Responses.length : Int) + ((rs.length : Int) + 1) = cfg.EndorserNum) := by
        constructor <;> intro h <;> omega
      simp [hq, hrs, hiff]

/-- C1: for `EndorserNum >= 1` and a record whose response list starts empty
and that receives at most `EndorserNum` successful append-and-check steps, the
record is forwarded to the integration queue at most once; it is forwarded once
exactly when `EndorserNum` steps happen, the forwarding step is the
`EndorserNum`-th one, and at that step the response list has length exactly
`EndorserNum`.  On the queue: after the steps the integration queue holds one
more entry, the record with all its responses, when `EndorserNum` steps
happened, and is unchanged otherwise. -/
theorem quorum_forward_once (cfg : Config) (e : Element) (rs : List ProposalResponse)
    (hN : 1 ≤ cfg.EndorserNum) (h0 : e.Responses = [])
    (hlen : (rs.length : Int) ≤ cfg.EndorserNum) (outCh : List Element) :
    (appendAll cfg e outCh rs).2 =
      (if (rs.length : Int) = cfg.EndorserNum then outCh ++ [{ e with Responses := rs }]
        else outCh) ∧
    (appendSteps cfg e rs).length = rs.length ∧
    ((appendSteps cfg e rs).filter (fun x => x.2)).length ≤ 1 ∧
    (((appendSteps cfg e rs).filter (fun x => x.2)).length = 1 ↔
      (rs.length : Int) = cfg.EndorserNum) ∧
    (∀ (k : Nat) (x : Element × Bool), (appendSteps cfg e rs)[k]? = some x →
      (x.2 = true ↔ ((k : Int) + 1 = cfg.EndorserNum))) ∧
    (∀ (k : Nat) (x : Element × Bool), (appendSteps cfg e rs)[k]? = some x →
      x.2 = true → (x.1.Responses.length : Int) = cfg.EndorserNum) := by
  have hc := appendSteps_count cfg rs e (by simp [h0]; exact hlen)
  simp only [h0, List.length_nil, Nat.cast_zero, zero_add] at hc
  have hall := appendAll_eq cfg rs e outCh (by simp [h0]; exact hlen)
  simp only [h0, List.length_nil, Nat.cast_zero, zero_add, List.nil_append] at hall
  refine ⟨?_, appendSteps_length cfg rs e, ?_, ?_, ?_, ?_⟩
  · rw [hall]
    by_cases hq : (rs.length : Int) = cfg.EndorserNum
    · have hne : rs ≠ [] := by
        intro hr; subst hr; simp at hq; omega
      simp [hq, hne]
    · simp [hq]
  · rw [hc]; split <;> simp
  · rw [hc]
    constructor
    · intro h
      split at h
      · rename_i h2; exact h2.2
      · simp at h
    · intro h
      have : rs ≠ [] := by
        intro hr; subst hr; simp at h; omega
      simp [this, h]
  · intro k x hx
    have hk : k < rs.length := by
      have := (List.getElem?_eq_some.1 hx).1
      rwa [appendSteps_length] at this
    have := (appendSteps_get cfg rs e k x hx).2
    rw [this, h0]
    simp only [List.length_nil, Nat.zero_add, decide_eq_true_eq]
    push_cast
    constructor
    · intro h; omega
    · intro h; omega
  · intro k x hx hx2
    have hk : k < rs.length := by
      have := (List.getElem?_eq_some.1 hx).1
      rwa [appendSteps_length] at this
    obtain ⟨h1, h2⟩ := appendSteps_get cfg rs e k x hx
    rw [h2, h0] at hx2
    rw [h1, h0]
    simp only [List.length_nil, Nat.zero_add, decide_eq_true_eq] at hx2 ⊢
    push_cast at hx2 ⊢
    omega

/-- C1, at a concrete input: two endorsers, two successful responses. -/
theorem quorum_forward_once_witness :
    (1 : Int) ≤ twoEndorsers.EndorserNum ∧
    (⟨[], none, [], false, none, "tx0"⟩ : Element).Responses = [] ∧
    (([exampleResponse, exampleResponse] : List ProposalResponse).length : Int)
      ≤ twoEndorsers.EndorserNum ∧
    ((appendAll twoEndorsers ⟨[], none, [], false, none, "tx0"⟩ []
        [exampleResponse, exampleResponse]).2 =
      (if (([exampleResponse, exampleResponse] : List ProposalResponse).length : Int)
          = twoEndorsers.EndorserNum
        then [] ++ [{ (⟨[], none, [], false, none, "tx0"⟩ : Element) with
          Responses := [exampleResponse, exampleResponse] }]
        else []) ∧
    (appendSteps twoEndorsers ⟨[], none, [], false, none, "tx0"⟩
        [exampleResponse, exampleResponse]).length
      = ([exampleResponse, exampleResponse] : List ProposalResponse).length ∧
    ((appendSteps twoEndorsers ⟨[], none, [], false, none, "tx0"⟩
        [exampleResponse, exampleResponse]).filter (fun x => x.2)).length ≤ 1 ∧
    (((appendSteps twoEndorsers ⟨[], none, [], false, none, "tx0"⟩
        [exampleResponse, exampleResponse]).filter (fun x => x.2)).length = 1 ↔
      (([exampleResponse, exampleResponse] : List ProposalResponse).length : Int)
        = twoEndorsers.EndorserNum) ∧
    (∀ (k : Nat) (x : Element × Bool),
      (appendSteps twoEndorsers ⟨[], none, [], false, none, "tx0"⟩
        [exampleResponse, exampleResponse])[k]? = some x →
      (x.2 = true ↔ ((k : Int) + 1 = twoEndorsers.EndorserNum))) ∧
    (∀ (k : Nat) (x : Element × Bool),
      (appendSteps twoEndorsers ⟨[], none, [], false, none, "tx0"⟩
        [exampleResponse, exampleResponse])[k]? = some x →
      x.2 = true → (x.1.Responses.length : Int) = twoEndorsers.EndorserNum)) :=
  ⟨by decide, rfl, by decide,
    quorum_forward_once twoEndorsers ⟨[], none, [], false, none, "tx0"⟩
      [exampleResponse, exampleResponse] (by decide) rfl (by decide) []⟩

/-- C2 (as stated, refuted): with a quorum of one endorser and a record that
already holds one response, the append makes the list of length 2, which is not
the quorum, and the record is forwarded all the same. -/
theorem forward_above_quorum :
    (appendResponse exampleConfig ⟨[], none, [exampleResponse], false, none, "tx0"⟩
        exampleResponse).2 = true ∧
      ((appendResponse exampleConfig ⟨[], none, [exampleResponse], false, none, "tx0"⟩
        exampleResponse).1.Responses.length : Int) ≠ exampleConfig.EndorserNum := by
  decide

/-- C2 (amended): for every record state and every successful endorsement
response, the append-and-check step forwards the record to the integration
queue if and only if the length of the response list after the append is at
least the configured endorser count; the record and the queue are otherwise
only changed by the append. -/
theorem forward_iff_quorum_reached (cfg : Config) (e : Element) (outCh : List Element)
    (resp : ProposalResponse) :
    ((appendAndCheck cfg e outCh resp).1 = { e with Responses := e.Responses ++ [resp] }) ∧
    ((appendAndCheck cfg e outCh resp).2 =
        outCh ++ [{ e with Responses := e.Responses ++ [resp] }] ↔
      cfg.EndorserNum ≤ (((appendAndCheck cfg e outCh resp).1.Responses.length : Nat) : Int)) ∧
    ((appendAndCheck cfg e outCh resp).2 = outCh ↔
      (((appendAndCheck cfg e outCh resp).1.Responses.length : Nat) : Int) < cfg.EndorserNum) := by
  have h1 := appendAndCheck_fst cfg e outCh resp
  have h2 := appendAndCheck_snd cfg e outCh resp
  rw [h1, h2]
  refine ⟨rfl, ?_, ?_⟩
  · by_cases h : cfg.EndorserNum ≤ (e.Responses.length : Int) + 1
    · simp [h]
    · simp [h]
  · by_cases h : cfg.EndorserNum ≤ (e.Responses.length : Int) + 1
    · simp [h]
    · simp only [if_neg h, true_iff]
      simp
      omega

/-! ### Timestamps along the pipeline (C3) -/

/-- C3 (the code at the failing schedule): one endorser, one transaction, a
clock that only moves forward.  The proposer sends the record on the
integration queue (line 151) before it keeps the endorsed time (line 153); an
integrator and a broadcaster run in between.  All four timestamps of the
transaction are set and `EndorsedTime = 3 > BroadcastTime = 2`. -/
theorem timestamp_order_broken :
    ∃ w, (World.start exampleConfig ["tx0"]).bind
        (fun w0 => World.run exampleConfig exampleAssembly w0 raceSchedule) = some w ∧
      w.timeKeepers.transactions = [⟨1, 3, 2, 4⟩] ∧
      ¬ (∀ tk ∈ w.timeKeepers.transactions, tk.ordered) := by
  refine ⟨_, by rfl, by rfl, ?_⟩
  intro h
  have h1 := h ⟨1, 3, 2, 4⟩ (List.mem_singleton.2 rfl)
    (by decide) (by decide) (by decide) (by decide)
  exact absurd h1.2.1 (by decide)

/-- The schedule in which the proposer is not interrupted between lines 151
and 153 leaves the four timestamps in order. -/
theorem orderly_schedule_ordered :
    ∃ w, (World.start exampleConfig ["tx0"]).bind
        (fun w0 => World.run exampleConfig exampleAssembly w0 orderlySchedule) = some w ∧
      w.timeKeepers.transactions = [⟨1, 2, 3, 4⟩] ∧
      ∀ tk ∈ w.timeKeepers.transactions, tk.ordered := by
  refine ⟨_, by rfl, by rfl, ?_⟩
  intro tk htk
  have h1 : tk = ⟨1, 2, 3, 4⟩ := List.mem_singleton.1 htk
  subst h1
  intro _ _ _ _
  decide

/-! ### Outcome counters and the completion test (C4, C5) -/

theorem classify_fst (txs : List FilteredTransaction) :
    ∀ (v : Nat) (m : MetricInstance),
      (Observer.classify v m txs).1 =
        v + (txs.filter (fun tx => tx.TxValidationCode = TxValidationCode_VALID)).length := by
  induction txs with
  | nil => intro v m; simp [Observer.classify]
  | cons tx txs ih =>
    intro v m
    by_cases h : tx.TxValidationCode = TxValidationCode_VALID
    · simp [Observer.classify, h, ih]; omega
    · simp [Observer.classify, h, ih]

theorem classify_sum (txs : List FilteredTransaction) :
    ∀ (v : Nat) (m : MetricInstance),
      (Observer.classify v m txs).1 + (Observer.classify v m txs).2.Abort =
        v + m.Abort + txs.length := by
  induction txs with
  | nil => intro v m; simp [Observer.classify]
  | cons tx txs ih =>
    intro v m
    by_cases h : tx.TxValidationCode = TxValidationCode_VALID
    · simp only [Observer.classify, h, if_true, ih, List.length_cons]; omega
    · simp only [Observer.classify, h, if_false, ih, List.length_cons,
        MetricInstance.AddAbort]; omega

theorem Tally.run_counts (cfg : Config) (evs : List TallyEvent) :
    ∀ s s1 : Tally, Tally.run cfg s evs = some s1 →
      s1.validTxNum + s1.Metric.Abort =
        s.validTxNum + s.Metric.Abort + classifiedCount evs + discardCount evs ∧
      s1.validTxNum = s.validTxNum + validCount evs := by
  induction evs with
  | nil =>
    intro s s1 h
    simp only [Tally.run, Option.some.injEq] at h
    subst h
    simp [classifiedCount, discardCount, validCount]
  | cons ev evs ih =>
    intro s s1 h
    simp only [Tally.run] at h
    cases hstep : Tally.step cfg s ev with
    | none => simp [hstep] at h
    | some s2 =>
      simp only [hstep] at h
      obtain ⟨h1, h2⟩ := ih s2 s1 h
      cases ev with
      | discard txid =>
        simp only [Tally.step, Option.some.injEq] at hstep
        subst hstep
        simp only [MetricInstance.AddAbort] at h1 h2
        simp only [classifiedCount, discardCount, validCount]
        constructor <;> omega
      | block txs =>
        simp only [Tally.step] at hstep
        split at hstep
        · simp at hstep
        · split at hstep
          · simp at hstep
          · simp only [Option.some.injEq] at hstep
            subst hstep
            simp only at h1 h2
            have hs := classify_sum txs s.validTxNum s.Metric
            have hf := classify_fst txs s.validTxNum s.Metric
            simp only [classifiedCount, discardCount, validCount]
            constructor <;> omega
      | test =>
        simp only [Tally.step] at hstep
        split at hstep
        · simp at hstep
        · split at hstep
          · simp only [Option.some.injEq] at hstep
            subst hstep
            simp only at h1 h2
            simp only [classifiedCount, discardCount, validCount]
            constructor <;> omega
          · simp only [Option.some.injEq] at hstep
            subst hstep
            simp only at h1 h2
            simp only [classifiedCount, discardCount, validCount]
            constructor <;> omega
      | timeout =>
        simp only [Tally.step] at hstep
        split at hstep
        · simp at hstep
        · simp only [Option.some.injEq] at hstep
          subst hstep
          simp only at h1 h2
          simp only [classifiedCount, discardCount, validCount]
          constructor <;> omega

theorem accountedTxids_length (evs : List TallyEvent) :
    (accountedTxids evs).length = classifiedCount evs + discardCount evs := by
  induction evs with
  | nil => rfl
  | cons ev evs ih =>
    cases ev with
    | discard txid => simp only [accountedTxids, classifiedCount, discardCount, List.length_cons, ih]; omega
    | block txs =>
      simp only [accountedTxids, classifiedCount, discardCount, List.length_append,
        List.length_map, ih]; omega
    | test => simp only [accountedTxids, classifiedCount, discardCount, ih]
    | timeout => simp only [accountedTxids, classifiedCount, discardCount, ih]

theorem Tally.run_not_ended_atTest (cfg : Config) (evs : List TallyEvent) :
    ∀ s s1 : Tally, ¬ (s.observerEndCh = true ∧ s.atTest = true) →
      Tally.run cfg s evs = some s1 → ¬ (s1.observerEndCh = true ∧ s1.atTest = true) := by
  induction evs with
  | nil =>
    intro s s1 hs h
    simp only [Tally.run, Option.some.injEq] at h
    subst h
    exact hs
  | cons ev evs ih =>
    intro s s1 hs h
    simp only [Tally.run] at h
    cases hstep : Tally.step cfg s ev with
    | none => simp [hstep] at h
    | some s2 =>
      simp only [hstep] at h
      refine ih s2 s1 ?_ h
      cases ev with
      | discard txid =>
        simp only [Tally.step, Option.some.injEq] at hstep
        subst hstep
        exact hs
      | block txs =>
        simp only [Tally.step] at hstep
        split at hstep
        · simp at hstep
        · rename_i hn
          split at hstep
          · simp at hstep
          · simp only [Option.some.injEq] at hstep
            subst hstep
            simp only
            intro hc
            exact hn (Or.inl hc.1)
      | test =>
        simp only [Tally.step] at hstep
        split at hstep
        · simp at hstep
        · split at hstep
          · simp only [Option.some.injEq] at hstep
            subst hstep
            simp
          · simp only [Option.some.injEq] at hstep
            subst hstep
            simp
      | timeout =>
        simp only [Tally.step] at hstep
        split at hstep
        · simp at hstep
        · rename_i hn
          simp only [Option.some.injEq] at hstep
          subst hstep
          simp only
          intro hc
          exact hn (Or.inr hc.2)

/-- C4 (as stated, refuted): an integrator discards the record `tx0`; the
abort counter is 1 and the valid count 0, while the observer has observed and
classified no transaction.  And a committed block that carries a transaction
of another client next to `tx0` brings the sum to 2 in a run that planned one
transaction. -/
theorem accounting_counts_discards :
    (∃ s, Tally.run exampleConfig Tally.init [.discard "tx0"] = some s ∧
      s.validTxNum + s.Metric.Abort = 1 ∧ classifiedCount [.discard "tx0"] = 0 ∧
      s.validTxNum + s.Metric.Abort ≠ classifiedCount [.discard "tx0"]) ∧
    (∃ s, Tally.run exampleConfig Tally.init crowdedRun = some s ∧
      exampleConfig.TxNum = 1 ∧ s.validTxNum + s.Metric.Abort = 2 ∧
      ¬ (((s.validTxNum + s.Metric.Abort : Nat) : Int) ≤ exampleConfig.TxNum)) :=
  ⟨⟨⟨0, ⟨1⟩, false, false⟩, by decide, by decide, by decide, by decide⟩,
    ⟨⟨2, ⟨0⟩, true, false⟩, by decide, by decide, by decide, by decide⟩⟩

/-- In a run of the counters alone, the observer's valid count plus the abort
counter equals the number of transactions classified plus the number of
records discarded; the sum is bounded by `TxNum` when the events account for
pairwise distinct planned transactions. -/
theorem Tally.accounting (cfg : Config) (evs : List TallyEvent) (s : Tally)
    (h : Tally.run cfg Tally.init evs = some s) :
    s.validTxNum + s.Metric.Abort = classifiedCount evs + discardCount evs ∧
    (∀ txids : List String, (txids.length : Int) = cfg.TxNum →
      (accountedTxids evs).Nodup → (∀ t ∈ accountedTxids evs, t ∈ txids) →
      ((s.validTxNum + s.Metric.Abort : Nat) : Int) ≤ cfg.TxNum) := by
  have h1 := (Tally.run_counts cfg evs Tally.init s h).1
  simp only [Tally.init, NewMetricInstance, Nat.zero_add, Nat.add_zero] at h1
  have h2 : s.validTxNum + s.Metric.Abort = classifiedCount evs + discardCount evs := by
    omega
  refine ⟨h2, ?_⟩
  intro txids hlen hnd hsub
  have hle : (accountedTxids evs).length ≤ txids.length :=
    (List.Nodup.subperm hnd hsub).length_le
  rw [accountedTxids_length] at hle
  rw [h2, ← hlen]
  exact_mod_cast hle

/-- A value in the `int32` range is not changed by a conversion to `int32`. -/
theorem wrapInt32_of_range (x : Int) (h0 : -2147483648 ≤ x) (h1 : x < 2147483648) :
    wrapInt32 x = x := by
  unfold wrapInt32
  omega

/-- On values in the `int32` range the test of line 67 is the comparison of
the numbers. -/
theorem Observer.complete_iff (cfg : Config) (validTxNum : Nat) (m : MetricInstance)
    (hlo : -2147483648 ≤ cfg.TxNum) (hhi : cfg.TxNum < 2147483648)
    (hsum : validTxNum + m.Abort < 2147483648) :
    Observer.complete cfg validTxNum m = true ↔
      cfg.TxNum ≤ ((validTxNum + m.Abort : Nat) : Int) := by
  unfold Observer.complete
  rw [wrapInt32_of_range _ hlo hhi, wrapInt32_of_range _ (by omega) (by omega)]
  simp

/-- C5: in a run of the counters with `TxNum` and the sum of the two counters
in the `int32` range, when the observer has classified a block and stands at
the completion test, its valid count is the number of VALID transactions of
all blocks processed so far; the test closes `observerEndCh` if and only if
that count plus the current abort counter is at least `TxNum`; after closing,
the observer takes no further block and runs no further test; otherwise
nothing is closed and the observer takes the next block. -/
theorem completion_condition (cfg : Config) (evs : List TallyEvent) (s : Tally)
    (h : Tally.run cfg Tally.init evs = some s) (hat : s.atTest = true)
    (hlo : -2147483648 ≤ cfg.TxNum) (hhi : cfg.TxNum < 2147483648)
    (hsum : validCount evs + s.Metric.Abort < 2147483648) :
    s.validTxNum = validCount evs ∧
    ∃ s1, Tally.step cfg s .test = some s1 ∧
      (s1.observerEndCh = true ↔
        cfg.TxNum ≤ ((validCount evs + s.Metric.Abort : Nat) : Int)) ∧
      s1.validTxNum = s.validTxNum ∧ s1.Metric = s.Metric ∧ s1.atTest = false ∧
      (s1.observerEndCh = true →
        Tally.step cfg s1 .test = none ∧ ∀ txs, Tally.step cfg s1 (.block txs) = none) ∧
      (s1.observerEndCh = false → ∀ txs, (Tally.step cfg s1 (.block txs)).isSome = true) := by
  have hv := (Tally.run_counts cfg evs Tally.init s h).2
  simp only [Tally.init, Nat.zero_add] at hv
  have hinv := Tally.run_not_ended_atTest cfg evs Tally.init s (by simp [Tally.init]) h
  have hend : s.observerEndCh = false := by
    cases he : s.observerEndCh with
    | false => rfl
    | true => exact absurd ⟨he, hat⟩ hinv
  refine ⟨hv, ?_⟩
  have hiff := Observer.complete_iff cfg s.validTxNum s.Metric hlo hhi (by omega)
  by_cases hc : Observer.complete cfg s.validTxNum s.Metric = true
  · refine ⟨{ s with observerEndCh := true, atTest := false }, ?_, ?_, rfl, rfl, rfl, ?_, ?_⟩
    · simp [Tally.step, hend, hat, hc]
    · simp only [true_iff]
      rw [← hv]
      exact hiff.1 hc
    · intro _
      simp [Tally.step]
    · intro hf
      simp at hf
  · refine ⟨{ s with atTest := false }, ?_, ?_, rfl, rfl, rfl, ?_, ?_⟩
    · simp [Tally.step, hend, hat, hc]
    · simp only [hend, Bool.false_eq_true, false_iff]
      rw [← hv]
      exact fun hle => hc (hiff.2 hle)
    · intro hf
      simp [hend] at hf
    · intro _ txs
      have hpos : ¬ (txs ≠ [] ∧ cfg.TxNum ≤ 0) := by
        have hlt : ¬ (cfg.TxNum ≤ ((s.validTxNum + s.Metric.Abort : Nat) : Int)) :=
          fun hle => hc (hiff.2 hle)
        omega
      simp only [Tally.step, hend, Bool.false_eq_true, or_self, if_false, hpos,
        Option.isSome_some]

/-- C5, at a concrete run: two planned transactions, one discarded and one
valid; after the block the test closes `observerEndCh`. -/
theorem completion_condition_witness :
    Tally.run twoTransactions Tally.init (exampleRun.take 2) = some ⟨1, ⟨1⟩, false, true⟩ ∧
    (⟨1, ⟨1⟩, false, true⟩ : Tally).atTest = true ∧
    -2147483648 ≤ twoTransactions.TxNum ∧ twoTransactions.TxNum < 2147483648 ∧
    validCount (exampleRun.take 2) + (⟨1, ⟨1⟩, false, true⟩ : Tally).Metric.Abort < 2147483648 ∧
    (⟨1, ⟨1⟩, false, true⟩ : Tally).validTxNum = validCount (exampleRun.take 2) ∧
    ∃ s1, Tally.step twoTransactions ⟨1, ⟨1⟩, false, true⟩ .test = some s1 ∧
      (s1.observerEndCh = true ↔
        twoTransactions.TxNum ≤
          ((validCount (exampleRun.take 2) + (⟨1, ⟨1⟩, false, true⟩ : Tally).Metric.Abort : Nat)
            : Int)) ∧
      s1.validTxNum = (⟨1, ⟨1⟩, false, true⟩ : Tally).validTxNum ∧
      s1.Metric = (⟨1, ⟨1⟩, false, true⟩ : Tally).Metric ∧ s1.atTest = false ∧
      (s1.observerEndCh = true →
        Tally.step twoTransactions s1 .test = none ∧
          ∀ txs, Tally.step twoTransactions s1 (.block txs) = none) ∧
      (s1.observerEndCh = false →
        ∀ txs, (Tally.step twoTransactions s1 (.block txs)).isSome = true) :=
  ⟨by decide, rfl, by decide, by decide, by decide,
    completion_condition twoTransactions (exampleRun.take 2) ⟨1, ⟨1⟩, false, true⟩
      (by decide) rfl (by decide) (by decide) (by decide)⟩

/-! ### Proposer: the endorsement result (C6) -/

/-- C6: a transport or application error, or a response whose status is below
200 or at least 400, leaves the record and the integration queue unchanged; a
response without error and with a status in [200,400) is appended as the last
element of the response list, nothing else of the record changes. -/
theorem endorsement_failure_dropped (cfg : Config) (e : Element) (outCh : List Element)
    (res : EndorseResult) :
    ((res.err ≠ none ∨
        ∃ r, res.resp = some r ∧ (r.Response.Status < 200 ∨ r.Response.Status ≥ 400)) →
      Proposer.handleResult cfg e outCh res = some (e, outCh)) ∧
    (∀ r, res.err = none → res.resp = some r → 200 ≤ r.Response.Status →
        r.Response.Status < 400 →
      ∃ e1 outCh1, Proposer.handleResult cfg e outCh res = some (e1, outCh1) ∧
        e1 = { e with Responses := e.Responses ++ [r] } ∧
        e1.Responses.getLast? = some r ∧
        e1.Responses.length = e.Responses.length + 1) := by
  constructor
  · intro h
    unfold Proposer.handleResult endorsementOf
    rcases h with h | ⟨r, hr, hs⟩
    · cases herr : res.err with
      | none => exact absurd herr h
      | some _ => rfl
    · cases herr : res.err with
      | some _ => rfl
      | none => simp [hr, hs]
  · intro r herr hr h1 h2
    refine ⟨{ e with Responses := e.Responses ++ [r] }, (appendAndCheck cfg e outCh r).2, ?_, rfl, ?_, ?_⟩
    · unfold Proposer.handleResult endorsementOf
      have hs : ¬ (r.Response.Status < 200 ∨ r.Response.Status ≥ 400) := by omega
      simp only [herr, hr, hs, if_false]
      rw [← appendAndCheck_fst cfg e outCh r]
    · simp
    · simp

/-- C6, at concrete inputs: a status 500 is dropped and a status 200 is
appended. -/
theorem endorsement_failure_dropped_witness :
    ((⟨some ⟨⟨500, "bad"⟩, [], []⟩, none⟩ : EndorseResult).err ≠ none ∨
        ∃ r, (⟨some ⟨⟨500, "bad"⟩, [], []⟩, none⟩ : EndorseResult).resp = some r ∧
          (r.Response.Status < 200 ∨ r.Response.Status ≥ 400)) ∧
    Proposer.handleResult exampleConfig ⟨[], none, [], false, none, "tx0"⟩ []
        ⟨some ⟨⟨500, "bad"⟩, [], []⟩, none⟩
      = some (⟨[], none, [], false, none, "tx0"⟩, []) ∧
    (200 : Int) ≤ exampleResponse.Response.Status ∧ exampleResponse.Response.Status < 400 ∧
    ∃ e1 outCh1,
      Proposer.handleResult exampleConfig ⟨[], none, [], false, none, "tx0"⟩ []
          ⟨some exampleResponse, none⟩ = some (e1, outCh1) ∧
        e1 = { (⟨[], none, [], false, none, "tx0"⟩ : Element) with
          Responses := [] ++ [exampleResponse] } ∧
        e1.Responses.getLast? = some exampleResponse ∧
        e1.Responses.length = 0 + 1 :=
  ⟨Or.inr ⟨_, rfl, Or.inr (by decide)⟩,
    (endorsement_failure_dropped exampleConfig ⟨[], none, [], false, none, "tx0"⟩ []
      ⟨some ⟨⟨500, "bad"⟩, [], []⟩, none⟩).1 (Or.inr ⟨_, rfl, Or.inr (by decide)⟩),
    by decide, by decide,
    (endorsement_failure_dropped exampleConfig ⟨[], none, [], false, none, "tx0"⟩ []
      ⟨some exampleResponse, none⟩).2 exampleResponse rfl rfl (by decide) (by decide)⟩

/-! ### Integrator (C7) -/

/-- C7: when the envelope assembly returns an error, the abort counter grows by
exactly one, the envelope queue and the record are unchanged (an unset
`Envelope` stays unset); when it returns an envelope, the abort counter is
unchanged and exactly that record, with `Envelope` set to the assembled
envelope, is appended to the envelope queue. -/
theorem integrator_outcomes
    (CreateSignedTx : Bytes → List ProposalResponse → Except String Envelope)
    (m : MetricInstance) (outCh : List Element) (e : Element) :
    (∀ err, CreateSignedTx e.Proposal e.Responses = .error err →
      (Integrator.iteration CreateSignedTx m outCh e).1.Abort = m.Abort + 1 ∧
      (Integrator.iteration CreateSignedTx m outCh e).2.1 = outCh ∧
      (Integrator.iteration CreateSignedTx m outCh e).2.2 = e ∧
      (e.Envelope = none → (Integrator.iteration CreateSignedTx m outCh e).2.2.Envelope = none)) ∧
    (∀ envelope, CreateSignedTx e.Proposal e.Responses = .ok envelope →
      (Integrator.iteration CreateSignedTx m outCh e).1 = m ∧
      (Integrator.iteration CreateSignedTx m outCh e).2.1 =
        outCh ++ [{ e with Envelope := some envelope }] ∧
      (Integrator.iteration CreateSignedTx m outCh e).2.2 =
        { e with Envelope := some envelope }) := by
  constructor
  · intro err h
    simp [Integrator.iteration, Integrator.Integrate, h, MetricInstance.AddAbort]
  · intro envelope h
    simp [Integrator.iteration, Integrator.Integrate, h]

/-- C7, at concrete inputs: a record without responses fails the assembly and
is counted as aborted; a record with one response is assembled and pushed. -/
theorem integrator_outcomes_witness :
    exampleAssembly (⟨[], none, [], false, none, "tx0"⟩ : Element).Proposal
        (⟨[], none, [], false, none, "tx0"⟩ : Element).Responses
      = .error "Fail to find any response" ∧
    ((Integrator.iteration exampleAssembly ⟨0⟩ [] ⟨[], none, [], false, none, "tx0"⟩).1.Abort
        = (⟨0⟩ : MetricInstance).Abort + 1 ∧
      (Integrator.iteration exampleAssembly ⟨0⟩ [] ⟨[], none, [], false, none, "tx0"⟩).2.1 = [] ∧
      (Integrator.iteration exampleAssembly ⟨0⟩ [] ⟨[], none, [], false, none, "tx0"⟩).2.2
        = ⟨[], none, [], false, none, "tx0"⟩ ∧
      ((⟨[], none, [], false, none, "tx0"⟩ : Element).Envelope = none →
        (Integrator.iteration exampleAssembly ⟨0⟩ []
          ⟨[], none, [], false, none, "tx0"⟩).2.2.Envelope = none)) ∧
    exampleAssembly (⟨[], none, [exampleResponse], false, none, "tx0"⟩ : Element).Proposal
        (⟨[], none, [exampleResponse], false, none, "tx0"⟩ : Element).Responses
      = .ok ⟨[1], []⟩ ∧
    ((Integrator.iteration exampleAssembly ⟨0⟩ []
        ⟨[], none, [exampleResponse], false, none, "tx0"⟩).1 = ⟨0⟩ ∧
      (Integrator.iteration exampleAssembly ⟨0⟩ []
        ⟨[], none, [exampleResponse], false, none, "tx0"⟩).2.1
        = [] ++ [{ (⟨[], none, [exampleResponse], false, none, "tx0"⟩ : Element) with
            Envelope := some ⟨[1], []⟩ }] ∧
      (Integrator.iteration exampleAssembly ⟨0⟩ []
        ⟨[], none, [exampleResponse], false, none, "tx0"⟩).2.2
        = { (⟨[], none, [exampleResponse], false, none, "tx0"⟩ : Element) with
            Envelope := some ⟨[1], []⟩ }) :=
  ⟨rfl,
    (integrator_outcomes exampleAssembly ⟨0⟩ [] ⟨[], none, [], false, none, "tx0"⟩).1
      "Fail to find any response" rfl,
    rfl,
    (integrator_outcomes exampleAssembly ⟨0⟩ []
      ⟨[], none, [exampleResponse], false, none, "tx0"⟩).2 ⟨[1], []⟩ rfl⟩

/-! ### Routing of records to the worker grid (C8, C9) -/

/-- On non-negative values Go's truncated operators are the natural-number
division and remainder. -/
theorem routeSequence_eq (cfg : Config) (C K : Nat) (hC : cfg.ConnNum = C)
    (hK : cfg.ClientPerConnNum = K) (hC0 : 0 < C) (hK0 : 0 < K) (s : Nat) :
    routeSequence cfg s = some ((((s / K) % C : Nat) : Int), ((s % K : Nat) : Int)) := by
  unfold routeSequence
  have h1 : ¬ (cfg.ClientPerConnNum = 0 ∨ cfg.ConnNum = 0) := by
    rw [hC, hK]; omega
  rw [if_neg h1, hC, hK]
  have e1 : Int.tdiv (s : Int) (K : Int) = ((s / K : Nat) : Int) := by
    rw [Int.tdiv_eq_ediv (Int.ofNat_nonneg _) (Int.ofNat_nonneg _)]; norm_cast
  have e2 : Int.tmod ((s / K : Nat) : Int) (C : Int) = (((s / K) % C : Nat) : Int) := by
    rw [Int.tmod_eq_emod (Int.ofNat_nonneg _) (Int.ofNat_nonneg _)]; norm_cast
  have e3 : Int.tmod (s : Int) (K : Int) = ((s % K : Nat) : Int) := by
    rw [Int.tmod_eq_emod (Int.ofNat_nonneg _) (Int.ofNat_nonneg _)]; norm_cast
  rw [e1, e2, e3]

theorem Grid.cell_update (g : Grid) (i j k : Nat) (f : Proposer → Proposer) (i1 j1 k1 : Nat) :
    (g.update i j k f).cell i1 j1 k1 =
      if i = i1 ∧ j = j1 ∧ k = k1 then (g.cell i j k).map f else g.cell i1 j1 k1 := by
  unfold Grid.update Grid.cell
  rw [List.getElem?_modify]
  by_cases hi : i = i1
  · subst hi
    cases hg : g[i]? with
    | none => simp
    | some conns =>
      simp only [Option.map_eq_map, Option.map_some', if_true, true_and]
      rw [List.getElem?_modify]
      by_cases hj : j = j1
      · subst hj
        cases hc : conns[j]? with
        | none => simp
        | some clients =>
          simp only [Option.map_eq_map, Option.map_some', if_true, true_and]
          rw [List.getElem?_modify]
          by_cases hk : k = k1
          · subst hk
            cases hcl : clients[k]? <;> simp
          · cases hcl : clients[k1]? <;> simp [hk]
      · cases hc : conns[j1]? <;> simp [hj]
  · cases hg : g[i1]? <;> simp [hi]

theorem NewProposers_cell (cfg : Config) (g : Grid) (h : NewProposers cfg = some g)
    (i j k : Nat) (hi : i < cfg.Endorsers.length) (hj : (j : Int) < cfg.ConnNum)
    (hk : (k : Int) < cfg.ClientPerConnNum) :
    g.cell i j k = some ⟨i, j, k, [], .idle⟩ := by
  unfold NewProposers at h
  split at h
  · simp at h
  split at h
  · simp at h
  simp only [Option.some.injEq] at h
  subst h
  have hj1 : j < cfg.ConnNum.toNat := by omega
  have hk1 : k < cfg.ClientPerConnNum.toNat := by omega
  unfold Grid.cell
  rw [List.getElem?_append_left (by simpa using hi)]
  simp [List.getElem?_map, List.getElem?_range, hi, hj1, hk1]

/-- C8: for a record with sequence index `seq = txid2id[Txid]`, with
`ConnNum >= 1` and `ClientPerConnNum >= 1`, `parseElementIndexes` returns
`connIndex = (seq / ClientPerConnNum) % ConnNum` and
`clientIndex = seq % ClientPerConnNum`, and the dispatcher of the endorser `i`
appends the record to the queue of the worker cell
`proposers[i][connIndex][clientIndex]` and changes no other cell. -/
theorem routing_hash (cfg : Config) (txid2id : TxidMap) (g : Grid) (i : Nat) (e : Element)
    (p seq : Nat) (hseq : txid2id.get e.Txid = seq)
    (hC : 1 ≤ cfg.ConnNum) (hK : 1 ≤ cfg.ClientPerConnNum)
    (hg : ∀ j k : Nat, (j : Int) < cfg.ConnNum → (k : Int) < cfg.ClientPerConnNum →
      (g.cell i j k).isSome = true) :
    parseElementIndexes cfg txid2id e =
      some (((seq : Int) / cfg.ClientPerConnNum) % cfg.ConnNum,
        (seq : Int) % cfg.ClientPerConnNum) ∧
    ∃ g1, dispatchElements cfg txid2id g i e p = some g1 ∧
      g1.cell i (((seq : Int) / cfg.ClientPerConnNum) % cfg.ConnNum).toNat
          ((seq : Int) % cfg.ClientPerConnNum).toNat =
        (g.cell i (((seq : Int) / cfg.ClientPerConnNum) % cfg.ConnNum).toNat
          ((seq : Int) % cfg.ClientPerConnNum).toNat).map
            (fun c => { c with inCh := c.inCh ++ [p] }) ∧
      (∀ i1 j1 k1 : Nat,
        ¬ (i = i1 ∧ (((seq : Int) / cfg.ClientPerConnNum) % cfg.ConnNum).toNat = j1 ∧
            ((seq : Int) % cfg.ClientPerConnNum).toNat = k1) →
        g1.cell i1 j1 k1 = g.cell i1 j1 k1) := by
  obtain ⟨C, hCe⟩ : ∃ C : Nat, cfg.ConnNum = (C : Int) :=
    ⟨cfg.ConnNum.toNat, (Int.toNat_of_nonneg (by omega)).symm⟩
  obtain ⟨K, hKe⟩ : ∃ K : Nat, cfg.ClientPerConnNum = (K : Int) :=
    ⟨cfg.ClientPerConnNum.toNat, (Int.toNat_of_nonneg (by omega)).symm⟩
  have hC0 : 0 < C := by omega
  have hK0 : 0 < K := by omega
  have hparse : parseElementIndexes cfg txid2id e =
      some ((((seq / K) % C : Nat) : Int), ((seq % K : Nat) : Int)) := by
    unfold parseElementIndexes
    rw [hseq]
    exact routeSequence_eq cfg C K hCe hKe hC0 hK0 seq
  have e1 : ((seq : Int) / cfg.ClientPerConnNum) % cfg.ConnNum = (((seq / K) % C : Nat) : Int) := by
    rw [hCe, hKe]; norm_cast
  have e2 : (seq : Int) % cfg.ClientPerConnNum = ((seq % K : Nat) : Int) := by
    rw [hKe]; norm_cast
  rw [e1, e2]
  refine ⟨hparse, ?_⟩
  have hcell := hg ((seq / K) % C) (seq % K)
    (by rw [hCe]; exact_mod_cast Nat.mod_lt _ hC0)
    (by rw [hKe]; exact_mod_cast Nat.mod_lt _ hK0)
  obtain ⟨c0, hc0⟩ := Option.isSome_iff_exists.1 hcell
  refine ⟨g.update i ((seq / K) % C) (seq % K) (fun c => { c with inCh := c.inCh ++ [p] }),
    ?_, ?_, ?_⟩
  · unfold dispatchElements
    rw [hparse]
    simp only [Grid.send, Int.toNat_ofNat, hc0]
    have : ¬ ((((seq / K) % C : Nat) : Int) < 0 ∨ (((seq % K : Nat) : Int)) < 0) := by omega
    rw [if_neg this]
  · simp only [Int.toNat_ofNat]
    rw [Grid.cell_update]
    simp
  · intro i1 j1 k1 hne
    simp only [Int.toNat_ofNat] at hne
    rw [Grid.cell_update, if_neg hne]

/-- C8, at a concrete input: two connections of three clients, sequence index 4
of the endorser 0 goes to the cell `proposers[0][1][1]`. -/
theorem routing_hash_witness :
    TxidMap.get [("tx4", 4)] (⟨[], none, [], false, none, "tx4"⟩ : Element).Txid = 4 ∧
    (1 : Int) ≤ gridConfig.ConnNum ∧ (1 : Int) ≤ gridConfig.ClientPerConnNum ∧
    NewProposers gridConfig = some exampleGrid ∧
    (∀ j k : Nat, (j : Int) < gridConfig.ConnNum → (k : Int) < gridConfig.ClientPerConnNum →
      (exampleGrid.cell 0 j k).isSome = true) ∧
    (parseElementIndexes gridConfig [("tx4", 4)] ⟨[], none, [], false, none, "tx4"⟩ =
      some ((((4 : Nat) : Int) / gridConfig.ClientPerConnNum) % gridConfig.ConnNum,
        ((4 : Nat) : Int) % gridConfig.ClientPerConnNum) ∧
    ∃ g1, dispatchElements gridConfig [("tx4", 4)] exampleGrid 0
        ⟨[], none, [], false, none, "tx4"⟩ 4 = some g1 ∧
      g1.cell 0 ((((4 : Nat) : Int) / gridConfig.ClientPerConnNum) % gridConfig.ConnNum).toNat
          (((4 : Nat) : Int) % gridConfig.ClientPerConnNum).toNat =
        (exampleGrid.cell 0
          ((((4 : Nat) : Int) / gridConfig.ClientPerConnNum) % gridConfig.ConnNum).toNat
          (((4 : Nat) : Int) % gridConfig.ClientPerConnNum).toNat).map
            (fun c => { c with inCh := c.inCh ++ [4] }) ∧
      (∀ i1 j1 k1 : Nat,
        ¬ (0 = i1 ∧
            ((((4 : Nat) : Int) / gridConfig.ClientPerConnNum) % gridConfig.ConnNum).toNat = j1 ∧
            (((4 : Nat) : Int) % gridConfig.ClientPerConnNum).toNat = k1) →
        g1.cell i1 j1 k1 = exampleGrid.cell i1 j1 k1)) :=
  ⟨by decide, by decide, by decide, by decide,
    fun j k hj hk => by
      rw [NewProposers_cell gridConfig exampleGrid (by decide) 0 j k (by decide) hj hk]; rfl,
    routing_hash gridConfig [("tx4", 4)] exampleGrid 0 ⟨[], none, [], false, none, "tx4"⟩ 4 4
      (by decide) (by decide) (by decide)
      (fun j k hj hk => by
        rw [NewProposers_cell gridConfig exampleGrid (by decide) 0 j k (by decide) hj hk]; rfl)⟩

theorem range_filter_length_eq_count (p : Nat → Prop) [DecidablePred p] (N : Nat) :
    ((List.range N).filter (fun s => decide (p s))).length = Nat.count p N := by
  induction N with
  | zero => simp
  | succ n ih =>
    rw [List.range_succ, List.filter_append, List.length_append, ih, Nat.count_succ]
    by_cases h : p n <;> simp [h]

theorem cell_iff_mod (C K s c k : Nat) (hK : 0 < K) (hk : k < K) :
    ((s / K) % C = c ∧ s % K = k) ↔ s % (K * C) = c * K + k := by
  have hmod : s % (K * C) = s % K + K * (s / K % C) := Nat.mod_mul
  constructor
  · rintro ⟨h1, h2⟩
    rw [hmod, h1, h2]; ring
  · intro h
    have h1 : s % K = k := by
      have := Nat.mod_mul_right_mod s K C
      rw [h] at this
      rw [← this, Nat.mul_comm, Nat.mul_add_mod, Nat.mod_eq_of_lt hk]
    have h2 : s / K % C = c := by
      have := Nat.mod_mul_right_div_self s K C
      rw [h] at this
      rw [← this, Nat.mul_comm c K, Nat.mul_add_div hK, Nat.div_eq_of_lt hk]
      simp
    exact ⟨h2, h1⟩

theorem count_mod_eq (M N r : Nat) (hM : 0 < M) (hr : r < M) :
    ((List.range N).filter (fun s => decide (s % M = r))).length =
      N / M + if r < N % M then 1 else 0 := by
  have h := Nat.count_modEq_card N hM r
  rw [Nat.mod_eq_of_lt hr] at h
  rw [← h, ← range_filter_length_eq_count]
  congr 1
  apply List.filter_congr
  intro s _
  simp only [Nat.ModEq, Nat.mod_eq_of_lt hr]

theorem floor_or_ceil (M N r : Nat) (hM : 0 < M) :
    (((N / M + if r < N % M then 1 else 0 : Nat) : Int) = ⌊(N : ℚ) / (M : ℚ)⌋) ∨
    (((N / M + if r < N % M then 1 else 0 : Nat) : Int) = ⌈(N : ℚ) / (M : ℚ)⌉) := by
  have hMq : (0 : ℚ) < (M : ℚ) := by exact_mod_cast hM
  have hdm := Nat.div_add_mod N M
  have hml := Nat.mod_lt N hM
  generalize N / M = q at hdm ⊢
  generalize N % M = t at hdm hml ⊢
  have hdiv : (N : ℚ) = (M : ℚ) * (q : ℚ) + (t : ℚ) := by exact_mod_cast hdm.symm
  have hlt : (t : ℚ) < (M : ℚ) := by exact_mod_cast hml
  have hnn : (0 : ℚ) ≤ (t : ℚ) := by positivity
  have hq : (N : ℚ) / (M : ℚ) = (q : ℚ) + (t : ℚ) / (M : ℚ) := by
    rw [hdiv]; field_simp; ring
  by_cases h : r < t
  · right
    rw [if_pos h]
    symm
    rw [Int.ceil_eq_iff, hq]
    have hpos : (0 : ℚ) < (t : ℚ) := by
      have : 0 < t := by omega
      exact_mod_cast this
    have h1 : (0 : ℚ) < (t : ℚ) / (M : ℚ) := div_pos hpos hMq
    have h2 : (t : ℚ) / (M : ℚ) ≤ 1 := by
      rw [div_le_one hMq]; exact le_of_lt hlt
    push_cast
    constructor <;> linarith
  · left
    rw [if_neg h]
    symm
    rw [Int.floor_eq_iff, hq]
    have h1 : (0 : ℚ) ≤ (t : ℚ) / (M : ℚ) := div_nonneg hnn (le_of_lt hMq)
    have h2 : (t : ℚ) / (M : ℚ) < 1 := by
      rw [div_lt_one hMq]; exact hlt
    push_cast
    constructor <;> linarith

theorem routeSequence_eq_iff (cfg : Config) (C K : Nat) (hC : cfg.ConnNum = C)
    (hK : cfg.ClientPerConnNum = K) (hC0 : 0 < C) (hK0 : 0 < K) (s c k : Nat) (hk : k < K) :
    routeSequence cfg s = some ((c : Int), (k : Int)) ↔ s % (K * C) = c * K + k := by
  rw [routeSequence_eq cfg C K hC hK hC0 hK0 s, ← cell_iff_mod C K s c k hK0 hk]
  simp only [Option.some.injEq, Prod.mk.injEq, Nat.cast_inj]

/-- C9: for `ConnNum >= 1`, `ClientPerConnNum >= 1` and every `N`,
`parseElementIndexes` routes a record by its sequence index alone, every
sequence index is routed to a cell `(c, k)` with `0 <= c < ConnNum` and
`0 <= k < ClientPerConnNum`; the number of indices of `0..N-1` routed to any
one cell is the floor or the ceiling of `N / (ConnNum * ClientPerConnNum)`; the
cell of an index only depends on the index modulo `ConnNum * ClientPerConnNum`,
and every cell is the image of exactly one residue. -/
theorem routing_even_spread (cfg : Config) (hC : 1 ≤ cfg.ConnNum)
    (hK : 1 ≤ cfg.ClientPerConnNum) (N : Nat) :
    (∀ (txid2id : TxidMap) (e : Element),
      parseElementIndexes cfg txid2id e = routeSequence cfg (txid2id.get e.Txid)) ∧
    (∀ s : Nat, ∃ c k : Int, routeSequence cfg s = some (c, k) ∧
      0 ≤ c ∧ c < cfg.ConnNum ∧ 0 ≤ k ∧ k < cfg.ClientPerConnNum) ∧
    (∀ c k : Int, 0 ≤ c → c < cfg.ConnNum → 0 ≤ k → k < cfg.ClientPerConnNum →
      ((((List.range N).filter
            (fun s => decide (routeSequence cfg s = some (c, k)))).length : Int)
          = ⌊(N : ℚ) / ((cfg.ConnNum * cfg.ClientPerConnNum : Int) : ℚ)⌋ ∨
        (((List.range N).filter
            (fun s => decide (routeSequence cfg s = some (c, k)))).length : Int)
          = ⌈(N : ℚ) / ((cfg.ConnNum * cfg.ClientPerConnNum : Int) : ℚ)⌉)) ∧
    (∀ s : Nat, routeSequence cfg s =
      routeSequence cfg (s % (cfg.ConnNum * cfg.ClientPerConnNum).toNat)) ∧
    (∀ c k : Int, 0 ≤ c → c < cfg.ConnNum → 0 ≤ k → k < cfg.ClientPerConnNum →
      ∃! r : Nat, (r : Int) < cfg.ConnNum * cfg.ClientPerConnNum ∧
        routeSequence cfg r = some (c, k)) := by
  obtain ⟨C, hCe⟩ : ∃ C : Nat, cfg.ConnNum = (C : Int) :=
    ⟨cfg.ConnNum.toNat, (Int.toNat_of_nonneg (by omega)).symm⟩
  obtain ⟨K, hKe⟩ : ∃ K : Nat, cfg.ClientPerConnNum = (K : Int) :=
    ⟨cfg.ClientPerConnNum.toNat, (Int.toNat_of_nonneg (by omega)).symm⟩
  have hC0 : 0 < C := by omega
  have hK0 : 0 < K := by omega
  have hM0 : 0 < K * C := Nat.mul_pos hK0 hC0
  have hprod : cfg.ConnNum * cfg.ClientPerConnNum = ((K * C : Nat) : Int) := by
    rw [hCe, hKe]; push_cast; ring
  refine ⟨fun _ _ => rfl, ?_, ?_, ?_, ?_⟩
  · intro s
    refine ⟨_, _, routeSequence_eq cfg C K hCe hKe hC0 hK0 s, Int.ofNat_nonneg _, ?_,
      Int.ofNat_nonneg _, ?_⟩
    · rw [hCe]; exact_mod_cast Nat.mod_lt _ hC0
    · rw [hKe]; exact_mod_cast Nat.mod_lt _ hK0
  · intro c k hc0 hc1 hk0 hk1
    obtain ⟨c1, rfl⟩ : ∃ c1 : Nat, c = (c1 : Int) := ⟨c.toNat, (Int.toNat_of_nonneg hc0).symm⟩
    obtain ⟨k1, rfl⟩ : ∃ k1 : Nat, k = (k1 : Int) := ⟨k.toNat, (Int.toNat_of_nonneg hk0).symm⟩
    have hc2 : c1 < C := by omega
    have hk2 : k1 < K := by omega
    have hr : c1 * K + k1 < K * C := by
      have : c1 * K + K ≤ C * K := by
        have := Nat.mul_le_mul_right K (Nat.succ_le_of_lt hc2)
        rw [Nat.succ_mul] at this
        exact this
      rw [Nat.mul_comm K C]
      omega
    have hfilter : (List.range N).filter
          (fun s => decide (routeSequence cfg s = some ((c1 : Int), (k1 : Int))))
        = (List.range N).filter (fun s => decide (s % (K * C) = c1 * K + k1)) := by
      apply List.filter_congr
      intro s _
      simp only [routeSequence_eq_iff cfg C K hCe hKe hC0 hK0 s c1 k1 hk2]
    rw [hfilter, count_mod_eq (K * C) N (c1 * K + k1) hM0 hr, hprod]
    exact floor_or_ceil (K * C) N (c1 * K + k1) hM0
  · intro s
    rw [hprod, Int.toNat_ofNat, routeSequence_eq cfg C K hCe hKe hC0 hK0 s,
      routeSequence_eq cfg C K hCe hKe hC0 hK0 (s % (K * C)),
      Nat.mod_mul_right_div_self, Nat.mod_mod, Nat.mod_mul_right_mod]
  · intro c k hc0 hc1 hk0 hk1
    obtain ⟨c1, rfl⟩ : ∃ c1 : Nat, c = (c1 : Int) := ⟨c.toNat, (Int.toNat_of_nonneg hc0).symm⟩
    obtain ⟨k1, rfl⟩ : ∃ k1 : Nat, k = (k1 : Int) := ⟨k.toNat, (Int.toNat_of_nonneg hk0).symm⟩
    have hc2 : c1 < C := by omega
    have hk2 : k1 < K := by omega
    have hr : c1 * K + k1 < K * C := by
      have : c1 * K + K ≤ C * K := by
        have := Nat.mul_le_mul_right K (Nat.succ_le_of_lt hc2)
        rw [Nat.succ_mul] at this
        exact this
      rw [Nat.mul_comm K C]
      omega
    refine ⟨c1 * K + k1, ⟨?_, ?_⟩, ?_⟩
    · rw [hprod]; exact_mod_cast hr
    · rw [routeSequence_eq_iff cfg C K hCe hKe hC0 hK0 _ c1 k1 hk2, Nat.mod_eq_of_lt hr]
    · rintro r ⟨hr1, hr2⟩
      rw [hprod] at hr1
      have hr3 : r < K * C := by exact_mod_cast hr1
      rw [routeSequence_eq_iff cfg C K hCe hKe hC0 hK0 _ c1 k1 hk2, Nat.mod_eq_of_lt hr3] at hr2
      exact hr2

/-- C9, at a concrete input: two connections of three clients and `N = 7`. -/
theorem routing_even_spread_witness :
    (1 : Int) ≤ gridConfig.ConnNum ∧ (1 : Int) ≤ gridConfig.ClientPerConnNum ∧
    ((∀ (txid2id : TxidMap) (e : Element),
      parseElementIndexes gridConfig txid2id e
        = routeSequence gridConfig (txid2id.get e.Txid)) ∧
    (∀ s : Nat, ∃ c k : Int, routeSequence gridConfig s = some (c, k) ∧
      0 ≤ c ∧ c < gridConfig.ConnNum ∧ 0 ≤ k ∧ k < gridConfig.ClientPerConnNum) ∧
    (∀ c k : Int, 0 ≤ c → c < gridConfig.ConnNum → 0 ≤ k → k < gridConfig.ClientPerConnNum →
      ((((List.range 7).filter
            (fun s => decide (routeSequence gridConfig s = some (c, k)))).length : Int)
          = ⌊((7 : Nat) : ℚ) / ((gridConfig.ConnNum * gridConfig.ClientPerConnNum : Int) : ℚ)⌋ ∨
        (((List.range 7).filter
            (fun s => decide (routeSequence gridConfig s = some (c, k)))).length : Int)
          = ⌈((7 : Nat) : ℚ) / ((gridConfig.ConnNum * gridConfig.ClientPerConnNum : Int) : ℚ)⌉)) ∧
    (∀ s : Nat, routeSequence gridConfig s =
      routeSequence gridConfig (s % (gridConfig.ConnNum * gridConfig.ClientPerConnNum).toNat)) ∧
    (∀ c k : Int, 0 ≤ c → c < gridConfig.ConnNum → 0 ≤ k → k < gridConfig.ClientPerConnNum →
      ∃! r : Nat, (r : Int) < gridConfig.ConnNum * gridConfig.ClientPerConnNum ∧
        routeSequence gridConfig r = some (c, k))) :=
  ⟨by decide, by decide, routing_even_spread gridConfig (by decide) (by decide) 7⟩

/-! ### Configuration validation (C10) -/

theorem mustValid_some (c c1 : Config) (h : mustValid c = some c1) :
    c1.Rate = min c.Rate c.Burst ∧ c1.Rate ≤ c1.Burst ∧ c1.Burst = c.Burst ∧
      c1 = { c with Rate := min c.Rate c.Burst } ∧
      0 ≤ c.Rate ∧ 1 ≤ c.Burst ∧
      mustValid c1 = some c1 := by
  unfold mustValid at h
  by_cases hr : c.Rate < 0
  · simp [hr] at h
  by_cases hb : c.Burst < 1
  · simp [hr, hb] at h
  simp only [hr, hb, if_false] at h
  by_cases hgt : c.Rate > c.Burst
  · simp only [hgt, if_true] at h
    split at h
    · simp at h
    rename_i hc
    split at h
    · simp at h
    rename_i hh
    have hc1 : c1 = { c with Rate := c.Burst } := by
      simpa using h.symm
    have hmin : min c.Rate c.Burst = c.Burst := min_eq_right (le_of_lt hgt)
    subst hc1
    refine ⟨hmin.symm, le_refl _, rfl, by rw [hmin], by omega, by omega, ?_⟩
    unfold mustValid
    have hb0 : ¬ (c.Burst < 0) := by omega
    simp only [hb0, hb, if_false, gt_iff_lt, lt_irrefl]
    simp only [hc, hh, if_false]
    simp
  · simp only [hgt, if_false] at h
    split at h
    · simp at h
    rename_i hc
    split at h
    · simp at h
    rename_i hh
    have hc1 : c1 = c := by simpa using h.symm
    have hmin : min c.Rate c.Burst = c.Rate := min_eq_left (by omega)
    subst hc1
    refine ⟨hmin.symm, by omega, rfl, by rw [hmin], by omega, by omega, ?_⟩
    unfold mustValid
    simp only [hr, hb, hgt, if_false]
    simp only [hc, hh, if_false]
    simp

theorem mustValid_accepts (c : Config) (hr : 0 ≤ c.Rate) (hb : 1 ≤ c.Burst)
    (hc : ∃ q, c.ConflictRatio = .finite q ∧ 0 ≤ q ∧ q ≤ 1)
    (hh : ∃ q, c.HotAccountRatio = .finite q ∧ 0 ≤ q ∧ q ≤ 1) :
    mustValid c = some { c with Rate := min c.Rate c.Burst } := by
  obtain ⟨q1, hq1, h10, h11⟩ := hc
  obtain ⟨q2, hq2, h20, h21⟩ := hh
  have hc0 : c.ConflictRatio.ltZero = false := by
    rw [hq1]; simp [F64.ltZero, h10]
  have hc1 : c.ConflictRatio.gtOne = false := by
    rw [hq1]; simp [F64.gtOne, h11]
  have hh0 : c.HotAccountRatio.ltZero = false := by
    rw [hq2]; simp [F64.ltZero, h20]
  have hh1 : c.HotAccountRatio.gtOne = false := by
    rw [hq2]; simp [F64.gtOne, h21]
  unfold mustValid
  have hr1 : ¬ c.Rate < 0 := by omega
  have hb1 : ¬ c.Burst < 1 := by omega
  simp only [hr1, hb1, if_false]
  by_cases hgt : c.Rate > c.Burst
  · have hmin : min c.Rate c.Burst = c.Burst := min_eq_right (le_of_lt hgt)
    rw [hmin]
    simp only [hgt, if_true, hc0, hc1, hh0, hh1, Bool.or_self, Bool.false_eq_true, if_false]
  · have hmin : min c.Rate c.Burst = c.Rate := min_eq_left (by omega)
    rw [hmin]
    simp only [hgt, if_false, hc0, hc1, hh0, hh1, Bool.or_self, Bool.false_eq_true]

/-- C10: a configuration with `Rate >= 0`, `Burst >= 1` and both ratios in
[0,1] is accepted by `mustValid`; and whenever `mustValid` accepts a
configuration, the resulting `Rate` is the minimum of the old `Rate` and
`Burst`, so `Rate <= Burst` holds, `Burst` and every other field are unchanged,
and a second `mustValid` accepts the result and changes nothing. -/
theorem mustValid_clamps_rate (c : Config) :
    (0 ≤ c.Rate → 1 ≤ c.Burst →
      (∃ q, c.ConflictRatio = .finite q ∧ 0 ≤ q ∧ q ≤ 1) →
      (∃ q, c.HotAccountRatio = .finite q ∧ 0 ≤ q ∧ q ≤ 1) →
      mustValid c = some { c with Rate := min c.Rate c.Burst }) ∧
    (∀ c1, mustValid c = some c1 →
      c1.Rate = min c.Rate c.Burst ∧ c1.Rate ≤ c1.Burst ∧ c1.Burst = c.Burst ∧
      c1 = { c with Rate := min c.Rate c.Burst } ∧
      mustValid c1 = some c1) := by
  refine ⟨mustValid_accepts c, ?_⟩
  intro c1 h
  obtain ⟨h1, h2, h3, h4, _, _, h7⟩ := mustValid_some c c1 h
  exact ⟨h1, h2, h3, h4, h7⟩

/-- C10, at a concrete input: `Rate = 50` above `Burst = 10` is accepted and
clamped to 10. -/
theorem mustValid_clamps_rate_witness :
    (0 : Int) ≤ rateAboveBurst.Rate ∧ 1 ≤ rateAboveBurst.Burst ∧
    (∃ q, rateAboveBurst.ConflictRatio = .finite q ∧ 0 ≤ q ∧ q ≤ 1) ∧
    (∃ q, rateAboveBurst.HotAccountRatio = .finite q ∧ 0 ≤ q ∧ q ≤ 1) ∧
    mustValid rateAboveBurst
      = some { rateAboveBurst with Rate := min rateAboveBurst.Rate rateAboveBurst.Burst } ∧
    mustValid rateAboveBurst = some { rateAboveBurst with Rate := 10 } ∧
    (({ rateAboveBurst with Rate := 10 } : Config).Rate
        = min rateAboveBurst.Rate rateAboveBurst.Burst ∧
      ({ rateAboveBurst with Rate := 10 } : Config).Rate
        ≤ ({ rateAboveBurst with Rate := 10 } : Config).Burst ∧
      ({ rateAboveBurst with Rate := 10 } : Config).Burst = rateAboveBurst.Burst ∧
      ({ rateAboveBurst with Rate := 10 } : Config)
        = { rateAboveBurst with Rate := min rateAboveBurst.Rate rateAboveBurst.Burst } ∧
      mustValid { rateAboveBurst with Rate := 10 }
        = some { rateAboveBurst with Rate := 10 }) :=
  ⟨by decide, by decide, ⟨0, rfl, le_refl _, zero_le_one⟩, ⟨0, rfl, le_refl _, zero_le_one⟩,
    (mustValid_clamps_rate rateAboveBurst).1 (by decide) (by decide)
      ⟨0, rfl, le_refl _, zero_le_one⟩ ⟨0, rfl, le_refl _, zero_le_one⟩,
    by decide,
    (mustValid_clamps_rate rateAboveBurst).2 _ (by decide)⟩

/-! ### Configuration validation: what is rejected (C11) -/

/-- The panics of `mustValid`, as the code tests them. -/
theorem mustValid_eq_none_iff (c : Config) :
    mustValid c = none ↔
      (c.Rate < 0 ∨ c.Burst < 1 ∨
        c.ConflictRatio.ltZero = true ∨ c.ConflictRatio.gtOne = true ∨
        c.HotAccountRatio.ltZero = true ∨ c.HotAccountRatio.gtOne = true) := by
  unfold mustValid
  by_cases hr : c.Rate < 0
  · simp [hr]
  by_cases hb : c.Burst < 1
  · simp [hr, hb]
  simp only [hr, hb, if_false, false_or]
  by_cases hgt : c.Rate > c.Burst
  · simp only [hgt, if_true]
    cases h1 : c.ConflictRatio.ltZero <;> cases h2 : c.ConflictRatio.gtOne <;>
      cases h3 : c.HotAccountRatio.ltZero <;> cases h4 : c.HotAccountRatio.gtOne <;> simp
  · simp only [hgt, if_false]
    cases h1 : c.ConflictRatio.ltZero <;> cases h2 : c.ConflictRatio.gtOne <;>
      cases h3 : c.HotAccountRatio.ltZero <;> cases h4 : c.HotAccountRatio.gtOne <;> simp

/-- For a ratio that is not NaN the two comparisons of `mustValid` say exactly
that the ratio is outside [0, 1]. -/
theorem F64.outsideUnit_iff (x : F64) (h : x ≠ .nan) :
    x.outsideUnit ↔ (x.ltZero = true ∨ x.gtOne = true) := by
  cases x with
  | nan => exact absurd rfl h
  | negInf => simp [F64.outsideUnit, F64.ltZero]
  | finite q => simp [F64.outsideUnit, F64.ltZero, F64.gtOne]
  | posInf => simp [F64.outsideUnit, F64.gtOne]

/-- When neither ratio is NaN, `mustValid` panics exactly on `Rate < 0`,
`Burst < 1` or a ratio outside [0, 1]. -/
theorem mustValid_rejects_iff_no_nan (c : Config) (hc : c.ConflictRatio ≠ .nan)
    (hh : c.HotAccountRatio ≠ .nan) :
    mustValid c = none ↔
      (c.Rate < 0 ∨ c.Burst < 1 ∨ c.ConflictRatio.outsideUnit ∨
        c.HotAccountRatio.outsideUnit) := by
  rw [mustValid_eq_none_iff, F64.outsideUnit_iff _ hc, F64.outsideUnit_iff _ hh]
  tauto

/-- C11 (the code at the failing input): a configuration whose conflict ratio
is NaN, which is outside [0, 1], with `Rate = 0` and `Burst = 1`, is accepted
by `mustValid`: both comparisons `< 0` and `> 1` are false on NaN. -/
theorem mustValid_accepts_nan :
    nanRatioConfig.ConflictRatio.outsideUnit ∧
      ¬ (nanRatioConfig.Rate < 0) ∧ ¬ (nanRatioConfig.Burst < 1) ∧
      mustValid nanRatioConfig = some nanRatioConfig := by
  refine ⟨trivial, by decide, by decide, by decide⟩

/-! ### Derived latencies of the timing ledger (C19) -/

theorem TxidMap.get_of_lookup (m : TxidMap) (txid : String) (id : Nat)
    (h : m.lookup txid = some id) : m.get txid = id := by
  simp [TxidMap.get, h]

/-- C19: for a known txid with index `id` inside the ledger and a clock reading
`t`, `keepEndorsedTime` sets `EndorsedTime[id] = t` and
`endorseLatency[id] = t - ProposedTime[id]`, and `keepObservedTime` sets
`ObservedTime[id] = t`, `totalLatency[id] = t - ProposedTime[id]` and
`orderCommitLatency[id] = t - BroadcastTime[id]`; each leaves the other fields
of index `id`, every entry of every other index and every other array
unchanged. -/
theorem derived_latencies (txid2id : TxidMap) (tks : TimeKeepers) (txid : String)
    (t : Int) (id : Nat) (tk : TimeKeeper)
    (hid : txid2id.lookup txid = some id) (htk : tks.transactions[id]? = some tk)
    (he : id < tks.endorseLatency.length) (ht : id < tks.totalLatency.length)
    (ho : id < tks.orderCommitLatency.length) :
    (∃ tks1, keepEndorsedTime txid2id tks txid t = some tks1 ∧
      tks1.transactions[id]? = some { tk with EndorsedTime := t } ∧
      tks1.endorseLatency[id]? = some (t - tk.ProposedTime) ∧
      (∀ j, j ≠ id → tks1.transactions[j]? = tks.transactions[j]? ∧
        tks1.endorseLatency[j]? = tks.endorseLatency[j]?) ∧
      tks1.orderCommitLatency = tks.orderCommitLatency ∧
      tks1.totalLatency = tks.totalLatency ∧
      tks1.commitLatencySorted = tks.commitLatencySorted) ∧
    (∃ tks2, keepObservedTime txid2id tks txid t = some tks2 ∧
      tks2.transactions[id]? = some { tk with ObservedTime := t } ∧
      tks2.totalLatency[id]? = some (t - tk.ProposedTime) ∧
      tks2.orderCommitLatency[id]? = some (t - tk.BroadcastTime) ∧
      (∀ j, j ≠ id → tks2.transactions[j]? = tks.transactions[j]? ∧
        tks2.totalLatency[j]? = tks.totalLatency[j]? ∧
        tks2.orderCommitLatency[j]? = tks.orderCommitLatency[j]?) ∧
      tks2.endorseLatency = tks.endorseLatency ∧
      tks2.commitLatencySorted = tks.commitLatencySorted) := by
  have hget := TxidMap.get_of_lookup txid2id txid id hid
  have hlt : id < tks.transactions.length := (List.getElem?_eq_some.1 htk).1
  constructor
  · refine ⟨{ tks with
        transactions := tks.transactions.set id { tk with EndorsedTime := t }
        endorseLatency := tks.endorseLatency.set id (t - tk.ProposedTime) },
      by simp only [keepEndorsedTime, hget, htk, he, if_true], ?_, ?_, ?_, rfl, rfl, rfl⟩
    · simp [List.getElem?_set, hlt]
    · simp [List.getElem?_set, he]
    · intro j hj
      simp [List.getElem?_set, Ne.symm hj]
  · refine ⟨{ tks with
        transactions := tks.transactions.set id { tk with ObservedTime := t }
        totalLatency := tks.totalLatency.set id (t - tk.ProposedTime)
        orderCommitLatency := tks.orderCommitLatency.set id (t - tk.BroadcastTime) },
      by simp only [keepObservedTime, hget, htk, ht, ho, and_self, if_true],
      ?_, ?_, ?_, ?_, rfl, rfl⟩
    · simp [List.getElem?_set, hlt]
    · simp [List.getElem?_set, ht]
    · simp [List.getElem?_set, ho]
    · intro j hj
      simp [List.getElem?_set, Ne.symm hj]

/-- C19, at a concrete ledger: transaction 0, proposed at 5 and broadcast at 9,
is endorsed or observed at 12. -/
theorem derived_latencies_witness :
    TxidMap.get [("tx0", 0), ("tx1", 1)] "tx0" = 0 ∧
    keepEndorsedTime [("tx0", 0), ("tx1", 1)] exampleLedger "tx0" 12 =
      some ⟨[⟨5, 12, 9, 0⟩, ⟨0, 0, 0, 0⟩], [7, 0], [0, 0], [0, 0], none⟩ ∧
    keepObservedTime [("tx0", 0), ("tx1", 1)] exampleLedger "tx0" 12 =
      some ⟨[⟨5, 0, 9, 12⟩, ⟨0, 0, 0, 0⟩], [0, 0], [3, 0], [7, 0], none⟩ ∧
    ((∃ tks1, keepEndorsedTime [("tx0", 0), ("tx1", 1)] exampleLedger "tx0" 12 = some tks1 ∧
      tks1.transactions[0]? = some { (⟨5, 0, 9, 0⟩ : TimeKeeper) with EndorsedTime := 12 } ∧
      tks1.endorseLatency[0]? = some (12 - (⟨5, 0, 9, 0⟩ : TimeKeeper).ProposedTime) ∧
      (∀ j, j ≠ 0 → tks1.transactions[j]? = exampleLedger.transactions[j]? ∧
        tks1.endorseLatency[j]? = exampleLedger.endorseLatency[j]?) ∧
      tks1.orderCommitLatency = exampleLedger.orderCommitLatency ∧
      tks1.totalLatency = exampleLedger.totalLatency ∧
      tks1.commitLatencySorted = exampleLedger.commitLatencySorted) ∧
    (∃ tks2, keepObservedTime [("tx0", 0), ("tx1", 1)] exampleLedger "tx0" 12 = some tks2 ∧
      tks2.transactions[0]? = some { (⟨5, 0, 9, 0⟩ : TimeKeeper) with ObservedTime := 12 } ∧
      tks2.totalLatency[0]? = some (12 - (⟨5, 0, 9, 0⟩ : TimeKeeper).ProposedTime) ∧
      tks2.orderCommitLatency[0]? = some (12 - (⟨5, 0, 9, 0⟩ : TimeKeeper).BroadcastTime) ∧
      (∀ j, j ≠ 0 → tks2.transactions[j]? = exampleLedger.transactions[j]? ∧
        tks2.totalLatency[j]? = exampleLedger.totalLatency[j]? ∧
        tks2.orderCommitLatency[j]? = exampleLedger.orderCommitLatency[j]?) ∧
      tks2.endorseLatency = exampleLedger.endorseLatency ∧
      tks2.commitLatencySorted = exampleLedger.commitLatencySorted)) :=
  ⟨by decide, by decide, by decide,
    derived_latencies [("tx0", 0), ("tx1", 1)] exampleLedger "tx0" 12 0 ⟨5, 0, 9, 0⟩
      (by decide) (by decide) (by decide) (by decide) (by decide)⟩

/-! ### Initiator and signer (C15, C16) -/

theorem Initiator.elements_spec (it : Initiator) :
    ∀ n, n ≤ it.proposals.length → n ≤ it.txids.length →
      ∃ l : List Element, Initiator.elements it n = some l ∧ l.length = n ∧
        ∀ i prop txid, i < n → it.proposals[i]? = some prop → it.txids[i]? = some txid →
          l[i]? = some ⟨prop, none, [], false, none, txid⟩ := by
  intro n
  induction n with
  | zero => intro _ _; exact ⟨[], rfl, rfl, fun i _ _ hi => absurd hi (Nat.not_lt_zero i)⟩
  | succ n ih =>
    intro hp ht
    obtain ⟨l, hl, hlen, hget⟩ := ih (by omega) (by omega)
    obtain ⟨prop, hprop⟩ : ∃ prop, it.proposals[n]? = some prop :=
      ⟨it.proposals[n], List.getElem?_eq_getElem (by omega)⟩
    obtain ⟨txid, htxid⟩ : ∃ txid, it.txids[n]? = some txid :=
      ⟨it.txids[n], List.getElem?_eq_getElem (by omega)⟩
    refine ⟨l ++ [⟨prop, none, [], false, none, txid⟩], ?_, ?_, ?_⟩
    · simp only [Initiator.elements, hl, hprop, htxid]
    · simp [hlen]
    · intro i p t hi hp1 ht1
      by_cases hin : i < n
      · rw [List.getElem?_append_left (by omega)]
        exact hget i p t hin hp1 ht1
      · have hieq : i = n := by omega
        subst hieq
        rw [hprop] at hp1
        rw [htxid] at ht1
        simp only [Option.some.injEq] at hp1 ht1
        subst hp1 ht1
        rw [List.getElem?_append_right (by omega)]
        simp [hlen]

theorem sendAll_room {α : Type} (capacity : Nat) (vs : List α) :
    ∀ buf : List α, buf.length + vs.length ≤ capacity →
      sendAll capacity buf vs = some (buf ++ vs) := by
  induction vs with
  | nil => intro buf _; simp [sendAll]
  | cons v vs ih =>
    intro buf h
    simp only [List.length_cons] at h
    have hlt : buf.length < capacity := by omega
    simp only [sendAll, hlt, if_true]
    rw [ih (buf ++ [v]) (by simp; omega)]
    simp

/-- The output of the initiator when the entry queue has room: for an
initiator built for `N` transactions (`proposals` and `txids`
of length `N`), the values `StartSync` sends on the entry queue are exactly `N`
records, the `i`-th carrying `proposals[i]` and `txids[i]` and nothing else,
in the order `0, 1, ..., N-1`, followed by exactly one nil sentinel; and on an
entry queue with room for these `N + 1` values `StartSync` returns with
exactly them appended to the queue. -/
theorem initiator_output (it : Initiator) (N : Nat) (hp : it.proposals.length = N)
    (ht : it.txids.length = N) :
    ∃ l : List Element, l.length = N ∧
      (∀ i prop txid, i < N → it.proposals[i]? = some prop → it.txids[i]? = some txid →
        l[i]? = some ⟨prop, none, [], false, none, txid⟩) ∧
      it.sends = some (l.map some ++ [none]) ∧
      ∀ (capacity : Nat) (outCh : List (Option Element)),
        outCh.length + N + 1 ≤ capacity →
        it.StartSync capacity outCh = some (outCh ++ (l.map some ++ [none])) := by
  obtain ⟨l, hl, hlen, hget⟩ := Initiator.elements_spec it N (by omega) (by omega)
  have hsends : it.sends = some (l.map some ++ [none]) := by
    simp only [Initiator.sends, hp, hl]
  refine ⟨l, hlen, hget, hsends, ?_⟩
  intro capacity outCh hcap
  simp only [Initiator.StartSync, hsends]
  apply sendAll_room
  simp [hlen]
  omega

/-- The output of a concrete initiator of three transactions on the entry
queue of `process.go`. -/
theorem initiator_output_witness :
    exampleInitiator.proposals.length = 3 ∧ exampleInitiator.txids.length = 3 ∧
    ([] : List (Option Element)).length + 3 + 1 ≤ CH_MAX_CAPACITY ∧
    exampleInitiator.StartSync CH_MAX_CAPACITY [] =
      some [some ⟨[1], none, [], false, none, "tx0"⟩, some ⟨[2], none, [], false, none, "tx1"⟩,
        some ⟨[3], none, [], false, none, "tx2"⟩, none] ∧
    ∃ l : List Element, l.length = 3 ∧
      (∀ i prop txid, i < 3 → exampleInitiator.proposals[i]? = some prop →
        exampleInitiator.txids[i]? = some txid →
        l[i]? = some ⟨prop, none, [], false, none, txid⟩) ∧
      exampleInitiator.sends = some (l.map some ++ [none]) ∧
      ∀ (capacity : Nat) (outCh : List (Option Element)),
        outCh.length + 3 + 1 ≤ capacity →
        exampleInitiator.StartSync capacity outCh = some (outCh ++ (l.map some ++ [none])) :=
  ⟨rfl, rfl, by decide, by decide, initiator_output exampleInitiator 3 rfl rfl⟩

theorem sendAll_append {α : Type} (capacity : Nat) (xs ys : List α) :
    ∀ buf : List α,
      sendAll capacity buf (xs ++ ys) =
        (sendAll capacity buf xs).bind (fun b => sendAll capacity b ys) := by
  induction xs with
  | nil => intro buf; simp [sendAll]
  | cons x xs ih =>
    intro buf
    by_cases h : buf.length < capacity
    · simp only [List.cons_append, sendAll, h, if_true]
      exact ih (buf ++ [x])
    · simp only [List.cons_append, sendAll, h, if_false]
      rfl

/-- C15 (the code at the failing input): for an initiator built for as many
transactions as the entry queue has places (`TxNum = CH_MAX_CAPACITY = 1000000`
in the program) and the empty entry queue, which nobody reads while `StartSync`
runs, `StartSync` pushes the records, which fill the queue, and then blocks
for ever on the send of the nil sentinel: it does not return and the sentinel
is never pushed. -/
theorem initiator_blocks_on_sentinel (it : Initiator) (capacity : Nat)
    (hp : it.proposals.length = capacity) (ht : it.txids.length = capacity) :
    ∃ l : List Element, l.length = capacity ∧ it.sends = some (l.map some ++ [none]) ∧
      sendAll capacity [] (l.map some) = some (l.map some) ∧
      sendAll capacity (l.map some) [none] = none ∧
      it.StartSync capacity [] = none := by
  obtain ⟨l, hl, hlen, -⟩ := Initiator.elements_spec it capacity (by omega) (by omega)
  have hsends : it.sends = some (l.map some ++ [none]) := by
    simp only [Initiator.sends, hp, hl]
  have h1 : sendAll capacity [] (l.map some) = some (l.map some) := by
    have := sendAll_room capacity (l.map some) [] (by simp [hlen])
    simpa using this
  have h2 : sendAll capacity (l.map some) [none] = none := by
    simp [sendAll, hlen]
  refine ⟨l, hlen, hsends, h1, h2, ?_⟩
  simp only [Initiator.StartSync, hsends]
  rw [sendAll_append, h1]
  exact h2

/-- C15 (the code at the failing input), at the initiator of 1000000
transactions on the entry queue of `process.go`, and at an initiator of three
transactions on a queue of three places. -/
theorem initiator_blocks_on_sentinel_witness :
    millionInitiator.proposals.length = CH_MAX_CAPACITY ∧
    millionInitiator.txids.length = CH_MAX_CAPACITY ∧
    exampleInitiator.StartSync 3 [] = none ∧
    ∃ l : List Element, l.length = CH_MAX_CAPACITY ∧
      millionInitiator.sends = some (l.map some ++ [none]) ∧
      sendAll CH_MAX_CAPACITY [] (l.map some) = some (l.map some) ∧
      sendAll CH_MAX_CAPACITY (l.map some) [none] = none ∧
      millionInitiator.StartSync CH_MAX_CAPACITY [] = none :=
  ⟨List.length_replicate _ _, List.length_replicate _ _, rfl,
    initiator_blocks_on_sentinel millionInitiator CH_MAX_CAPACITY (List.length_replicate _ _)
      (List.length_replicate _ _)⟩

theorem Signer.fanOut_replicate (capacity : Nat) (e : Element) (q : List (Option Element))
    (hq : q.length < capacity) (m : Nat) :
    ∀ n, n ≤ m →
      Signer.fanOut capacity e (List.replicate m q) n =
        some (List.replicate n (q ++ [some e]) ++ List.replicate (m - n) q) := by
  intro n
  induction n with
  | zero => intro _; simp [Signer.fanOut]
  | succ n ih =>
    intro h
    have hget : (List.replicate n (q ++ [some e]) ++ List.replicate (m - n) q)[n]? = some q := by
      rw [List.getElem?_append_right (by simp)]
      simp only [List.length_replicate, Nat.sub_self]
      rw [List.getElem?_replicate]
      simp
      omega
    simp only [Signer.fanOut, ih (by omega), hget, hq, if_true]
    congr 1
    apply List.ext_getElem?
    intro i
    rw [List.getElem?_set]
    by_cases hi : n = i
    · subst hi
      simp only [if_true, List.length_append, List.length_replicate]
      have h1 : n < n + (m - n) := by omega
      simp only [h1, if_true]
      rw [List.getElem?_append_left (by simp)]
      simp [List.getElem?_replicate]
    · simp only [hi, if_false]
      by_cases hlt : i < n
      · rw [List.getElem?_append_left (by simp; omega),
          List.getElem?_append_left (by simp; omega)]
        simp [List.getElem?_replicate, hlt]
        omega
      · rw [List.getElem?_append_right (by simp; omega),
          List.getElem?_append_right (by simp; omega)]
        simp only [List.length_replicate, List.getElem?_replicate]
        have e1 : (i - n < m - n) ↔ (i - (n + 1) < m - (n + 1)) := by omega
        simp only [e1]

theorem Signer.StartSync_replicate (cfg : Config) (SignProposal : Bytes → Except String Bytes)
    (sign : Bytes → Bytes) (capacity : Nat) (tail : List (Option Element))
    (es : List Element) :
    ∀ q : List (Option Element),
      (∀ e ∈ es, SignProposal e.Proposal = .ok (sign e.Proposal)) →
      q.length + es.length ≤ capacity →
      Signer.StartSync cfg SignProposal capacity (es.map some ++ none :: tail)
          (List.replicate cfg.EndorserNum.toNat q) =
        some (List.replicate cfg.EndorserNum.toNat
          (q ++ es.map (fun e => some { e with SignedProposal := some (sign e.Proposal) }))) := by
  induction es with
  | nil => intro q _ _; simp [Signer.StartSync]
  | cons e es ih =>
    intro q hs hcap
    simp only [List.length_cons] at hcap
    have hq : q.length < capacity := by omega
    have hse := hs e (List.mem_cons_self _ _)
    simp only [List.map_cons, List.cons_append, Signer.StartSync, Signer.SignElement, hse]
    rw [Signer.fanOut_replicate capacity _ q hq _ _ (le_refl _)]
    simp only [Nat.sub_self, List.replicate_zero, List.append_nil, List.append_eq]
    have h := ih
      (q ++ [some ⟨e.Proposal, some (sign e.Proposal), e.Responses, e.lock, e.Envelope, e.Txid⟩])
      (fun e1 he1 => hs e1 (List.mem_cons_of_mem _ he1)) (by simp; omega)
    rw [h]
    simp

/-- C16: for an entry queue holding the records `es` followed by the nil
sentinel, with signing succeeding on every record, `doneCh` open and empty
per-endorser queues with room for the records, `StartSync` returns, and each of
the `EndorserNum` per-endorser queues then holds exactly the records of `es`
in their order, each with its `SignedProposal` set and nothing else changed;
no queue holds the sentinel. -/
theorem signer_fan_out (cfg : Config) (SignProposal : Bytes → Except String Bytes)
    (sign : Bytes → Bytes) (capacity : Nat) (es : List Element)
    (tail : List (Option Element))
    (hs : ∀ e ∈ es, SignProposal e.Proposal = .ok (sign e.Proposal))
    (hcap : es.length ≤ capacity) :
    Signer.StartSync cfg SignProposal capacity (es.map some ++ none :: tail)
        (List.replicate cfg.EndorserNum.toNat []) =
      some (List.replicate cfg.EndorserNum.toNat
        (es.map (fun e => some { e with SignedProposal := some (sign e.Proposal) }))) ∧
    ∀ q ∈ List.replicate cfg.EndorserNum.toNat
        (es.map (fun e => some { e with SignedProposal := some (sign e.Proposal) })),
      none ∉ q := by
  constructor
  · have h := Signer.StartSync_replicate cfg SignProposal sign capacity tail es [] hs
      (by simpa using hcap)
    simpa using h
  · intro q hq
    rw [List.eq_of_mem_replicate hq]
    simp

/-- C16, at a concrete entry queue of three records and two endorsers. -/
theorem signer_fan_out_witness :
    (∀ e ∈ ([⟨[1], none, [], false, none, "tx0"⟩, ⟨[2], none, [], false, none, "tx1"⟩] :
        List Element), exampleSign e.Proposal = .ok ((fun p => 0 :: p) e.Proposal)) ∧
    ([⟨[1], none, [], false, none, "tx0"⟩, ⟨[2], none, [], false, none, "tx1"⟩] :
        List Element).length ≤ CH_MAX_CAPACITY ∧
    Signer.StartSync twoEndorsers exampleSign CH_MAX_CAPACITY
        [some ⟨[1], none, [], false, none, "tx0"⟩, some ⟨[2], none, [], false, none, "tx1"⟩, none]
        [[], []] =
      some [[some ⟨[1], some [0, 1], [], false, none, "tx0"⟩,
          some ⟨[2], some [0, 2], [], false, none, "tx1"⟩],
        [some ⟨[1], some [0, 1], [], false, none, "tx0"⟩,
          some ⟨[2], some [0, 2], [], false, none, "tx1"⟩]] ∧
    (Signer.StartSync twoEndorsers exampleSign CH_MAX_CAPACITY
        (([⟨[1], none, [], false, none, "tx0"⟩, ⟨[2], none, [], false, none, "tx1"⟩] :
          List Element).map some ++ none :: [])
        (List.replicate twoEndorsers.EndorserNum.toNat []) =
      some (List.replicate twoEndorsers.EndorserNum.toNat
        (([⟨[1], none, [], false, none, "tx0"⟩, ⟨[2], none, [], false, none, "tx1"⟩] :
          List Element).map
            (fun e => some { e with SignedProposal := some ((fun p => 0 :: p) e.Proposal) }))) ∧
    ∀ q ∈ List.replicate twoEndorsers.EndorserNum.toNat
        (([⟨[1], none, [], false, none, "tx0"⟩, ⟨[2], none, [], false, none, "tx1"⟩] :
          List Element).map
            (fun e => some { e with SignedProposal := some ((fun p => 0 :: p) e.Proposal) })),
      none ∉ q) :=
  ⟨fun e _ => rfl, by decide, by decide,
    signer_fan_out twoEndorsers exampleSign (fun p => 0 :: p) CH_MAX_CAPACITY
      [⟨[1], none, [], false, none, "tx0"⟩, ⟨[2], none, [], false, none, "tx1"⟩] []
      (fun e _ => rfl) (by decide)⟩

/-! ### Transaction ids (C17) -/

theorem digitChar_toNat (d : Nat) (h : d < 10) : (digitChar d).toNat = 48 + d := by
  interval_cases d <;> rfl

theorem decimalRev_digits : ∀ (fuel n : Nat) (c : Char), c ∈ decimalRev fuel n →
    ∃ d, d < 10 ∧ c = digitChar d := by
  intro fuel
  induction fuel with
  | zero => intro n c h; simp [decimalRev] at h
  | succ fuel ih =>
    intro n c h
    simp only [decimalRev] at h
    split at h
    · rename_i hn
      simp only [List.mem_singleton] at h
      exact ⟨n, hn, h⟩
    · simp only [List.mem_cons] at h
      rcases h with h | h
      · exact ⟨n % 10, Nat.mod_lt _ (by decide), h⟩
      · exact ih _ c h

/-- The number written by a list of decimal digits, least significant first. -/
theorem decimalRev_value : ∀ (fuel n : Nat), n < fuel →
    (decimalRev fuel n).foldr (fun c acc => (c.toNat - 48) + 10 * acc) 0 = n := by
  intro fuel
  induction fuel with
  | zero => intro n h; exact absurd h (Nat.not_lt_zero n)
  | succ fuel ih =>
    intro n h
    simp only [decimalRev]
    split
    · rename_i hn
      simp only [List.foldr_cons, List.foldr_nil, digitChar_toNat n hn]
      omega
    · rename_i hn
      simp only [List.foldr_cons, digitChar_toNat (n % 10) (Nat.mod_lt _ (by decide))]
      rw [ih (n / 10) (by omega)]
      omega

theorem decimal_injective (a b : Nat) (h : decimal a = decimal b) : a = b := by
  unfold decimal at h
  have h1 := List.reverse_injective h
  have ha := decimalRev_value (a + 1) a (by omega)
  have hb := decimalRev_value (b + 1) b (by omega)
  rw [h1] at ha
  omega

theorem decimal_digits (n : Nat) (c : Char) (h : c ∈ decimal n) :
    ∃ d, d < 10 ∧ c = digitChar d := by
  unfold decimal at h
  exact decimalRev_digits _ _ c (List.mem_reverse.1 h)

theorem digitChar_ne (d : Nat) (h : d < 10) (c : Char) (hc : c.toNat < 48 ∨ 57 < c.toNat) :
    digitChar d ≠ c := by
  intro heq
  have := digitChar_toNat d h
  rw [heq] at this
  omega

theorem Itoa_no_underscore (n : Int) : '_' ∉ (Itoa n).data := by
  intro h
  unfold Itoa at h
  split at h
  · simp only [List.mem_cons] at h
    rcases h with h | h
    · exact absurd h (by decide)
    · obtain ⟨d, hd, hc⟩ := decimal_digits _ _ h
      exact digitChar_ne d hd '_' (Or.inr (by decide)) hc.symm
  · obtain ⟨d, hd, hc⟩ := decimal_digits _ _ h
    exact digitChar_ne d hd '_' (Or.inr (by decide)) hc.symm

theorem Itoa_injective (a b : Int) (h : Itoa a = Itoa b) : a = b := by
  have hd := congrArg String.data h
  unfold Itoa at hd
  by_cases ha : a < 0 <;> by_cases hb : b < 0
  · simp only [ha, hb, if_true, List.cons.injEq, true_and] at hd
    have := decimal_injective _ _ hd
    omega
  · simp only [ha, hb, if_true, if_false] at hd
    have hmem : '-' ∈ decimal b.natAbs := by rw [← hd]; exact List.mem_cons_self _ _
    obtain ⟨d, hd1, hc⟩ := decimal_digits _ _ hmem
    exact absurd hc.symm (digitChar_ne d hd1 '-' (Or.inl (by decide)))
  · simp only [ha, hb, if_true, if_false] at hd
    have hmem : '-' ∈ decimal a.natAbs := by rw [hd]; exact List.mem_cons_self _ _
    obtain ⟨d, hd1, hc⟩ := decimal_digits _ _ hmem
    exact absurd hc.symm (digitChar_ne d hd1 '-' (Or.inl (by decide)))
  · simp only [ha, hb, if_false] at hd
    have := decimal_injective _ _ hd
    omega

theorem prefix_before_separator (c : Char) :
    ∀ (A B X Y : List Char), c ∉ A → c ∉ B → A ++ c :: X = B ++ c :: Y → A = B := by
  intro A
  induction A with
  | nil =>
    intro B X Y _ hB h
    cases B with
    | nil => rfl
    | cons b B =>
      simp only [List.nil_append, List.cons_append, List.cons.injEq] at h
      exact absurd (h.1 ▸ List.mem_cons_self _ _) hB
  | cons a A ih =>
    intro B X Y hA hB h
    cases B with
    | nil =>
      simp only [List.nil_append, List.cons_append, List.cons.injEq] at h
      exact absurd (h.1 ▸ List.mem_cons_self _ _) hA
    | cons b B =>
      simp only [List.cons_append, List.cons.injEq] at h
      rw [h.1, ih B X Y (fun hm => hA (List.mem_cons_of_mem _ hm))
        (fun hm => hB (List.mem_cons_of_mem _ hm)) h.2]

theorem wrapInt64_offset_injective (s i j : Int) (hi0 : 0 ≤ i) (hj0 : 0 ≤ j)
    (hi : i < 9223372036854775808) (hj : j < 9223372036854775808)
    (h : wrapInt64 (s + i) = wrapInt64 (s + j)) : i = j := by
  unfold wrapInt64 at h
  omega

theorem generateCustomTXID_data (cfg : Config) (i : Int) (session name : String) :
    (generateCustomTXID cfg i session name).data =
      (Itoa (wrapInt64 (cfg.TxIDStart + i))).data ++
        '_' :: ('+' :: '=' :: '+' :: '_' :: (session.data ++ ("_+=+_".data ++ name.data))) := by
  simp only [generateCustomTXID, String.data_append, List.append_assoc]
  rfl

theorem generateCustomTXID_injective (cfg : Config) (i j : Int) (session session1 : String)
    (name name1 : String) (hi0 : 0 ≤ i) (hj0 : 0 ≤ j)
    (hi : i < 9223372036854775808) (hj : j < 9223372036854775808)
    (h : generateCustomTXID cfg i session name = generateCustomTXID cfg j session1 name1) :
    i = j := by
  have hd := congrArg String.data h
  rw [generateCustomTXID_data, generateCustomTXID_data] at hd
  have hpre := prefix_before_separator '_' _ _ _ _ (Itoa_no_underscore _)
    (Itoa_no_underscore _) hd
  have hit := Itoa_injective _ _ (String.ext hpre)
  exact wrapInt64_offset_injective cfg.TxIDStart i j hi0 hj0 hi hj hit

theorem generateCustomTXID_ne_empty (cfg : Config) (i : Int) (session name : String) :
    generateCustomTXID cfg i session name ≠ "" := by
  intro h
  have hd := congrArg String.data h
  rw [generateCustomTXID_data] at hd
  have : ('_' : Char) ∈ ("" : String).data := by
    rw [← hd]; simp
  simp at this

theorem NewInitiator.iterate_spec (cfg : Config)
    (CreateProposal : String → String → String → String → List String →
      Except String (Bytes × String))
    (ccArgsList : List (List String)) (session : String) (names : Nat → String)
    (hcheck : cfg.CheckTxID = false)
    (hecho : ∀ txid channel ccname version args prop txID, txid ≠ "" →
      CreateProposal txid channel ccname version args = .ok (prop, txID) → txID = txid) :
    ∀ (n : Nat) (txid2id : TxidMap) (it : Initiator),
      (n : Int) ≤ 9223372036854775808 →
      NewInitiator.iterate cfg CreateProposal ccArgsList session names n = some (txid2id, it) →
      it.txids.length = n ∧ it.proposals.length = n ∧
      ∀ i, i < n →
        it.txids[i]? = some (generateCustomTXID cfg i session (names i)) ∧
        txid2id.lookup (generateCustomTXID cfg i session (names i)) = some i := by
  intro n
  induction n with
  | zero =>
    intro txid2id it _ h
    simp only [NewInitiator.iterate, Option.some.injEq, Prod.mk.injEq] at h
    obtain ⟨_, h2⟩ := h
    subst h2
    exact ⟨rfl, rfl, fun i hi => absurd hi (Nat.not_lt_zero i)⟩
  | succ n ih =>
    intro txid2id it hn h
    simp only [NewInitiator.iterate] at h
    cases hprev : NewInitiator.iterate cfg CreateProposal ccArgsList session names n with
    | none => simp [hprev] at h
    | some st =>
      obtain ⟨m0, it0⟩ := st
      simp only [hprev] at h
      cases hargs : ccArgsList[n]? with
      | none => simp [hargs] at h
      | some ccArgs =>
        simp only [hargs, hcheck, Bool.false_eq_true, if_false] at h
        cases hcp : CreateProposal (generateCustomTXID cfg n session (names n)) cfg.Channel
            cfg.Chaincode cfg.Version ccArgs with
        | error err => simp [hcp] at h
        | ok res =>
          obtain ⟨proposal, txID⟩ := res
          simp only [hcp, Option.some.injEq, Prod.mk.injEq] at h
          obtain ⟨hm, hit⟩ := h
          have htx : txID = generateCustomTXID cfg n session (names n) :=
            hecho _ _ _ _ _ _ _ (generateCustomTXID_ne_empty _ _ _ _) hcp
          obtain ⟨hl1, hl2, hall⟩ := ih m0 it0 (by push_cast at hn ⊢; omega) hprev
          subst hm hit
          refine ⟨by simp [hl1], by simp [hl2], ?_⟩
          intro i hi
          by_cases hin : i < n
          · obtain ⟨h1, h2⟩ := hall i hin
            constructor
            · simp only
              rw [List.getElem?_append_left (by omega)]
              exact h1
            · have hne : generateCustomTXID cfg i session (names i) ≠ txID := by
                rw [htx]
                intro heq
                have := generateCustomTXID_injective cfg i n session session _ _
                  (by omega) (by omega) (by push_cast at hn; omega) (by push_cast at hn; omega) heq
                omega
              simp only [List.lookup]
              have hbeq : (generateCustomTXID cfg i session (names i) == txID) = false := by
                simpa using hne
              rw [hbeq]
              exact h2
          · have hieq : i = n := by omega
            subst hieq
            constructor
            · simp only
              rw [List.getElem?_append_right (by omega)]
              simp [hl1, htx]
            · simp [List.lookup, htx]

theorem exampleCreateProposal_echo :
    ∀ txid channel ccname version args prop txID, txid ≠ "" →
      exampleCreateProposal txid channel ccname version args = .ok (prop, txID) →
        txID = txid := by
  intro txid channel ccname version args prop txID hne h
  simp only [exampleCreateProposal, hne, if_false, Except.ok.injEq, Prod.mk.injEq] at h
  exact h.2.symm

/-- C17: ids generated for two different sequence indices are different
strings, whatever `TxIDStart`, the sessions and the random suffixes; and when
`NewInitiator` runs with `CheckTxID = false` and a proposal builder that keeps
the id it is given, `txid2id` maps `txids[i]` to `i` for every `i` in
`0..TxNum-1`. -/
theorem unique_txids (cfg : Config) :
    (∀ (i j : Int) (session session1 name name1 : String),
      0 ≤ i → i < 9223372036854775808 → 0 ≤ j → j < 9223372036854775808 → i ≠ j →
      generateCustomTXID cfg i session name ≠ generateCustomTXID cfg j session1 name1) ∧
    (∀ (CreateProposal : String → String → String → String → List String →
          Except String (Bytes × String))
        (ccArgsList : List (List String)) (session : String) (names : Nat → String)
        (txid2id : TxidMap) (it : Initiator),
      cfg.CheckTxID = false → cfg.TxNum ≤ 9223372036854775807 →
      (∀ txid channel ccname version args prop txID, txid ≠ "" →
        CreateProposal txid channel ccname version args = .ok (prop, txID) → txID = txid) →
      NewInitiator cfg CreateProposal ccArgsList session names = some (txid2id, it) →
      (it.txids.length : Int) = cfg.TxNum ∧
      ∀ (i : Nat) (txid : String), it.txids[i]? = some txid →
        txid = generateCustomTXID cfg i session (names i) ∧ txid2id.lookup txid = some i ∧
          txid2id.get txid = i) := by
  constructor
  · intro i j session session1 name name1 hi0 hi hj0 hj hne heq
    exact hne (generateCustomTXID_injective cfg i j session session1 name name1 hi0 hj0 hi hj heq)
  · intro CreateProposal ccArgsList session names txid2id it hcheck hmax hecho hnew
    unfold NewInitiator at hnew
    split at hnew
    · simp at hnew
    rename_i hneg
    obtain ⟨hl1, _, hall⟩ := NewInitiator.iterate_spec cfg CreateProposal ccArgsList session names
      hcheck hecho cfg.TxNum.toNat txid2id it (by omega) hnew
    refine ⟨by omega, ?_⟩
    intro i txid hget
    have hi : i < cfg.TxNum.toNat := by
      have := (List.getElem?_eq_some.1 hget).1
      omega
    obtain ⟨h1, h2⟩ := hall i hi
    rw [h1] at hget
    simp only [Option.some.injEq] at hget
    subst hget
    exact ⟨rfl, h2, TxidMap.get_of_lookup _ _ _ h2⟩

/-- C17, at concrete inputs: ids 100, 101, 102 of three planned transactions. -/
theorem unique_txids_witness :
    (0 : Int) ≤ 0 ∧ (0 : Int) < 9223372036854775808 ∧ (0 : Int) ≤ 1 ∧
    (1 : Int) < 9223372036854775808 ∧ (0 : Int) ≠ 1 ∧
    generateCustomTXID threeTransactions 0 "s" "r" = "100_+=+_s_+=+_r" ∧
    generateCustomTXID threeTransactions 1 "s" "r" = "101_+=+_s_+=+_r" ∧
    generateCustomTXID threeTransactions 0 "s" "r" ≠ generateCustomTXID threeTransactions 1 "s" "r" ∧
    threeTransactions.CheckTxID = false ∧ threeTransactions.TxNum ≤ 9223372036854775807 ∧
    (∀ txid channel ccname version args prop txID, txid ≠ "" →
      exampleCreateProposal txid channel ccname version args = .ok (prop, txID) →
        txID = txid) ∧
    NewInitiator threeTransactions exampleCreateProposal [[], [], []] "s" (fun _ => "r") =
      some ([("102_+=+_s_+=+_r", 2), ("101_+=+_s_+=+_r", 1), ("100_+=+_s_+=+_r", 0)],
        ⟨[[], [], []], ["100_+=+_s_+=+_r", "101_+=+_s_+=+_r", "102_+=+_s_+=+_r"]⟩) ∧
    ((([("102_+=+_s_+=+_r", 2), ("101_+=+_s_+=+_r", 1), ("100_+=+_s_+=+_r", 0)],
        (⟨[[], [], []], ["100_+=+_s_+=+_r", "101_+=+_s_+=+_r", "102_+=+_s_+=+_r"]⟩ :
          Initiator)).2.txids.length : Int) = threeTransactions.TxNum ∧
      ∀ (i : Nat) (txid : String),
        (⟨[[], [], []], ["100_+=+_s_+=+_r", "101_+=+_s_+=+_r", "102_+=+_s_+=+_r"]⟩ :
          Initiator).txids[i]? = some txid →
        txid = generateCustomTXID threeTransactions i "s" ((fun _ => "r") i) ∧
          List.lookup txid
            [("102_+=+_s_+=+_r", 2), ("101_+=+_s_+=+_r", 1), ("100_+=+_s_+=+_r", 0)] = some i ∧
          TxidMap.get [("102_+=+_s_+=+_r", 2), ("101_+=+_s_+=+_r", 1), ("100_+=+_s_+=+_r", 0)]
            txid = i) :=
  ⟨by decide, by decide, by decide, by decide, by decide, by decide, by decide,
    (unique_txids threeTransactions).1 0 1 "s" "s" "r" "r" (by decide) (by decide) (by decide)
      (by decide) (by decide),
    rfl, by decide,
    exampleCreateProposal_echo,
    by decide,
    (unique_txids threeTransactions).2 exampleCreateProposal [[], [], []] "s" (fun _ => "r") _ _
      rfl (by decide) exampleCreateProposal_echo (by decide)⟩

/-! ### Percentiles of the commit latency (C12, C13) -/

theorem roundF64_exact (q : ℚ) (h1 : q.den ∣ 2 ^ 64) (h2 : q.num.natAbs ≤ 2 ^ 53) :
    roundF64 q = q := by
  unfold roundF64
  rw [if_pos ⟨h1, h2⟩]

theorem roundF64_intCast (n : Int) (h : n.natAbs ≤ 2 ^ 53) : roundF64 (n : ℚ) = (n : ℚ) := by
  apply roundF64_exact
  · rw [Rat.intCast_den]; exact one_dvd _
  · rw [Rat.intCast_num]; exact h

theorem roundF64_half (n : Int) (h : n.natAbs ≤ 2 ^ 53) :
    roundF64 ((n : ℚ) / 2) = (n : ℚ) / 2 := by
  have hdiv : (n : ℚ) / 2 = Rat.divInt n 2 := by
    rw [Rat.divInt_eq_div]; norm_num
  apply roundF64_exact
  · rw [hdiv]
    have h1 := Rat.den_dvd n 2
    have h2 : ((Rat.divInt n 2).den : Int) ∣ ((2 ^ 64 : Nat) : Int) :=
      dvd_trans h1 (by norm_num)
    exact Int.natCast_dvd_natCast.1 h2
  · rw [hdiv]
    have h1 := Rat.num_dvd n (b := 2) (by norm_num)
    by_cases hn : n = 0
    · subst hn; simp
    · have := Int.natAbs_le_of_dvd_ne_zero h1 hn
      omega

theorem truncToInt_intCast (n : Int) : truncToInt (n : ℚ) = n := by
  unfold truncToInt
  rw [Rat.intCast_den, Rat.intCast_num]
  simp

theorem truncToInt_of_nonneg (x : ℚ) (h : 0 ≤ x) : truncToInt x = ⌊x⌋ := by
  unfold truncToInt
  rw [Int.tdiv_eq_ediv (Rat.num_nonneg.2 h) (Int.ofNat_nonneg _)]
  rw [← Rat.floor_def']
  rfl

theorem truncToInt_half (n : Int) (h : 0 ≤ n) : truncToInt ((n : ℚ) / 2) = n / 2 := by
  rw [truncToInt_of_nonneg _ (by positivity)]
  have := Rat.floor_intCast_div_natCast n 2
  simpa using this

theorem percentileIndex_100 (n : Int) (h : n.natAbs ≤ 2 ^ 53) :
    truncToInt (roundF64 (roundF64 (roundF64 ((100 : Int) : ℚ) / 100) * roundF64 (n : ℚ))) = n := by
  rw [roundF64_intCast 100 (by decide)]
  have h1 : (((100 : Int) : ℚ) / 100) = ((1 : Int) : ℚ) := by norm_num
  rw [h1, roundF64_intCast 1 (by decide), roundF64_intCast n h]
  have h2 : ((1 : Int) : ℚ) * (n : ℚ) = (n : ℚ) := by norm_num
  rw [h2, roundF64_intCast n h, truncToInt_intCast]

theorem percentileIndex_50 (n : Int) (h0 : 0 ≤ n) (h : n.natAbs ≤ 2 ^ 53) :
    truncToInt (roundF64 (roundF64 (roundF64 ((50 : Int) : ℚ) / 100) * roundF64 (n : ℚ)))
      = n / 2 := by
  rw [roundF64_intCast 50 (by decide)]
  have h1 : (((50 : Int) : ℚ) / 100) = ((1 : Int) : ℚ) / 2 := by norm_num
  rw [h1, roundF64_half 1 (by decide), roundF64_intCast n h]
  have h2 : ((1 : Int) : ℚ) / 2 * (n : ℚ) = (n : ℚ) / 2 := by push_cast; ring
  rw [h2, roundF64_half n h, truncToInt_half n h0]

theorem sorted_getElem_le (s : List Int) (hs : List.Sorted (· ≤ ·) s) (i j : Nat) (x y : Int)
    (hij : i ≤ j) (hx : s[i]? = some x) (hy : s[j]? = some y) : x ≤ y := by
  obtain ⟨hi, hxi⟩ := List.getElem?_eq_some.1 hx
  obtain ⟨hj, hyj⟩ := List.getElem?_eq_some.1 hy
  rcases Nat.eq_or_lt_of_le hij with h | h
  · subst h
    rw [hx] at hy
    simp only [Option.some.injEq] at hy
    omega
  · have := (List.pairwise_iff_getElem.1 hs) i j hi hj h
    rw [hxi, hyj] at this
    exact this

theorem getCommitLatencyOfPercentile_eq (cfg : Config) (tks : TimeKeepers) (p : Int)
    (index : Nat) (x : Int)
    (hcache : tks.commitLatencySorted = none ∨
      tks.commitLatencySorted = some (tks.totalLatency.insertionSort (· ≤ ·)))
    (hindex : (if truncToInt (roundF64 (roundF64 (roundF64 (p : ℚ) / 100) *
          roundF64 (cfg.TxNum : ℚ))) < 0 then 0
        else if truncToInt (roundF64 (roundF64 (roundF64 (p : ℚ) / 100) *
          roundF64 (cfg.TxNum : ℚ))) ≥ cfg.TxNum then cfg.TxNum - 1
        else truncToInt (roundF64 (roundF64 (roundF64 (p : ℚ) / 100) *
          roundF64 (cfg.TxNum : ℚ)))) = (index : Int))
    (hx : (tks.totalLatency.insertionSort (· ≤ ·))[index]? = some x) :
    getCommitLatencyOfPercentile cfg tks p =
      some (roundF64 (roundF64 (x : ℚ) / 1000000000),
        { tks with commitLatencySorted := some (tks.totalLatency.insertionSort (· ≤ ·)) }) := by
  unfold getCommitLatencyOfPercentile
  simp only [hindex]
  have hnn : ¬ ((index : Int) < 0) := by omega
  rcases hcache with h | h
  · simp only [h, if_true, sortCommitLatency, hnn, if_false, Int.toNat_ofNat, hx]
  · cases tks with
    | mk a b c d e =>
      simp only at h hx ⊢
      subst h
      simp only [reduceCtorEq, if_false, hnn, Int.toNat_ofNat, hx]

/-- C12: for `1 <= TxNum <= 2^53` (every such count is a `float64`), a
total-latency array of length `TxNum` and no sorted copy cached,
`getCommitLatencyOfPercentile(100)` returns the maximum entry of the
total-latency array, converted to `float64` and divided by `1e9`. -/
theorem percentile_100_is_max (cfg : Config) (tks : TimeKeepers) (h1 : 1 ≤ cfg.TxNum)
    (hmax : cfg.TxNum ≤ 9007199254740992)
    (hlen : (tks.totalLatency.length : Int) = cfg.TxNum)
    (hnil : tks.commitLatencySorted = none) :
    ∃ m, m ∈ tks.totalLatency ∧ (∀ x ∈ tks.totalLatency, x ≤ m) ∧
      (getCommitLatencyOfPercentile cfg tks 100).map Prod.fst =
        some (roundF64 (roundF64 (m : ℚ) / 1000000000)) := by
  have hsorted := List.sorted_insertionSort (· ≤ ·) tks.totalLatency
  have hperm := List.perm_insertionSort (· ≤ ·) tks.totalLatency
  have hslen := List.length_insertionSort (· ≤ ·) tks.totalLatency
  obtain ⟨n, hn⟩ : ∃ n : Nat, cfg.TxNum = (n : Int) + 1 :=
    ⟨(cfg.TxNum - 1).toNat, by omega⟩
  have hnlt : n < (tks.totalLatency.insertionSort (· ≤ ·)).length := by omega
  have hm : (tks.totalLatency.insertionSort (· ≤ ·))[n]? =
      some ((tks.totalLatency.insertionSort (· ≤ ·))[n]) := List.getElem?_eq_getElem hnlt
  refine ⟨(tks.totalLatency.insertionSort (· ≤ ·))[n], ?_, ?_, ?_⟩
  · exact hperm.mem_iff.1 (List.getElem_mem _)
  · intro x hx
    have hx1 := hperm.mem_iff.2 hx
    obtain ⟨i, hi, hxi⟩ := List.getElem_of_mem hx1
    exact sorted_getElem_le _ hsorted i n x _ (by omega)
      (by rw [List.getElem?_eq_getElem hi, hxi]) hm
  · rw [getCommitLatencyOfPercentile_eq cfg tks 100 n _ (Or.inl hnil) ?_ hm]
    · rfl
    · have hidx := percentileIndex_100 cfg.TxNum (by omega)
      simp only [Int.cast_ofNat] at hidx ⊢
      rw [hidx]
      have h2 : ¬ (cfg.TxNum < 0) := by omega
      simp only [h2, if_false, ge_iff_le, le_refl, if_true]
      omega

/-- C13: for `1 <= TxNum <= 2^53`, a total-latency array of length `TxNum` and
a sorted copy that is not cached yet or is the sort of the array,
`getCommitLatencyOfPercentile(50)` returns the element at index
`floor(TxNum / 2)` of the ascending sort of the total-latency array, converted
to `float64` and divided by `1e9`. -/
theorem percentile_50_is_median (cfg : Config) (tks : TimeKeepers) (h1 : 1 ≤ cfg.TxNum)
    (hmax : cfg.TxNum ≤ 9007199254740992)
    (hlen : (tks.totalLatency.length : Int) = cfg.TxNum)
    (hcache : tks.commitLatencySorted = none ∨
      tks.commitLatencySorted = some (tks.totalLatency.insertionSort (· ≤ ·))) :
    ∃ (s : List Int) (x : Int), List.Sorted (· ≤ ·) s ∧ s.Perm tks.totalLatency ∧
      s[(cfg.TxNum / 2).toNat]? = some x ∧
      (getCommitLatencyOfPercentile cfg tks 50).map Prod.fst =
        some (roundF64 (roundF64 (x : ℚ) / 1000000000)) := by
  have hsorted := List.sorted_insertionSort (· ≤ ·) tks.totalLatency
  have hperm := List.perm_insertionSort (· ≤ ·) tks.totalLatency
  have hslen := List.length_insertionSort (· ≤ ·) tks.totalLatency
  have hklt : (cfg.TxNum / 2).toNat < (tks.totalLatency.insertionSort (· ≤ ·)).length := by
    omega
  have hx : (tks.totalLatency.insertionSort (· ≤ ·))[(cfg.TxNum / 2).toNat]? =
      some ((tks.totalLatency.insertionSort (· ≤ ·))[(cfg.TxNum / 2).toNat]) :=
    List.getElem?_eq_getElem hklt
  refine ⟨_, _, hsorted, hperm, hx, ?_⟩
  rw [getCommitLatencyOfPercentile_eq cfg tks 50 (cfg.TxNum / 2).toNat _ hcache ?_ hx]
  · rfl
  · have hidx := percentileIndex_50 cfg.TxNum (by omega) (by omega)
    simp only [Int.cast_ofNat] at hidx ⊢
    rw [hidx]
    have h2 : ¬ (cfg.TxNum / 2 < 0) := by omega
    have h3 : ¬ (cfg.TxNum / 2 ≥ cfg.TxNum) := by omega
    simp only [h2, h3, if_false]
    omega

/-- C12, at a concrete ledger of five transactions. -/
theorem percentile_100_is_max_witness :
    (1 : Int) ≤ fiveTransactions.TxNum ∧ fiveTransactions.TxNum ≤ 9007199254740992 ∧
    (latencyLedger.totalLatency.length : Int) = fiveTransactions.TxNum ∧
    latencyLedger.commitLatencySorted = none ∧
    ∃ m, m ∈ latencyLedger.totalLatency ∧ (∀ x ∈ latencyLedger.totalLatency, x ≤ m) ∧
      (getCommitLatencyOfPercentile fiveTransactions latencyLedger 100).map Prod.fst =
        some (roundF64 (roundF64 (m : ℚ) / 1000000000)) :=
  ⟨by decide, by decide, by decide, rfl,
    percentile_100_is_max fiveTransactions latencyLedger (by decide) (by decide) (by decide) rfl⟩

/-- C13, at a concrete ledger of five transactions. -/
theorem percentile_50_is_median_witness :
    (1 : Int) ≤ fiveTransactions.TxNum ∧ fiveTransactions.TxNum ≤ 9007199254740992 ∧
    (latencyLedger.totalLatency.length : Int) = fiveTransactions.TxNum ∧
    (latencyLedger.commitLatencySorted = none ∨
      latencyLedger.commitLatencySorted =
        some (latencyLedger.totalLatency.insertionSort (· ≤ ·))) ∧
    ∃ (s : List Int) (x : Int), List.Sorted (· ≤ ·) s ∧ s.Perm latencyLedger.totalLatency ∧
      s[(fiveTransactions.TxNum / 2).toNat]? = some x ∧
      (getCommitLatencyOfPercentile fiveTransactions latencyLedger 50).map Prod.fst =
        some (roundF64 (roundF64 (x : ℚ) / 1000000000)) :=
  ⟨by decide, by decide, by decide, Or.inl rfl,
    percentile_50_is_median fiveTransactions latencyLedger (by decide) (by decide) (by decide)
      (Or.inl rfl)⟩

/-! ### Token generation (C14) -/

theorem proposerTokens_zero (cfg : Config) (h : cfg.Rate = 0) (n : Nat) :
    Proposers.generateTokens cfg n = List.replicate n .push := by
  induction n with
  | zero => rfl
  | succ n ih =>
    simp only [Proposers.generateTokens, h, if_true, ih]
    rw [List.replicate_succ']

theorem broadcasterTokens_zero (cfg : Config) (h : cfg.Rate = 0) (n : Nat) :
    Broadcasters.generateTokens cfg n = List.replicate n .push := by
  induction n with
  | zero => rfl
  | succ n ih =>
    simp only [Broadcasters.generateTokens, h, if_true, ih]
    rw [List.replicate_succ']

theorem proposerTokens_pos (cfg : Config) (h : cfg.Rate ≠ 0) (n : Nat) :
    Proposers.generateTokens cfg n =
      (List.replicate n [TokenEvent.sleep (Proposers.interval cfg), TokenEvent.push]).flatten := by
  induction n with
  | zero => rfl
  | succ n ih =>
    simp only [Proposers.generateTokens, h, if_false, ih]
    rw [List.replicate_succ']
    simp

theorem broadcasterTokens_pos (cfg : Config) (h : cfg.Rate ≠ 0) (n : Nat) :
    Broadcasters.generateTokens cfg n =
      (List.replicate n [TokenEvent.push, TokenEvent.sleep (Broadcasters.interval cfg)]).flatten := by
  induction n with
  | zero => rfl
  | succ n ih =>
    simp only [Broadcasters.generateTokens, h, if_false, ih]
    rw [List.replicate_succ']
    simp

theorem Broadcasters.interval_pos (cfg : Config) (h : 0 < cfg.Rate) :
    Broadcasters.interval cfg = 1000000000 / cfg.Rate := by
  unfold Broadcasters.interval
  exact Int.tdiv_eq_ediv (by decide) (by omega)

theorem Proposers.interval_of_dvd (cfg : Config) (h : 0 < cfg.Rate)
    (hdvd : cfg.Rate ∣ 1000000000) (hE0 : 0 ≤ cfg.EndorserNum)
    (hE : cfg.EndorserNum ≤ 8388608) :
    Proposers.interval cfg = 1000000000 / cfg.Rate * cfg.EndorserNum := by
  unfold Proposers.interval
  have hle : cfg.Rate ≤ 1000000000 := Int.le_of_dvd (by decide) hdvd
  have hk0 : 0 ≤ (1000000000 : Int) / cfg.Rate := Int.ediv_nonneg (by decide) (by omega)
  have hk1 : (1000000000 : Int) / cfg.Rate ≤ 1000000000 :=
    Int.ediv_le_self _ (by decide)
  rw [roundF64_intCast cfg.Rate (by omega)]
  have hne : (cfg.Rate : ℚ) ≠ 0 := by
    have : cfg.Rate ≠ 0 := by omega
    exact_mod_cast this
  have hq : (1000000000 : ℚ) / (cfg.Rate : ℚ) = (((1000000000 : Int) / cfg.Rate : Int) : ℚ) := by
    rw [Int.cast_div hdvd hne]
    norm_num
  rw [hq, roundF64_intCast _ (by omega), roundF64_intCast cfg.EndorserNum (by omega)]
  have hmul : ((((1000000000 : Int) / cfg.Rate : Int) : ℚ) * (cfg.EndorserNum : ℚ))
      = (((1000000000 : Int) / cfg.Rate * cfg.EndorserNum : Int) : ℚ) := by
    push_cast; rfl
  have hp0 : 0 ≤ (1000000000 : Int) / cfg.Rate * cfg.EndorserNum := Int.mul_nonneg hk0 hE0
  have hp1 : (1000000000 : Int) / cfg.Rate * cfg.EndorserNum ≤ 1000000000 * 8388608 :=
    Int.mul_le_mul hk1 hE hE0 (by decide)
  rw [hmul, roundF64_intCast _ (by omega), truncToInt_intCast]

/-- C14 (the code at the failing input): with a rate of 10 tokens per second
and two endorsers, the proposer pool's loop sleeps 200000000 ns before each
token, twice the period `1e9 / 10 = 100000000` ns; the broadcaster pool's loop
at the same configuration sleeps 100000000 ns after each token. -/
theorem proposer_interval_scales_with_endorsers :
    Proposers.generateTokens rateTen 2 =
      [.sleep 200000000, .push, .sleep 200000000, .push] ∧
    Broadcasters.generateTokens rateTen 2 =
      [.push, .sleep 100000000, .push, .sleep 100000000] ∧
    (1000000000 : Int) / rateTen.Rate = 100000000 := by
  have h : Proposers.interval rateTen = 200000000 := by
    rw [Proposers.interval_of_dvd rateTen (by decide) (by decide) (by decide) (by decide)]
    decide
  refine ⟨?_, by decide, by decide⟩
  rw [proposerTokens_pos rateTen (by decide), h]
  rfl

/-- What the two token-generation loops do.  For a rate of 0 both push tokens
with no wait.  For every rate greater than 0 the broadcaster pool's loop sleeps
`1e9 / rate` nanoseconds (integer division) after each token, whatever the
number of endorsers, and the proposer pool's loop sleeps before each token one
fixed time, the `float64` product of `1e9 / rate` and `EndorserNum` truncated
to whole nanoseconds; when the rate divides `1e9` (and `EndorserNum <= 2^23`)
that is exactly `(1e9 / rate) * EndorserNum` nanoseconds. -/
theorem token_intervals (cfg : Config) (n : Nat) :
    (cfg.Rate = 0 →
      Proposers.generateTokens cfg n = List.replicate n .push ∧
      Broadcasters.generateTokens cfg n = List.replicate n .push) ∧
    (0 < cfg.Rate →
      Broadcasters.generateTokens cfg n =
        (List.replicate n [TokenEvent.push, TokenEvent.sleep (1000000000 / cfg.Rate)]).flatten ∧
      Proposers.generateTokens cfg n =
        (List.replicate n
          [TokenEvent.sleep (Proposers.interval cfg), TokenEvent.push]).flatten) ∧
    (0 < cfg.Rate → cfg.Rate ∣ 1000000000 → 0 ≤ cfg.EndorserNum →
      cfg.EndorserNum ≤ 8388608 →
      Proposers.generateTokens cfg n =
        (List.replicate n
          [TokenEvent.sleep (1000000000 / cfg.Rate * cfg.EndorserNum), TokenEvent.push]).flatten) := by
  refine ⟨?_, ?_, ?_⟩
  · intro h
    exact ⟨proposerTokens_zero cfg h n, broadcasterTokens_zero cfg h n⟩
  · intro h
    constructor
    · rw [broadcasterTokens_pos cfg (by omega), Broadcasters.interval_pos cfg h]
    · rw [proposerTokens_pos cfg (by omega)]
  · intro h hdvd hE0 hE
    rw [proposerTokens_pos cfg (by omega), Proposers.interval_of_dvd cfg h hdvd hE0 hE]

/-- The two token-generation loops at a concrete configuration: a rate of 10
and two endorsers. -/
theorem token_intervals_witness :
    (0 : Int) < rateTen.Rate ∧ rateTen.Rate ∣ 1000000000 ∧ 0 ≤ rateTen.EndorserNum ∧
    rateTen.EndorserNum ≤ 8388608 ∧ exampleConfig.Rate = 0 ∧
    (Proposers.generateTokens exampleConfig 2 = List.replicate 2 .push ∧
      Broadcasters.generateTokens exampleConfig 2 = List.replicate 2 .push) ∧
    (Broadcasters.generateTokens rateTen 2 =
        (List.replicate 2
          [TokenEvent.push, TokenEvent.sleep (1000000000 / rateTen.Rate)]).flatten ∧
      Proposers.generateTokens rateTen 2 =
        (List.replicate 2
          [TokenEvent.sleep (Proposers.interval rateTen), TokenEvent.push]).flatten) ∧
    Proposers.generateTokens rateTen 2 =
      (List.replicate 2
        [TokenEvent.sleep (1000000000 / rateTen.Rate * rateTen.EndorserNum),
          TokenEvent.push]).flatten :=
  ⟨by decide, by decide, by decide, by decide, rfl,
    (token_intervals exampleConfig 2).1 rfl,
    (token_intervals rateTen 2).2.1 (by decide),
    (token_intervals rateTen 2).2.2 (by decide) (by decide) (by decide) (by decide)⟩

/-! ### End-to-end scenario B (C20) -/

/-- C20 (the code in scenario B): ten planned transactions, two endorsers, the
endorser 1 always answering with status 500.  Along the schedule that takes
every record through both endorsers no response list reaches length 2 and no
record is placed on the integration queue, as the claim says; but nothing
counts the records as aborted: the abort counter is 0 in every state, the
observer ends the run by its timeout, and the report reads
`VALID Transactions: 10` and `ABORTED Transactions: 0`. -/
theorem scenario_B_counts_no_abort :
    ∃ w0 w w1, World.start scenarioB scenarioBTxids = some w0 ∧
      World.run scenarioB exampleAssembly w0 scenarioBSchedule = some w ∧
      (World.states scenarioB exampleAssembly w0 scenarioBSchedule).length = 61 ∧
      (World.states scenarioB exampleAssembly w0 scenarioBSchedule).all
        (fun s => decide (s.endorsedCh = [] ∧ s.Metric.Abort = 0 ∧
          s.heap.all (fun e => decide (e.Responses.length < 2)) = true)) = true ∧
      w.signedChs = [[], []] ∧
      w.heap.map (fun e => e.Responses.length) = List.replicate 10 1 ∧
      w.timeout = some w1 ∧ w1.Metric.Abort = 0 ∧
      World.report scenarioB w1 =
        some ["ALL Transactions: 10", "VALID Transactions: 10", "ABORTED Transactions: 0"] := by
  refine ⟨_, _, _, by rfl, by rfl, by rfl, by rfl, by rfl, by rfl, by rfl, by rfl, by rfl⟩

/-! ### Assignments to the timing ledger (C18) -/

theorem sum_map_modify {α : Type} (h : α → Nat) (f : α → α) (l : List α) (i : Nat) (a : α)
    (ha : l[i]? = some a) :
    ((l.modify f i).map h).sum + h a = (l.map h).sum + h (f a) := by
  induction l generalizing i with
  | nil => simp at ha
  | cons x xs ih =>
    cases i with
    | zero =>
      simp only [List.getElem?_cons_zero, Option.some.injEq] at ha
      subst ha
      simp [List.modify]
      omega
    | succ i =>
      simp only [List.getElem?_cons_succ] at ha
      have := ih i ha
      simp [List.modify] at this ⊢
      omega

theorem sum_map_set {α : Type} (h : α → Nat) (l : List α) (i : Nat) (a b : α)
    (ha : l[i]? = some a) :
    ((l.set i b).map h).sum + h a = (l.map h).sum + h b := by
  induction l generalizing i with
  | nil => simp at ha
  | cons x xs ih =>
    cases i with
    | zero =>
      simp only [List.getElem?_cons_zero, Option.some.injEq] at ha
      subst ha
      simp
      omega
    | succ i =>
      simp only [List.getElem?_cons_succ] at ha
      have := ih i ha
      simp at this ⊢
      omega

theorem Grid.sum_update (g : Grid) (i j k : Nat) (f : Proposer → Proposer) (c : Proposer)
    (h : Proposer → Nat) (hc : g.cell i j k = some c) :
    (g.update i j k f).sum h + h c = g.sum h + h (f c) := by
  unfold Grid.cell at hc
  cases hg : g[i]? with
  | none => simp [hg] at hc
  | some conns =>
    simp only [hg] at hc
    cases hcs : conns[j]? with
    | none => simp [hcs] at hc
    | some clients =>
      simp only [hcs] at hc
      have h1 := sum_map_modify h f clients k c hc
      have h2 := sum_map_modify (fun cl => (cl.map h).sum) (fun cl => cl.modify f k) conns j
        clients hcs
      have h3 := sum_map_modify (fun cs => (cs.map (fun cl => (cl.map h).sum)).sum)
        (fun cs => cs.modify (fun cl => cl.modify f k) j) g i conns hg
      unfold Grid.sum Grid.update
      simp only at h2 h3
      omega

theorem foldl_cons_eq_reverse {α : Type} (l acc : List α) :
    l.foldl (fun m b => b :: m) acc = l.reverse ++ acc := by
  induction l generalizing acc with
  | nil => rfl
  | cons x xs ih => simp [List.foldl, ih]

theorem lookup_of_mem (l : List (String × Nat)) (k : String) (v : Nat)
    (hnd : (l.map Prod.fst).Nodup) (h : (k, v) ∈ l) : l.lookup k = some v := by
  induction l with
  | nil => simp at h
  | cons x xs ih =>
    obtain ⟨k1, v1⟩ := x
    simp only [List.map_cons, List.nodup_cons, List.mem_map, not_exists, not_and] at hnd
    simp only [List.mem_cons, Prod.mk.injEq] at h
    by_cases hk : k = k1
    · subst hk
      rcases h with h | h
      · simp [List.lookup, h.2]
      · exact absurd rfl (hnd.1 (k, v) h)
    · have hne : (k == k1) = false := by simpa using hk
      rcases h with h | h
      · exact absurd h.1 hk
      · simp only [List.lookup, hne]
        exact ih hnd.2 h

/-- With pairwise distinct ids the map built by the generator sends the id of
position `p` to `p`. -/
theorem buildTxidMap_get (txids : List String) (hnd : txids.Nodup) (p : Nat) (t : String)
    (ht : txids[p]? = some t) : (buildTxidMap txids).get t = p := by
  unfold buildTxidMap TxidMap.get
  rw [foldl_cons_eq_reverse, List.append_nil]
  have hlt : p < txids.length := by
    rcases Nat.lt_or_ge p txids.length with h | h
    · exact h
    · rw [List.getElem?_eq_none h] at ht; simp at ht
  have hmem : (t, p) ∈ (txids.zip (List.range txids.length)).reverse := by
    rw [List.mem_reverse, List.mem_iff_getElem?]
    refine ⟨p, ?_⟩
    rw [List.getElem?_zip_eq_some]
    exact ⟨ht, by simp [List.getElem?_range, hlt]⟩
  have hkeys : (((txids.zip (List.range txids.length)).reverse).map Prod.fst).Nodup := by
    rw [List.map_reverse, List.nodup_reverse, List.map_fst_zip]
    · exact hnd
    · simp
  rw [lookup_of_mem _ t p hkeys hmem]
  rfl

theorem index_of_pointer (txids : List String) (hnd : txids.Nodup) (heap : List Element)
    (hheap : heap.map (fun e => e.Txid) = txids) (p : Nat) (e : Element)
    (he : heap[p]? = some e) : (buildTxidMap txids).get e.Txid = p := by
  apply buildTxidMap_get txids hnd
  rw [← hheap, List.getElem?_map, he]
  rfl

theorem dispatch_frame (cfg : Config) (w w1 : World) (i : Nat)
    (h : w.dispatch cfg i = some w1) :
    ∃ p rest e j k c, w.signedChs[i]? = some (p :: rest) ∧ w.heap[p]? = some e ∧
      w.proposers.cell i j k = some c ∧
      w1 = { w with
        signedChs := w.signedChs.set i rest
        proposers := w.proposers.update i j k (fun c => { c with inCh := c.inCh ++ [p] }) } := by
  unfold World.dispatch at h
  cases hch : w.signedChs[i]? with
  | none => simp [hch] at h
  | some ch =>
    cases ch with
    | nil => simp [hch] at h
    | cons p rest =>
      simp only [hch] at h
      cases he : w.heap[p]? with
      | none => simp [he] at h
      | some e =>
        simp only [he] at h
        cases hd : dispatchElements cfg w.txid2id w.proposers i e p with
        | none => simp [hd] at h
        | some g =>
          simp only [hd, Option.some.injEq] at h
          unfold dispatchElements at hd
          cases hr : parseElementIndexes cfg w.txid2id e with
          | none => simp [hr] at hd
          | some jk =>
            obtain ⟨cj, ck⟩ := jk
            simp only [hr] at hd
            unfold Grid.send at hd
            split at hd
            · simp at hd
            · cases hc : w.proposers.cell i cj.toNat ck.toNat with
              | none => simp [hc] at hd
              | some c =>
                simp only [hc, Option.some.injEq] at hd
                exact ⟨p, rest, e, cj.toNat, ck.toNat, c, rfl, he, hc, by rw [← h, ← hd]⟩

theorem Stage.dispatch (cfg : Config) (txids : List String) (w w1 : World)
    (L : List (Field × Nat)) (q i : Nat) (hs : Stage cfg txids w L q)
    (h : w.dispatch cfg i = some w1) : Stage cfg txids w1 L q := by
  obtain ⟨p, rest, e, j, k, c, hch, he, hc, rfl⟩ := dispatch_frame cfg w w1 i h
  have e1 := sum_map_set (fun ch => ch.count q) w.signedChs i (p :: rest) rest hch
  have e2 := Grid.sum_update w.proposers i j k (fun c => { c with inCh := c.inCh ++ [p] }) c
    (Proposer.queued q) hc
  have e3 := Grid.sum_update w.proposers i j k (fun c => { c with inCh := c.inCh ++ [p] }) c
    (Proposer.inCall q) hc
  have e4 := Grid.sum_update w.proposers i j k (fun c => { c with inCh := c.inCh ++ [p] }) c
    (Proposer.holding q) hc
  have h1 := hs.proposed
  have h2 := hs.copies
  have h3 := hs.once
  have h4 := hs.quorum
  have h5 := hs.downstream
  simp only [Proposer.queued, Proposer.inCall, Proposer.holding, List.count_cons,
    List.count_append, List.count_nil, beq_iff_eq] at e1 e2 e3 e4
  refine ⟨hs.heap, hs.map, ?_, ?_, ?_, ?_, ?_⟩ <;>
    simp only [World.waiting, World.responses] at * <;>
    split_ifs at * <;> omega

theorem propose_frame (w w1 : World) (i j k : Nat) (now : Int)
    (h : w.propose i j k now = some w1) :
    ∃ c p rest e tks, w.proposers.cell i j k = some c ∧ c.pc = .idle ∧ c.inCh = p :: rest ∧
      w.heap[p]? = some e ∧
      keepProposedTime w.txid2id w.timeKeepers e.Txid now = some tks ∧
      w1 = { w with
        clock := now
        timeKeepers := tks
        proposers := w.proposers.update i j k
          (fun c => { c with inCh := rest, pc := .calling p }) } := by
  unfold World.propose at h
  cases hc : w.proposers.cell i j k with
  | none => simp [hc] at h
  | some c =>
    simp only [hc] at h
    cases hpc : c.pc with
    | calling p => simp [hpc] at h
    | forwarded p => simp [hpc] at h
    | idle =>
      cases hin : c.inCh with
      | nil => simp [hpc, hin] at h
      | cons p rest =>
        simp only [hpc, hin] at h
        cases he : w.heap[p]? with
        | none => simp [he] at h
        | some e =>
          unfold World.readClock at h
          by_cases hclk : w.clock ≤ now
          · simp only [he, hclk, if_true] at h
            cases hk : keepProposedTime w.txid2id w.timeKeepers e.Txid now with
            | none => simp [hk] at h
            | some tks =>
              simp only [hk, Option.some.injEq] at h
              exact ⟨c, p, rest, e, tks, rfl, hpc, hin, he, hk, h.symm⟩
          · simp [he, hclk] at h

theorem count_single (f g : Field) (p q : Nat) :
    List.count (f, q) [(g, p)] = if g = f ∧ p = q then 1 else 0 := by
  simp [List.count_cons, Prod.mk.injEq]

theorem Stage.propose (cfg : Config) (txids : List String) (hnd : txids.Nodup) (w w1 : World)
    (L : List (Field × Nat)) (q i j k : Nat) (now : Int) (hs : Stage cfg txids w L q)
    (h : w.propose i j k now = some w1) :
    Stage cfg txids w1 (L ++ w.writes (.propose i j k now)) q := by
  obtain ⟨c, p, rest, e, tks, hc, hpc, hin, he, -, rfl⟩ := propose_frame w w1 i j k now h
  have hw : w.writes (.propose i j k now) = [(.proposed, p)] := by
    simp only [World.writes, hc, hin, he]
    rw [hs.map, index_of_pointer txids hnd w.heap hs.heap p e he]
  rw [hw]
  have e2 := Grid.sum_update w.proposers i j k
    (fun c => { c with inCh := rest, pc := .calling p }) c (Proposer.queued q) hc
  have e3 := Grid.sum_update w.proposers i j k
    (fun c => { c with inCh := rest, pc := .calling p }) c (Proposer.inCall q) hc
  have e4 := Grid.sum_update w.proposers i j k
    (fun c => { c with inCh := rest, pc := .calling p }) c (Proposer.holding q) hc
  have h1 := hs.proposed
  have h2 := hs.copies
  have h3 := hs.once
  have h4 := hs.quorum
  have h5 := hs.downstream
  simp only [Proposer.queued, Proposer.inCall, Proposer.holding, List.count_cons,
    List.count_append, List.count_nil, beq_iff_eq, hpc, hin, reduceCtorEq, if_false,
    ProposerPC.calling.injEq] at e2 e3 e4
  refine ⟨hs.heap, hs.map, ?_, ?_, ?_, ?_, ?_⟩ <;>
    simp only [World.waiting, World.responses, List.count_append, count_single,
      reduceCtorEq, false_and, true_and, if_false] at * <;>
    split_ifs at * <;> omega

theorem heap_set_txid (heap : List Element) (p : Nat) (e e1 : Element)
    (he : heap[p]? = some e) (ht : e1.Txid = e.Txid) :
    (heap.set p e1).map (fun e => e.Txid) = heap.map (fun e => e.Txid) := by
  apply List.ext_getElem?
  intro n
  simp only [List.getElem?_map, List.getElem?_set]
  by_cases hpn : p = n
  · subst hpn
    have hlt : p < heap.length := by
      rcases Nat.lt_or_ge p heap.length with h | h
      · exact h
      · rw [List.getElem?_eq_none h] at he; simp at he
    simp [hlt, he, ht]
  · simp [hpn]

theorem responses_set (w w1 : World) (p q : Nat) (e e1 : Element) (he : w.heap[p]? = some e)
    (hh : w1.heap = w.heap.set p e1) :
    w1.responses q = if p = q then e1.Responses.length else w.responses q := by
  have hlt : p < w.heap.length := by
    rcases Nat.lt_or_ge p w.heap.length with h | h
    · exact h
    · rw [List.getElem?_eq_none h] at he; simp at he
  unfold World.responses
  rw [hh, List.getElem?_set]
  by_cases hpq : p = q
  · subst hpq
    simp [hlt]
  · simp [hpq]

theorem endorse_frame (cfg : Config) (w w1 : World) (i j k : Nat) (res : EndorseResult)
    (h : w.endorse cfg i j k res = some w1) :
    ∃ c p e, w.proposers.cell i j k = some c ∧ c.pc = .calling p ∧ w.heap[p]? = some e ∧
      (w1 = { w with
          proposers := w.proposers.update i j k (fun c => { c with pc := .idle }) } ∨
        (∃ r, cfg.EndorserNum ≤ ((e.Responses.length + 1 : Nat) : Int) ∧
          w1 = { w with
            heap := w.heap.set p { (appendResponse cfg e r).1 with lock := true }
            endorsedCh := w.endorsedCh ++ [p]
            proposers := w.proposers.update i j k (fun c => { c with pc := .forwarded p }) }) ∨
        (∃ r, w1 = { w with
            heap := w.heap.set p (appendResponse cfg e r).1
            proposers := w.proposers.update i j k (fun c => { c with pc := .idle }) })) := by
  unfold World.endorse at h
  cases hc : w.proposers.cell i j k with
  | none => simp [hc] at h
  | some c =>
    simp only [hc] at h
    cases hpc : c.pc with
    | idle => simp [hpc] at h
    | forwarded p => simp [hpc] at h
    | calling p =>
      simp only [hpc] at h
      cases he : w.heap[p]? with
      | none => simp [he] at h
      | some e =>
        cases hr : endorsementOf res with
        | none => simp [he, hr] at h
        | some o =>
          cases o with
          | none =>
            simp only [he, hr, Option.some.injEq] at h
            exact ⟨c, p, e, rfl, hpc, he, Or.inl h.symm⟩
          | some r =>
            simp only [he, hr] at h
            split at h
            · simp at h
            · split at h
              · rename_i hq
                simp only [Option.some.injEq] at h
                refine ⟨c, p, e, rfl, hpc, he, Or.inr (Or.inl ⟨r, ?_, h.symm⟩)⟩
                simpa [appendResponse] using hq
              · simp only [Option.some.injEq] at h
                exact ⟨c, p, e, rfl, hpc, he, Or.inr (Or.inr ⟨r, h.symm⟩)⟩

theorem Stage.endorse (cfg : Config) (txids : List String) (w w1 : World)
    (L : List (Field × Nat)) (q i j k : Nat) (res : EndorseResult)
    (hs : Stage cfg txids w L q) (h : w.endorse cfg i j k res = some w1) :
    Stage cfg txids w1 L q := by
  obtain ⟨c, p, e, hc, hpc, he, hcase⟩ := endorse_frame cfg w w1 i j k res h
  have h1 := hs.proposed
  have h2 := hs.copies
  have h3 := hs.once
  have h4 := hs.quorum
  have h5 := hs.downstream
  rcases hcase with rfl | ⟨r, hq, rfl⟩ | ⟨r, rfl⟩
  · have e2 := Grid.sum_update w.proposers i j k (fun c => { c with pc := .idle }) c
      (Proposer.queued q) hc
    have e3 := Grid.sum_update w.proposers i j k (fun c => { c with pc := .idle }) c
      (Proposer.inCall q) hc
    have e4 := Grid.sum_update w.proposers i j k (fun c => { c with pc := .idle }) c
      (Proposer.holding q) hc
    simp only [Proposer.queued, Proposer.inCall, Proposer.holding, hpc, reduceCtorEq, if_false,
      ProposerPC.calling.injEq] at e2 e3 e4
    refine ⟨hs.heap, hs.map, ?_, ?_, ?_, ?_, ?_⟩ <;>
      simp only [World.waiting, World.responses] at * <;>
      split_ifs at * <;> omega
  · have e2 := Grid.sum_update w.proposers i j k (fun c => { c with pc := .forwarded p }) c
      (Proposer.queued q) hc
    have e3 := Grid.sum_update w.proposers i j k (fun c => { c with pc := .forwarded p }) c
      (Proposer.inCall q) hc
    have e4 := Grid.sum_update w.proposers i j k (fun c => { c with pc := .forwarded p }) c
      (Proposer.holding q) hc
    have e5 := responses_set w
      { w with
        heap := w.heap.set p { (appendResponse cfg e r).1 with lock := true }
        endorsedCh := w.endorsedCh ++ [p]
        proposers := w.proposers.update i j k (fun c => { c with pc := .forwarded p }) }
      p q e { (appendResponse cfg e r).1 with lock := true } he rfl
    have e6 : w.responses p = e.Responses.length := by
      unfold World.responses; rw [he]
    have e7 : ({ (appendResponse cfg e r).1 with lock := true } : Element).Responses.length =
        e.Responses.length + 1 := by
      simp [appendResponse]
    rw [e7] at e5
    simp only [Proposer.queued, Proposer.inCall, Proposer.holding, hpc, reduceCtorEq, if_false,
      ProposerPC.calling.injEq, ProposerPC.forwarded.injEq] at e2 e3 e4
    refine ⟨?_, hs.map, ?_, ?_, ?_, ?_, ?_⟩
    · rw [← hs.heap]
      exact heap_set_txid w.heap p e _ he rfl
    all_goals
      simp only [World.waiting, List.count_append, List.count_cons, List.count_nil,
        beq_iff_eq] at *
      by_cases hpq : p = q
      · subst hpq
        simp only [if_true] at *
        omega
      · simp only [hpq, if_false] at *
        omega
  · have e2 := Grid.sum_update w.proposers i j k (fun c => { c with pc := .idle }) c
      (Proposer.queued q) hc
    have e3 := Grid.sum_update w.proposers i j k (fun c => { c with pc := .idle }) c
      (Proposer.inCall q) hc
    have e4 := Grid.sum_update w.proposers i j k (fun c => { c with pc := .idle }) c
      (Proposer.holding q) hc
    have e5 := responses_set w
      { w with
        heap := w.heap.set p (appendResponse cfg e r).1
        proposers := w.proposers.update i j k (fun c => { c with pc := .idle }) }
      p q e (appendResponse cfg e r).1 he rfl
    have e6 : w.responses p = e.Responses.length := by
      unfold World.responses; rw [he]
    have e7 : (appendResponse cfg e r).1.Responses.length = e.Responses.length + 1 := by
      simp [appendResponse]
    rw [e7] at e5
    simp only [Proposer.queued, Proposer.inCall, Proposer.holding, hpc, reduceCtorEq, if_false,
      ProposerPC.calling.injEq] at e2 e3 e4
    refine ⟨?_, hs.map, ?_, ?_, ?_, ?_, ?_⟩
    · rw [← hs.heap]
      exact heap_set_txid w.heap p e _ he rfl
    all_goals
      simp only [World.waiting] at *
      by_cases hpq : p = q
      · subst hpq
        simp only [if_true] at *
        omega
      · simp only [hpq, if_false] at *
        omega

theorem stamp_frame (w w1 : World) (i j k : Nat) (now : Int)
    (h : w.stamp i j k now = some w1) :
    ∃ c p e tks, w.proposers.cell i j k = some c ∧ c.pc = .forwarded p ∧
      w.heap[p]? = some e ∧
      keepEndorsedTime w.txid2id w.timeKeepers e.Txid now = some tks ∧
      w1 = { w with
        clock := now
        timeKeepers := tks
        heap := w.heap.set p { e with lock := false }
        proposers := w.proposers.update i j k (fun c => { c with pc := .idle }) } := by
  unfold World.stamp at h
  cases hc : w.proposers.cell i j k with
  | none => simp [hc] at h
  | some c =>
    simp only [hc] at h
    cases hpc : c.pc with
    | idle => simp [hpc] at h
    | calling p => simp [hpc] at h
    | forwarded p =>
      simp only [hpc] at h
      cases he : w.heap[p]? with
      | none => simp [he] at h
      | some e =>
        unfold World.readClock at h
        by_cases hclk : w.clock ≤ now
        · simp only [he, hclk, if_true] at h
          cases hk : keepEndorsedTime w.txid2id w.timeKeepers e.Txid now with
          | none => simp [hk] at h
          | some tks =>
            simp only [hk, Option.some.injEq] at h
            exact ⟨c, p, e, tks, rfl, hpc, he, hk, h.symm⟩
        · simp [he, hclk] at h

theorem Stage.stamp (cfg : Config) (txids : List String) (hnd : txids.Nodup) (w w1 : World)
    (L : List (Field × Nat)) (q i j k : Nat) (now : Int) (hs : Stage cfg txids w L q)
    (h : w.stamp i j k now = some w1) :
    Stage cfg txids w1 (L ++ w.writes (.stamp i j k now)) q := by
  obtain ⟨c, p, e, tks, hc, hpc, he, -, rfl⟩ := stamp_frame w w1 i j k now h
  have hw : w.writes (.stamp i j k now) = [(.endorsed, p)] := by
    simp only [World.writes, hc, hpc, he]
    rw [hs.map, index_of_pointer txids hnd w.heap hs.heap p e he]
  rw [hw]
  have e2 := Grid.sum_update w.proposers i j k (fun c => { c with pc := .idle }) c
    (Proposer.queued q) hc
  have e3 := Grid.sum_update w.proposers i j k (fun c => { c with pc := .idle }) c
    (Proposer.inCall q) hc
  have e4 := Grid.sum_update w.proposers i j k (fun c => { c with pc := .idle }) c
    (Proposer.holding q) hc
  have e5 := responses_set w
    { w with
      clock := now
      timeKeepers := tks
      heap := w.heap.set p { e with lock := false }
      proposers := w.proposers.update i j k (fun c => { c with pc := .idle }) }
    p q e { e with lock := false } he rfl
  have e6 : w.responses p = e.Responses.length := by
    unfold World.responses; rw [he]
  have h1 := hs.proposed
  have h2 := hs.copies
  have h3 := hs.once
  have h4 := hs.quorum
  have h5 := hs.downstream
  simp only [Proposer.queued, Proposer.inCall, Proposer.holding, hpc, reduceCtorEq, if_false,
    ProposerPC.forwarded.injEq] at e2 e3 e4
  refine ⟨?_, hs.map, ?_, ?_, ?_, ?_, ?_⟩
  · rw [← hs.heap]
    exact heap_set_txid w.heap p e _ he rfl
  all_goals
    simp only [World.waiting, List.count_append, count_single,
      reduceCtorEq, false_and, true_and, if_false] at *
    by_cases hpq : p = q
    · subst hpq
      simp only [if_true] at *
      omega
    · simp only [hpq, if_false] at *
      omega

theorem integrate_frame
    (CreateSignedTx : Bytes → List ProposalResponse → Except String Envelope) (w w1 : World)
    (h : w.integrate CreateSignedTx = some w1) :
    ∃ p rest e, w.endorsedCh = p :: rest ∧ w.heap[p]? = some e ∧
      (w1 = { w with endorsedCh := rest, Metric := w.Metric.AddAbort } ∨
        ∃ envelope, w1 = { w with
          endorsedCh := rest
          heap := w.heap.set p { e with Envelope := some envelope }
          integratedCh := w.integratedCh ++ [p] }) := by
  unfold World.integrate at h
  cases hch : w.endorsedCh with
  | nil => simp [hch] at h
  | cons p rest =>
    simp only [hch] at h
    cases he : w.heap[p]? with
    | none => simp [he] at h
    | some e =>
      simp only [he] at h
      unfold Integrator.Integrate at h
      cases hcs : CreateSignedTx e.Proposal e.Responses with
      | error err =>
        simp only [hcs, Option.some.injEq] at h
        exact ⟨p, rest, e, rfl, he, Or.inl h.symm⟩
      | ok envelope =>
        simp only [hcs, Option.some.injEq] at h
        exact ⟨p, rest, e, rfl, he, Or.inr ⟨envelope, h.symm⟩⟩

theorem Stage.integrate (cfg : Config) (txids : List String)
    (CreateSignedTx : Bytes → List ProposalResponse → Except String Envelope) (w w1 : World)
    (L : List (Field × Nat)) (q : Nat) (hs : Stage cfg txids w L q)
    (h : w.integrate CreateSignedTx = some w1) : Stage cfg txids w1 L q := by
  obtain ⟨p, rest, e, hch, he, hcase⟩ := integrate_frame CreateSignedTx w w1 h
  have h1 := hs.proposed
  have h2 := hs.copies
  have h3 := hs.once
  have h4 := hs.quorum
  have h5 := hs.downstream
  rw [hch] at h5
  rcases hcase with rfl | ⟨envelope, rfl⟩
  · refine ⟨hs.heap, hs.map, ?_, ?_, ?_, ?_, ?_⟩ <;>
      simp only [World.waiting, World.responses, List.count_cons, beq_iff_eq] at * <;>
      split_ifs at * <;> omega
  · have e5 := responses_set w
      { w with
        endorsedCh := rest
        heap := w.heap.set p { e with Envelope := some envelope }
        integratedCh := w.integratedCh ++ [p] }
      p q e { e with Envelope := some envelope } he rfl
    have e6 : w.responses p = e.Responses.length := by
      unfold World.responses; rw [he]
    refine ⟨?_, hs.map, ?_, ?_, ?_, ?_, ?_⟩
    · rw [← hs.heap]
      exact heap_set_txid w.heap p e _ he rfl
    all_goals
      simp only [World.waiting, List.count_append, List.count_cons, List.count_nil,
        beq_iff_eq] at *
      by_cases hpq : p = q
      · subst hpq
        simp only [if_true] at *
        omega
      · simp only [hpq, if_false] at *
        omega

theorem broadcast_frame (w w1 : World) (now : Int) (h : w.broadcast now = some w1) :
    ∃ p rest e tks, w.integratedCh = p :: rest ∧ w.heap[p]? = some e ∧
      keepBroadcastTime w.txid2id w.timeKeepers e.Txid now = some tks ∧
      w1 = { w with
        clock := now
        integratedCh := rest
        timeKeepers := tks
        ordererCh := w.ordererCh ++ [p] } := by
  unfold World.broadcast at h
  cases hch : w.integratedCh with
  | nil => simp [hch] at h
  | cons p rest =>
    simp only [hch] at h
    cases he : w.heap[p]? with
    | none => simp [he] at h
    | some e =>
      unfold World.readClock at h
      by_cases hclk : w.clock ≤ now
      · simp only [he, hclk, if_true] at h
        cases hk : keepBroadcastTime w.txid2id w.timeKeepers e.Txid now with
        | none => simp [hk] at h
        | some tks =>
          simp only [hk, Option.some.injEq] at h
          exact ⟨p, rest, e, tks, rfl, he, hk, h.symm⟩
      · simp [he, hclk] at h

theorem Stage.broadcast (cfg : Config) (txids : List String) (hnd : txids.Nodup) (w w1 : World)
    (L : List (Field × Nat)) (q : Nat) (now : Int) (hs : Stage cfg txids w L q)
    (h : w.broadcast now = some w1) :
    Stage cfg txids w1 (L ++ w.writes (.broadcast now)) q := by
  obtain ⟨p, rest, e, tks, hch, he, -, rfl⟩ := broadcast_frame w w1 now h
  have hw : w.writes (.broadcast now) = [(.broadcast, p)] := by
    simp only [World.writes, hch, he]
    rw [hs.map, index_of_pointer txids hnd w.heap hs.heap p e he]
  rw [hw]
  have h1 := hs.proposed
  have h2 := hs.copies
  have h3 := hs.once
  have h4 := hs.quorum
  have h5 := hs.downstream
  rw [hch] at h5
  simp only [List.count_cons, beq_iff_eq] at h5
  refine ⟨hs.heap, hs.map, ?_, ?_, ?_, ?_, ?_⟩ <;>
    simp only [World.waiting, World.responses, List.count_append,
      count_single, reduceCtorEq, false_and, true_and, if_false] at * <;>
    split_ifs at * <;> omega

theorem keepObservedTimes_frame (block : List (FilteredTransaction × Int)) (w w1 : World)
    (h : w.keepObservedTimes block = some w1) :
    w1.txid2id = w.txid2id ∧ w1.heap = w.heap ∧ w1.signedChs = w.signedChs ∧
      w1.proposers = w.proposers ∧ w1.endorsedCh = w.endorsedCh ∧
      w1.integratedCh = w.integratedCh ∧ w1.ordererCh = w.ordererCh := by
  induction block generalizing w with
  | nil =>
    simp only [World.keepObservedTimes, Option.some.injEq] at h
    subst h
    exact ⟨rfl, rfl, rfl, rfl, rfl, rfl, rfl⟩
  | cons b rest ih =>
    obtain ⟨tx, now⟩ := b
    unfold World.keepObservedTimes at h
    unfold World.readClock at h
    by_cases hclk : w.clock ≤ now
    · simp only [hclk, if_true] at h
      cases hk : keepObservedTime w.txid2id w.timeKeepers tx.Txid now with
      | none => simp [hk] at h
      | some tks =>
        simp only [hk] at h
        have hrest := ih _ h
        exact hrest
    · simp [hclk] at h

theorem observe_frame (cfg : Config) (w w1 : World) (block : List (FilteredTransaction × Int))
    (h : w.observe cfg block = some w1) :
    (∀ b ∈ block, w.submitted b.1.Txid = true) ∧
      w1.txid2id = w.txid2id ∧ w1.heap = w.heap ∧ w1.signedChs = w.signedChs ∧
      w1.proposers = w.proposers ∧ w1.endorsedCh = w.endorsedCh ∧
      w1.integratedCh = w.integratedCh := by
  unfold World.observe at h
  split at h
  · simp at h
  · rename_i hg
    cases hk : w.keepObservedTimes block with
    | none => simp [hk] at h
    | some w2 =>
      simp only [hk, Option.some.injEq] at h
      obtain ⟨f1, f2, f3, f4, f5, f6, -⟩ := keepObservedTimes_frame block w w2 hk
      subst h
      refine ⟨?_, f1, f2, f3, f4, f5, f6⟩
      simp only [not_or, not_not, List.all_eq_true] at hg
      exact hg.2

theorem Stage.congr (cfg : Config) (txids : List String) (w w1 : World)
    (L L1 : List (Field × Nat)) (q : Nat) (hs : Stage cfg txids w L q)
    (f1 : w1.txid2id = w.txid2id) (f2 : w1.heap = w.heap) (f3 : w1.signedChs = w.signedChs)
    (f4 : w1.proposers = w.proposers) (f5 : w1.endorsedCh = w.endorsedCh)
    (f6 : w1.integratedCh = w.integratedCh)
    (g1 : L1.count (.proposed, q) = L.count (.proposed, q))
    (g2 : L1.count (.endorsed, q) = L.count (.endorsed, q))
    (g3 : L1.count (.broadcast, q) = L.count (.broadcast, q)) :
    Stage cfg txids w1 L1 q := by
  have h0 := hs.heap
  have h0m := hs.map
  have h1 := hs.proposed
  have h2 := hs.copies
  have h3 := hs.once
  have h4 := hs.quorum
  have h5 := hs.downstream
  refine ⟨?_, ?_, ?_, ?_, ?_, ?_, ?_⟩ <;>
    simp only [World.waiting, World.responses, f1, f2, f3, f4, f5, f6, g1, g2, g3] at * <;>
    assumption

theorem count_observed_map {α : Type} (block : List α) (g : α → Nat) (f : Field) (q : Nat)
    (hf : f ≠ .observed) :
    (block.map (fun b => ((Field.observed, g b) : Field × Nat))).count (f, q) = 0 := by
  rw [List.count_eq_zero]
  intro hm
  simp only [List.mem_map, Prod.mk.injEq] at hm
  obtain ⟨_, _, h, _⟩ := hm
  exact hf h.symm

theorem Stage.observe (cfg : Config) (txids : List String) (w w1 : World)
    (L : List (Field × Nat)) (q : Nat) (block : List (FilteredTransaction × Int))
    (hs : Stage cfg txids w L q) (h : w.observe cfg block = some w1) :
    Stage cfg txids w1 (L ++ w.writes (.observe block)) q := by
  obtain ⟨-, f1, f2, f3, f4, f5, f6⟩ := observe_frame cfg w w1 block h
  refine Stage.congr cfg txids w w1 L _ q hs f1 f2 f3 f4 f5 f6 ?_ ?_ ?_ <;>
    simp only [World.writes, List.count_append] <;>
    rw [count_observed_map _ _ _ _ (by decide)] <;> rfl

theorem Stage.step (cfg : Config) (txids : List String) (hnd : txids.Nodup)
    (CreateSignedTx : Bytes → List ProposalResponse → Except String Envelope) (w w1 : World)
    (L : List (Field × Nat)) (q : Nat) (a : Action) (hs : Stage cfg txids w L q)
    (h : World.step cfg CreateSignedTx w a = some w1) :
    Stage cfg txids w1 (L ++ w.writes a) q := by
  cases a with
  | dispatch i =>
    simp only [World.writes, List.append_nil]
    exact Stage.dispatch cfg txids w w1 L q i hs h
  | propose i j k now => exact Stage.propose cfg txids hnd w w1 L q i j k now hs h
  | endorse i j k res =>
    simp only [World.writes, List.append_nil]
    exact Stage.endorse cfg txids w w1 L q i j k res hs h
  | stamp i j k now => exact Stage.stamp cfg txids hnd w w1 L q i j k now hs h
  | integrate =>
    simp only [World.writes, List.append_nil]
    exact Stage.integrate cfg txids CreateSignedTx w w1 L q hs h
  | broadcast now => exact Stage.broadcast cfg txids hnd w w1 L q now hs h
  | observe block => exact Stage.observe cfg txids w w1 L q block hs h

theorem Stage.run (cfg : Config) (txids : List String) (hnd : txids.Nodup)
    (CreateSignedTx : Bytes → List ProposalResponse → Except String Envelope) (q : Nat)
    (sched : List Action) :
    ∀ (w w1 : World) (L : List (Field × Nat)), Stage cfg txids w L q →
      World.run cfg CreateSignedTx w sched = some w1 →
      Stage cfg txids w1 (L ++ World.log cfg CreateSignedTx w sched) q := by
  induction sched with
  | nil =>
    intro w w1 L hs h
    simp only [World.run, Option.some.injEq] at h
    subst h
    simpa [World.log] using hs
  | cons a as ih =>
    intro w w1 L hs h
    unfold World.run at h
    unfold World.log
    cases hst : World.step cfg CreateSignedTx w a with
    | none => simp [hst] at h
    | some w2 =>
      simp only [hst] at h ⊢
      rw [← List.append_assoc]
      exact ih w2 w1 _ (Stage.step cfg txids hnd CreateSignedTx w w2 L q a hs hst) h

theorem sum_map_eq_zero {α : Type} (l : List α) (h : α → Nat) (hz : ∀ a ∈ l, h a = 0) :
    (l.map h).sum = 0 := by
  induction l with
  | nil => rfl
  | cons x xs ih =>
    simp only [List.map_cons, List.sum_cons]
    rw [hz x (List.mem_cons_self _ _), ih (fun a ha => hz a (List.mem_cons_of_mem _ ha))]

theorem Grid.sum_eq_zero (g : Grid) (h : Proposer → Nat)
    (hz : ∀ conns ∈ g, ∀ clients ∈ conns, ∀ c ∈ clients, h c = 0) : g.sum h = 0 := by
  unfold Grid.sum
  apply sum_map_eq_zero
  intro conns hconns
  apply sum_map_eq_zero
  intro clients hclients
  exact sum_map_eq_zero clients h (hz conns hconns clients hclients)

theorem NewProposers_fresh (cfg : Config) (g : Grid) (h : NewProposers cfg = some g) :
    ∀ conns ∈ g, ∀ clients ∈ conns, ∀ c ∈ clients, c.inCh = [] ∧ c.pc = .idle := by
  unfold NewProposers at h
  split at h
  · simp at h
  split at h
  · simp at h
  simp only [Option.some.injEq] at h
  subst h
  intro conns hconns clients hclients c hc
  simp only [List.mem_append, List.mem_map, List.mem_range, List.mem_replicate] at hconns
  rcases hconns with ⟨i, -, rfl⟩ | ⟨-, rfl⟩
  · simp only [List.mem_map, List.mem_range] at hclients
    obtain ⟨j, -, rfl⟩ := hclients
    simp only [List.mem_map, List.mem_range] at hc
    obtain ⟨k, -, rfl⟩ := hc
    exact ⟨rfl, rfl⟩
  · simp at hclients

theorem Stage.start (cfg : Config) (txids : List String) (w0 : World) (q : Nat)
    (h : World.start cfg txids = some w0) : Stage cfg txids w0 [] q := by
  unfold World.start at h
  cases hg : NewProposers cfg with
  | none => simp [hg] at h
  | some g =>
    cases ht : initTimeKeepers cfg with
    | none => simp [hg, ht] at h
    | some tks =>
      simp only [hg, ht, Option.some.injEq] at h
      subst h
      have hfresh := NewProposers_fresh cfg g hg
      have z1 : g.sum (Proposer.queued q) = 0 :=
        Grid.sum_eq_zero g _ (fun conns hc clients hcl c hcc => by
          simp [Proposer.queued, (hfresh conns hc clients hcl c hcc).1])
      have z2 : g.sum (Proposer.inCall q) = 0 :=
        Grid.sum_eq_zero g _ (fun conns hc clients hcl c hcc => by
          simp [Proposer.inCall, (hfresh conns hc clients hcl c hcc).2])
      have z3 : g.sum (Proposer.holding q) = 0 :=
        Grid.sum_eq_zero g _ (fun conns hc clients hcl c hcc => by
          simp [Proposer.holding, (hfresh conns hc clients hcl c hcc).2])
      have hcount : (List.range txids.length).count q ≤ 1 :=
        List.nodup_iff_count_le_one.mp (List.nodup_range _) q
      have z4 : ((List.replicate cfg.EndorserNum.toNat (List.range txids.length)).map
          (fun ch => ch.count q)).sum ≤ cfg.EndorserNum.toNat := by
        rw [List.map_replicate, List.sum_replicate, smul_eq_mul]
        calc cfg.EndorserNum.toNat * (List.range txids.length).count q
            ≤ cfg.EndorserNum.toNat * 1 := Nat.mul_le_mul_left _ hcount
          _ = cfg.EndorserNum.toNat := Nat.mul_one _
      have z5 : (match (txids.map (fun t =>
          (⟨[], some [], [], false, none, t⟩ : Element)))[q]? with
          | none => 0
          | some e => e.Responses.length) = 0 := by
        rw [List.getElem?_map]
        cases txids[q]? <;> rfl
      refine ⟨?_, rfl, ?_, ?_, ?_, ?_, ?_⟩
      · simp [List.map_map, Function.comp_def]
      all_goals
        simp only [World.waiting, World.responses, z1, z2, z3, z5, List.count_nil]
        omega

theorem writes_not_observed (w : World) (a : Action) (hna : ∀ block, a ≠ .observe block)
    (id : Nat) : (w.writes a).count (.observed, id) = 0 := by
  rw [List.count_eq_zero]
  cases a with
  | observe block => exact absurd rfl (hna block)
  | dispatch i => simp [World.writes]
  | endorse i j k res => simp [World.writes]
  | integrate => simp [World.writes]
  | propose i j k now =>
    simp only [World.writes]
    repeat (first | split | simp)
  | stamp i j k now =>
    simp only [World.writes]
    repeat (first | split | simp)
  | broadcast now =>
    simp only [World.writes]
    repeat (first | split | simp)

theorem count_observed_self {α : Type} (block : List α) (g : α → Nat) (id : Nat) :
    (block.map (fun b => ((Field.observed, g b) : Field × Nat))).count (.observed, id) =
      (block.map g).count id := by
  induction block with
  | nil => rfl
  | cons b bs ih =>
    simp only [List.map_cons, List.count_cons, ih, beq_iff_eq, Prod.mk.injEq, true_and]

theorem submitted_mem (txids : List String) (w : World)
    (hheap : w.heap.map (fun e => e.Txid) = txids) (t : String)
    (h : w.submitted t = true) : t ∈ txids := by
  unfold World.submitted at h
  rw [List.any_eq_true] at h
  obtain ⟨p, -, hp⟩ := h
  cases he : w.heap[p]? with
  | none => simp [he] at hp
  | some e =>
    simp only [he, beq_iff_eq] at hp
    rw [← hheap, ← hp]
    exact List.mem_map_of_mem _ (List.mem_iff_getElem?.mpr ⟨p, he⟩)

/-- Along a schedule that runs to its end, the observed times assigned are
those of the committed transaction ids, all of which were generated. -/
theorem observed_log (cfg : Config) (txids : List String) (hnd : txids.Nodup)
    (CreateSignedTx : Bytes → List ProposalResponse → Except String Envelope) (id : Nat)
    (sched : List Action) :
    ∀ (w w1 : World) (L : List (Field × Nat)), Stage cfg txids w L 0 →
      World.run cfg CreateSignedTx w sched = some w1 →
      (World.log cfg CreateSignedTx w sched).count (.observed, id) =
          ((committed sched).map (buildTxidMap txids).get).count id ∧
        ∀ t ∈ committed sched, t ∈ txids := by
  induction sched with
  | nil =>
    intro w w1 L _ _
    simp [World.log, committed]
  | cons a as ih =>
    intro w w1 L hs h
    unfold World.run at h
    unfold World.log
    cases hst : World.step cfg CreateSignedTx w a with
    | none => simp [hst] at h
    | some w2 =>
      simp only [hst] at h ⊢
      obtain ⟨ih1, ih2⟩ :=
        ih w2 w1 _ (Stage.step cfg txids hnd CreateSignedTx w w2 L 0 a hs hst) h
      rw [List.count_append, ih1]
      by_cases hobs : ∃ block, a = .observe block
      · obtain ⟨block, rfl⟩ := hobs
        obtain ⟨hsub, -⟩ := observe_frame cfg w w2 block hst
        constructor
        · simp only [World.writes, committed, List.map_append, List.count_append, List.map_map,
            hs.map]
          rw [count_observed_self]
          rfl
        · intro t ht
          simp only [committed, List.mem_append, List.mem_map] at ht
          rcases ht with ⟨b, hb, rfl⟩ | ht
          · exact submitted_mem txids w hs.heap _ (hsub b hb)
          · exact ih2 t ht
      · have hna : ∀ block, a ≠ .observe block := fun block hb => hobs ⟨block, hb⟩
        rw [writes_not_observed w a hna id, Nat.zero_add]
        have hc : committed (a :: as) = committed as := by
          cases a with
          | observe block => exact absurd rfl (hna block)
          | _ => rfl
        rw [hc]
        exact ⟨rfl, ih2⟩

theorem set_read (l : List TimeKeeper) (i id : Nat) (tk tk1 : TimeKeeper) (f : Field)
    (h : l[i]? = some tk) (hr : id = i → f.read tk1 = f.read tk) :
    ((l.set i tk1)[id]?).map f.read = (l[id]?).map f.read := by
  rw [List.getElem?_set]
  by_cases hi : i = id
  · subst hi
    have hlt : i < l.length := by
      rcases Nat.lt_or_ge i l.length with h1 | h1
      · exact h1
      · rw [List.getElem?_eq_none h1] at h; simp at h
    simp [hlt, h, hr rfl]
  · simp [hi]

theorem keepProposedTime_read (m : TxidMap) (tks tks1 : TimeKeepers) (txid : String)
    (now : Int) (h : keepProposedTime m tks txid now = some tks1) (f : Field) (id : Nat)
    (hn : (f, id) ≠ (.proposed, m.get txid)) :
    (tks1.transactions[id]?).map f.read = (tks.transactions[id]?).map f.read := by
  unfold keepProposedTime at h
  cases htk : tks.transactions[m.get txid]? with
  | none => simp [htk] at h
  | some tk =>
    simp only [htk, Option.some.injEq] at h
    subst h
    apply set_read _ _ _ tk _ _ htk
    intro hid
    cases f with
    | proposed => exact absurd (by rw [hid]) hn
    | _ => rfl

theorem keepEndorsedTime_read (m : TxidMap) (tks tks1 : TimeKeepers) (txid : String)
    (now : Int) (h : keepEndorsedTime m tks txid now = some tks1) (f : Field) (id : Nat)
    (hn : (f, id) ≠ (.endorsed, m.get txid)) :
    (tks1.transactions[id]?).map f.read = (tks.transactions[id]?).map f.read := by
  unfold keepEndorsedTime at h
  cases htk : tks.transactions[m.get txid]? with
  | none => simp [htk] at h
  | some tk =>
    simp only [htk] at h
    split at h
    · simp only [Option.some.injEq] at h
      subst h
      apply set_read _ _ _ tk _ _ htk
      intro hid
      cases f with
      | endorsed => exact absurd (by rw [hid]) hn
      | _ => rfl
    · simp at h

theorem keepBroadcastTime_read (m : TxidMap) (tks tks1 : TimeKeepers) (txid : String)
    (now : Int) (h : keepBroadcastTime m tks txid now = some tks1) (f : Field) (id : Nat)
    (hn : (f, id) ≠ (.broadcast, m.get txid)) :
    (tks1.transactions[id]?).map f.read = (tks.transactions[id]?).map f.read := by
  unfold keepBroadcastTime at h
  cases htk : tks.transactions[m.get txid]? with
  | none => simp [htk] at h
  | some tk =>
    simp only [htk, Option.some.injEq] at h
    subst h
    apply set_read _ _ _ tk _ _ htk
    intro hid
    cases f with
    | broadcast => exact absurd (by rw [hid]) hn
    | _ => rfl

theorem keepObservedTime_read (m : TxidMap) (tks tks1 : TimeKeepers) (txid : String)
    (now : Int) (h : keepObservedTime m tks txid now = some tks1) (f : Field) (id : Nat)
    (hn : (f, id) ≠ (.observed, m.get txid)) :
    (tks1.transactions[id]?).map f.read = (tks.transactions[id]?).map f.read := by
  unfold keepObservedTime at h
  cases htk : tks.transactions[m.get txid]? with
  | none => simp [htk] at h
  | some tk =>
    simp only [htk] at h
    split at h
    · simp only [Option.some.injEq] at h
      subst h
      apply set_read _ _ _ tk _ _ htk
      intro hid
      cases f with
      | observed => exact absurd (by rw [hid]) hn
      | _ => rfl
    · simp at h

theorem keepObservedTimes_read (block : List (FilteredTransaction × Int)) (w w1 : World)
    (h : w.keepObservedTimes block = some w1) (f : Field) (id : Nat)
    (hn : (f, id) ∉ block.map (fun b => ((Field.observed, w.txid2id.get b.1.Txid) : Field × Nat))) :
    (w1.timeKeepers.transactions[id]?).map f.read =
      (w.timeKeepers.transactions[id]?).map f.read := by
  induction block generalizing w with
  | nil =>
    simp only [World.keepObservedTimes, Option.some.injEq] at h
    subst h
    rfl
  | cons b rest ih =>
    obtain ⟨tx, now⟩ := b
    simp only [List.map_cons, List.mem_cons, not_or] at hn
    unfold World.keepObservedTimes at h
    unfold World.readClock at h
    by_cases hclk : w.clock ≤ now
    · simp only [hclk, if_true] at h
      cases hk : keepObservedTime w.txid2id w.timeKeepers tx.Txid now with
      | none => simp [hk] at h
      | some tks =>
        simp only [hk] at h
        have hrest := ih _ h hn.2
        rw [hrest]
        exact keepObservedTime_read w.txid2id w.timeKeepers tks tx.Txid now hk f id hn.1
    · simp [hclk] at h

/-- The list `World.writes` misses no assignment: a field of a ledger entry
that is not listed for a transition has the same value after it. -/
theorem writes_cover (cfg : Config)
    (CreateSignedTx : Bytes → List ProposalResponse → Except String Envelope) (w w1 : World)
    (a : Action) (h : World.step cfg CreateSignedTx w a = some w1) (f : Field) (id : Nat)
    (hn : (f, id) ∉ w.writes a) :
    (w1.timeKeepers.transactions[id]?).map f.read =
      (w.timeKeepers.transactions[id]?).map f.read := by
  cases a with
  | dispatch i =>
    obtain ⟨p, rest, e, j, k, c, -, -, -, rfl⟩ := dispatch_frame cfg w w1 i h
    rfl
  | propose i j k now =>
    obtain ⟨c, p, rest, e, tks, hc, hpc, hin, he, hk, rfl⟩ := propose_frame w w1 i j k now h
    simp only [World.writes, hc, hin, he, List.mem_singleton] at hn
    exact keepProposedTime_read w.txid2id w.timeKeepers tks e.Txid now hk f id hn
  | endorse i j k res =>
    obtain ⟨c, p, e, -, -, -, hcase⟩ := endorse_frame cfg w w1 i j k res h
    rcases hcase with rfl | ⟨r, -, rfl⟩ | ⟨r, rfl⟩ <;> rfl
  | stamp i j k now =>
    obtain ⟨c, p, e, tks, hc, hpc, he, hk, rfl⟩ := stamp_frame w w1 i j k now h
    simp only [World.writes, hc, hpc, he, List.mem_singleton] at hn
    exact keepEndorsedTime_read w.txid2id w.timeKeepers tks e.Txid now hk f id hn
  | integrate =>
    obtain ⟨p, rest, e, -, -, hcase⟩ := integrate_frame CreateSignedTx w w1 h
    rcases hcase with rfl | ⟨envelope, rfl⟩ <;> rfl
  | broadcast now =>
    obtain ⟨p, rest, e, tks, hch, he, hk, rfl⟩ := broadcast_frame w w1 now h
    simp only [World.writes, hch, he, List.mem_singleton] at hn
    exact keepBroadcastTime_read w.txid2id w.timeKeepers tks e.Txid now hk f id hn
  | observe block =>
    simp only [World.step] at h
    unfold World.observe at h
    split at h
    · simp at h
    · cases hk : w.keepObservedTimes block with
      | none => simp [hk] at h
      | some w2 =>
        simp only [hk, Option.some.injEq] at h
        subst h
        exact keepObservedTimes_read block w w2 hk f id hn

/-- C18 (counterexample): with two endorsers the proposed time of a record is
assigned twice.  The worker of each endorser calls `keepProposedTime` for the
record it receives (line 134 of `Proposer.Start`), and the call of the second
worker overwrites the value 1 kept by the first with the value 2. -/
theorem proposed_time_assigned_twice :
    ∃ w0 w1 w2, World.start twoEndorsers ["tx0"] = some w0 ∧
      World.run twoEndorsers exampleAssembly w0 (doubleProposal.take 3) = some w1 ∧
      World.run twoEndorsers exampleAssembly w0 doubleProposal = some w2 ∧
      World.log twoEndorsers exampleAssembly w0 doubleProposal =
        [(.proposed, 0), (.proposed, 0)] ∧
      ¬ (World.log twoEndorsers exampleAssembly w0 doubleProposal).count (.proposed, 0) ≤ 1 ∧
      w1.timeKeepers.transactions.map (fun tk => tk.ProposedTime) = [1] ∧
      w2.timeKeepers.transactions.map (fun tk => tk.ProposedTime) = [2] :=
  ⟨_, _, _, rfl, rfl, rfl, rfl, by decide, rfl, rfl⟩

/-- C18 (amended): in every run of the pipeline from its start on pairwise
distinct transaction ids, and for every transaction index, the fields
`EndorsedTime` and `BroadcastTime` of the timing ledger are assigned at most
once, the field `ProposedTime` is assigned at most `EndorserNum` times (once by
the worker of each endorser the record is fanned out to), and the field
`ObservedTime` is assigned at most once when no transaction id is delivered
twice in the committed blocks (which deliver submitted transactions only). -/
theorem timestamp_assignments_bounded (cfg : Config)
    (CreateSignedTx : Bytes → List ProposalResponse → Except String Envelope)
    (txids : List String) (sched : List Action) (w0 w : World) (hnd : txids.Nodup)
    (hstart : World.start cfg txids = some w0)
    (hrun : World.run cfg CreateSignedTx w0 sched = some w) (id : Nat) :
    (World.log cfg CreateSignedTx w0 sched).count (.endorsed, id) ≤ 1 ∧
      (World.log cfg CreateSignedTx w0 sched).count (.broadcast, id) ≤ 1 ∧
      (World.log cfg CreateSignedTx w0 sched).count (.proposed, id) ≤ cfg.EndorserNum.toNat ∧
      ((committed sched).Nodup →
        (World.log cfg CreateSignedTx w0 sched).count (.observed, id) ≤ 1) := by
  have hs := Stage.run cfg txids hnd CreateSignedTx id sched w0 w []
    (Stage.start cfg txids w0 id hstart) hrun
  rw [List.nil_append] at hs
  have h1 := hs.proposed
  have h3 := hs.once
  have h5 := hs.downstream
  refine ⟨by omega, by omega, by omega, ?_⟩
  intro hc
  obtain ⟨ho1, ho2⟩ := observed_log cfg txids hnd CreateSignedTx id sched w0 w []
    (Stage.start cfg txids w0 0 hstart) hrun
  rw [ho1]
  apply List.nodup_iff_count_le_one.mp
  apply List.Nodup.map_on _ hc
  intro x hx y hy hxy
  obtain ⟨i, hi⟩ := List.mem_iff_getElem?.mp (ho2 x hx)
  obtain ⟨j, hj⟩ := List.mem_iff_getElem?.mp (ho2 y hy)
  rw [buildTxidMap_get txids hnd i x hi, buildTxidMap_get txids hnd j y hj] at hxy
  subst hxy
  rw [hi] at hj
  exact Option.some.inj hj

/-- C18 (amended), at a run of one transaction through two endorsers, from
dispatch to commit. -/
theorem timestamp_assignments_bounded_witness :
    ∃ w0 w, World.start twoEndorsers ["tx0"] = some w0 ∧
      World.run twoEndorsers exampleAssembly w0 twoEndorserRun = some w ∧
      (committed twoEndorserRun).Nodup ∧
      World.log twoEndorsers exampleAssembly w0 twoEndorserRun =
        [(.proposed, 0), (.proposed, 0), (.endorsed, 0), (.broadcast, 0), (.observed, 0)] ∧
      ((World.log twoEndorsers exampleAssembly w0 twoEndorserRun).count (.endorsed, 0) ≤ 1 ∧
        (World.log twoEndorsers exampleAssembly w0 twoEndorserRun).count (.broadcast, 0) ≤ 1 ∧
        (World.log twoEndorsers exampleAssembly w0 twoEndorserRun).count (.proposed, 0) ≤
          twoEndorsers.EndorserNum.toNat ∧
        ((committed twoEndorserRun).Nodup →
          (World.log twoEndorsers exampleAssembly w0 twoEndorserRun).count (.observed, 0) ≤ 1)) :=
  ⟨_, _, rfl, rfl, by decide, rfl,
    timestamp_assignments_bounded twoEndorsers exampleAssembly ["tx0"] twoEndorserRun _ _
      (by decide) rfl rfl 0⟩

/-! ### Hand-off from the proposer to the integration queue (C21) -/

/-- The step of `Proposer.Start` that appends a response and sends the record
on the integration queue (lines 137-151) writes nothing to the timing ledger. -/
theorem endorse_keeps_ledger (cfg : Config) (w w1 : World) (i j k : Nat) (res : EndorseResult)
    (h : w.endorse cfg i j k res = some w1) : w1.timeKeepers = w.timeKeepers := by
  obtain ⟨c, p, e, -, -, -, hcase⟩ := endorse_frame cfg w w1 i j k res h
  rcases hcase with rfl | ⟨r, -, rfl⟩ | ⟨r, rfl⟩ <;> rfl

/-- C21 (the code at the failing schedule): one endorser and one transaction.
After the worker step that completes the quorum the record is on the
integration queue and its `EndorsedTime` is still unset (0): the send of
line 151 comes before `keepEndorsedTime` of line 153.  An integrator receives
the record and a broadcaster keeps its broadcast time 2 and hands it to the
orderer, and both find `EndorsedTime = 0`. -/
theorem forwarded_before_endorsed_time :
    ∃ w0 w1 w2 w3, World.start exampleConfig ["tx0"] = some w0 ∧
      World.run exampleConfig exampleAssembly w0 (raceSchedule.take 3) = some w1 ∧
      w1.endorsedCh = [0] ∧ w1.timeKeepers.transactions = [⟨1, 0, 0, 0⟩] ∧
      World.step exampleConfig exampleAssembly w1 .integrate = some w2 ∧
      w2.integratedCh = [0] ∧ w2.timeKeepers.transactions = [⟨1, 0, 0, 0⟩] ∧
      World.step exampleConfig exampleAssembly w2 (.broadcast 2) = some w3 ∧
      w3.ordererCh = [0] ∧ w3.timeKeepers.transactions = [⟨1, 0, 2, 0⟩] :=
  ⟨_, _, _, _, rfl, rfl, rfl, rfl, rfl, rfl, rfl, rfl, rfl, rfl⟩

/-! ### Envelope assembly (C22) -/

theorem checkResponsesStatusValidity_eq_none (rs : List ProposalResponse) :
    checkResponsesStatusValidity rs = none ↔
      ∀ r ∈ rs, ¬ (r.Response.Status < 200 ∨ r.Response.Status ≥ 400) := by
  induction rs with
  | nil => simp [checkResponsesStatusValidity]
  | cons r rs ih =>
    unfold checkResponsesStatusValidity
    by_cases hr : r.Response.Status < 200 ∨ r.Response.Status ≥ 400
    · simp only [hr, if_true, reduceCtorEq, false_iff]
      intro h
      exact h r (List.mem_cons_self _ _) hr
    · simp only [hr, if_false, ih, List.mem_cons, forall_eq_or_imp, not_false_eq_true, true_and]

theorem payloadLoop_eq_none (payloadBytes : Bytes) (rs : List ProposalResponse) (i : Nat)
    (hi : i ≠ 0) :
    checkResponsePayloadValidity.loop payloadBytes i rs = none ↔
      ∀ r ∈ rs, r.Payload = payloadBytes := by
  induction rs generalizing i with
  | nil => simp [checkResponsePayloadValidity.loop]
  | cons r rs ih =>
    unfold checkResponsePayloadValidity.loop
    simp only [hi, if_false]
    by_cases hr : payloadBytes = r.Payload
    · simp only [hr, ne_eq, not_true_eq_false, if_false, List.mem_cons, forall_eq_or_imp, true_and]
      rw [← hr]
      exact ih (i + 1) (by omega)
    · simp only [ne_eq, hr, not_false_eq_true, if_true, reduceCtorEq, false_iff]
      intro h
      exact hr (h r (List.mem_cons_self _ _)).symm

theorem collectEndorsements_cons (first : ProposalResponse) (rest : List ProposalResponse) :
    collectEndorsements (first :: rest) =
      match checkResponsesStatusValidity (first :: rest) with
      | some err => some (.error err)
      | none =>
        match checkResponsePayloadValidity.loop first.Payload 1 rest with
        | some err => some (.error err)
        | none => some (.ok ((first :: rest).map (fun r => r.Endorsement))) := by
  unfold collectEndorsements checkResponsePayloadValidity getProposalResponsePayloadByte
  simp only [List.getElem?_cons_zero]
  cases checkResponsesStatusValidity (first :: rest) with
  | some err => rfl
  | none =>
    simp only
    have h0 : checkResponsePayloadValidity.loop first.Payload 0 (first :: rest) =
        checkResponsePayloadValidity.loop first.Payload 1 rest := by
      simp [checkResponsePayloadValidity.loop]
    rw [h0]
    cases checkResponsePayloadValidity.loop first.Payload 1 rest <;> rfl

/-- C22: for every non-empty response list, with `first` its first response,
`collectEndorsements` returns an error if and only if some response has a
status below 200 or not below 400, or some response has a payload different
from the payload of `first`; otherwise it returns the endorsements of the
responses, in the order of the list and as many as the list has responses.
For an empty response list `CreateSignedTx` returns an error. -/
theorem collectEndorsements_spec (responses : List ProposalResponse) (first : ProposalResponse)
    (hfirst : responses[0]? = some first) :
    ((∃ err, collectEndorsements responses = some (.error err)) ↔
      ((∃ r ∈ responses, r.Response.Status < 200 ∨ r.Response.Status ≥ 400) ∨
        ∃ r ∈ responses, r.Payload ≠ first.Payload)) ∧
    (¬ ((∃ r ∈ responses, r.Response.Status < 200 ∨ r.Response.Status ≥ 400) ∨
        ∃ r ∈ responses, r.Payload ≠ first.Payload) →
      collectEndorsements responses = some (.ok (responses.map (fun r => r.Endorsement))) ∧
      (responses.map (fun r => r.Endorsement)).length = responses.length ∧
      ∀ (i : Nat) (r : ProposalResponse), responses[i]? = some r →
        (responses.map (fun r => r.Endorsement))[i]? = some r.Endorsement) ∧
    ∀ (cfg : Config) (mustPrintTXRWSet : List ProposalResponse → Option Unit)
      (assemble : Bytes → List ProposalResponse → Option (Except String Envelope))
      (proposal : Bytes),
      CreateSignedTx cfg mustPrintTXRWSet assemble proposal [] =
        some (.error "Fail to find any response") := by
  cases responses with
  | nil => simp at hfirst
  | cons f rest =>
    simp only [List.getElem?_cons_zero, Option.some.injEq] at hfirst
    subst hfirst
    have hpay : (∃ r ∈ f :: rest, r.Payload ≠ f.Payload) ↔ ∃ r ∈ rest, r.Payload ≠ f.Payload := by
      simp
    have hstat := checkResponsesStatusValidity_eq_none (f :: rest)
    have hloop := payloadLoop_eq_none f.Payload rest 1 (by decide)
    rw [hpay, collectEndorsements_cons]
    refine ⟨?_, ?_, ?_⟩
    · cases hs : checkResponsesStatusValidity (f :: rest) with
      | some err =>
        have hne : ¬ ∀ r ∈ f :: rest, ¬ (r.Response.Status < 200 ∨ r.Response.Status ≥ 400) := by
          rw [← hstat, hs]; simp
        push_neg at hne
        simp only [Option.some.injEq, Except.error.injEq, exists_eq', true_iff]
        left
        obtain ⟨r, hr, hbad⟩ := hne
        exact ⟨r, hr, hbad⟩
      | none =>
        have hall := hstat.1 hs
        cases hl : checkResponsePayloadValidity.loop f.Payload 1 rest with
        | some err =>
          have hne : ¬ ∀ r ∈ rest, r.Payload = f.Payload := by
            rw [← hloop, hl]; simp
          push_neg at hne
          simp only [Option.some.injEq, Except.error.injEq, exists_eq', true_iff]
          right
          exact hne
        | none =>
          have hall2 := hloop.1 hl
          simp only [Option.some.injEq, reduceCtorEq, exists_false, false_iff, not_or, not_exists,
            not_and]
          exact ⟨fun r hr => not_or.1 (hall r hr), fun r hr => not_not.2 (hall2 r hr)⟩
    · intro hno
      simp only [not_or, not_exists, not_and, not_not] at hno
      have hs : checkResponsesStatusValidity (f :: rest) = none :=
        hstat.2 (fun r hr => by
          have := hno.1 r hr
          simpa [not_or] using this)
      have hl : checkResponsePayloadValidity.loop f.Payload 1 rest = none := hloop.2 hno.2
      rw [hs, hl]
      refine ⟨rfl, by simp, ?_⟩
      intro i r hi
      rw [List.getElem?_map, hi]
      rfl
    · intro cfg mustPrintTXRWSet assemble proposal
      rfl

/-- C22, at two agreeing responses with status 200. -/
theorem collectEndorsements_spec_witness :
    ([exampleResponse, exampleResponse] : List ProposalResponse)[0]? = some exampleResponse ∧
    collectEndorsements [exampleResponse, exampleResponse] = some (.ok [[7], [7]]) ∧
    collectEndorsements [exampleResponse, otherPayloadResponse] =
      some (.error "ProposalResponsePayloads from Peers do not match") ∧
    collectEndorsements [exampleResponse, failedResponse] =
      some (.error "proposal response was not successful, error code 500, msg failed") ∧
    collectEndorsements [] = none ∧
    ((∃ err, collectEndorsements [exampleResponse, exampleResponse] = some (.error err)) ↔
      ((∃ r ∈ [exampleResponse, exampleResponse],
          r.Response.Status < 200 ∨ r.Response.Status ≥ 400) ∨
        ∃ r ∈ [exampleResponse, exampleResponse], r.Payload ≠ exampleResponse.Payload)) :=
  ⟨rfl, rfl, rfl, rfl, rfl,
    (collectEndorsements_spec [exampleResponse, exampleResponse] exampleResponse rfl).1⟩

/-! ### Counts of the final report (C23) -/

/-- C23: for every planned total `0 <= TxNum < 2^31` and every value `A` of the
abort counter (an `int32`) at report time, the count lines that
`WaitObserverEnd` sends are `ALL = TxNum`, `VALID = TxNum - A` and
`ABORTED = A`, so that reported valid + reported aborted = `TxNum`; the
observer's own count `validTxNum` plays no part.  This holds when the observer
has closed `observerEndCh` by its completion test and when it closes it by the
30-second timeout. -/
theorem report_counts_from_abort (cfg : Config) (w : World) (h0 : 0 ≤ cfg.TxNum)
    (h1 : cfg.TxNum < 2147483648) (hA : w.Metric.Abort < 2147483648) :
    ∃ v a : Int, v = cfg.TxNum - (w.Metric.Abort : Int) ∧ a = (w.Metric.Abort : Int) ∧
      v + a = cfg.TxNum ∧
      (w.observerEndCh = true →
        World.report cfg w =
          some [ "ALL Transactions: " ++ Itoa cfg.TxNum,
            "VALID Transactions: " ++ Itoa v,
            "ABORTED Transactions: " ++ Itoa a ]) ∧
      (∀ w1, w.timeout = some w1 →
        World.report cfg w1 =
          some [ "ALL Transactions: " ++ Itoa cfg.TxNum,
            "VALID Transactions: " ++ Itoa v,
            "ABORTED Transactions: " ++ Itoa a ]) ∧
      ∀ n : Nat, World.report cfg { w with validTxNum := n } = World.report cfg w := by
  have hw1 : wrapInt32 cfg.TxNum = cfg.TxNum := wrapInt32_of_range _ (by omega) h1
  have hw2 : wrapInt32 (cfg.TxNum - (w.Metric.Abort : Int)) = cfg.TxNum - (w.Metric.Abort : Int) :=
    wrapInt32_of_range _ (by omega) (by omega)
  refine ⟨_, _, rfl, rfl, by omega, ?_, ?_, fun _ => rfl⟩
  · intro hend
    simp only [World.report, hend, if_true, reportCounts, hw1, hw2]
  · intro w1 hto
    unfold World.timeout at hto
    split at hto
    · simp at hto
    · simp only [Option.some.injEq] at hto
      subst hto
      simp only [World.report, if_true, reportCounts, hw1, hw2]

/-- C23, at a run of two planned transactions that ends by the timeout after
one transaction was observed: the report counts two valid transactions. -/
theorem report_counts_from_abort_witness :
    ∃ w0 w w1, World.start twoTransactions ["tx0", "tx1"] = some w0 ∧
      World.run twoTransactions exampleAssembly w0 partialSchedule = some w ∧
      w.validTxNum = 1 ∧ w.Metric.Abort = 0 ∧ w.observerEndCh = false ∧
      w.timeout = some w1 ∧
      World.report twoTransactions w1 =
        some ["ALL Transactions: 2", "VALID Transactions: 2", "ABORTED Transactions: 0"] ∧
      ∃ v a : Int, v = twoTransactions.TxNum - (w.Metric.Abort : Int) ∧
        a = (w.Metric.Abort : Int) ∧ v + a = twoTransactions.TxNum ∧
        (w.observerEndCh = true →
          World.report twoTransactions w =
            some [ "ALL Transactions: " ++ Itoa twoTransactions.TxNum,
              "VALID Transactions: " ++ Itoa v,
              "ABORTED Transactions: " ++ Itoa a ]) ∧
        (∀ w1, w.timeout = some w1 →
          World.report twoTransactions w1 =
            some [ "ALL Transactions: " ++ Itoa twoTransactions.TxNum,
              "VALID Transactions: " ++ Itoa v,
              "ABORTED Transactions: " ++ Itoa a ]) ∧
        ∀ n : Nat, World.report twoTransactions { w with validTxNum := n } =
          World.report twoTransactions w :=
  ⟨_, _, _, rfl, rfl, rfl, rfl, rfl, rfl, rfl,
    report_counts_from_abort twoTransactions _ (by decide) (by decide) (by decide)⟩

/-! ### Connections (C24) -/

theorem DialConnection.loop_all_fail (NewConnection : Nat → Option ClientConn × Option String)
    (address : String) (n : Nat) :
    ∀ i, (∀ m, i ≤ m → m < i + n → (NewConnection m).2 ≠ none) →
      DialConnection.loop NewConnection address none i n = (none, none) := by
  induction n with
  | zero => intro i _; rfl
  | succ n ih =>
    intro i hfail
    unfold DialConnection.loop
    have hi := hfail i (le_refl _) (by omega)
    cases hc : NewConnection i with
    | mk conn err =>
      cases err with
      | none => rw [hc] at hi; exact absurd rfl hi
      | some e =>
        simp only
        exact ih (i + 1) (fun m hm1 hm2 => hfail m (by omega) (by omega))

/-- C24 (the code at the failing input): for every node for which the client
handle is created and each of the `MAX_TRY = 3` calls of `NewConnection`
returns an error, `DialConnection` returns a nil connection together with a
nil error: the `err` wrapped at line 106 is the variable of line 90, which is
nil, and not the error of an attempt. -/
theorem dial_failure_returns_nil_error (NewGRPCClient : Node → Except String GRPCClient)
    (NewConnection : GRPCClient → String → Nat → Option ClientConn × Option String)
    (node : Node) (client : GRPCClient) (hclient : NewGRPCClient node = .ok client)
    (hfail : ∀ i, 1 ≤ i → i ≤ MAX_TRY → (NewConnection client node.Address i).2 ≠ none) :
    DialConnection NewGRPCClient NewConnection node = (none, none) := by
  unfold DialConnection newGRPCClient
  rw [hclient]
  simp only
  apply DialConnection.loop_all_fail
  intro m hm1 hm2
  exact hfail m hm1 (by omega)

/-- C24, at a node no attempt reaches. -/
theorem dial_failure_returns_nil_error_witness :
    (∀ i, 1 ≤ i → i ≤ MAX_TRY → (unreachable ⟨0⟩ examplePeer.Address i).2 ≠ none) ∧
    DialConnection (fun _ => .ok ⟨0⟩) unreachable examplePeer = (none, none) :=
  ⟨fun _ _ _ => by simp [unreachable],
    dial_failure_returns_nil_error (fun _ => .ok ⟨0⟩) unreachable examplePeer ⟨0⟩ rfl
      (fun _ _ _ => by simp [unreachable])⟩

/-! ### Transaction ids that are not in the map (C25) -/

theorem TxidMap.get_of_not_key (m : TxidMap) (txid : String) (h : m.lookup txid = none) :
    m.get txid = 0 := by
  simp [TxidMap.get, h]

/-- The observer step of the pipeline is `processFilteredBlock` on the blocks
that hold submitted transactions only. -/
theorem observe_eq_processFilteredBlock (cfg : Config) (w : World)
    (block : List (FilteredTransaction × Int)) :
    w.observe cfg block =
      if block.all (fun b => w.submitted b.1.Txid) then w.processFilteredBlock cfg block
      else none := by
  unfold World.observe World.processFilteredBlock
  by_cases hend : w.observerEndCh = true <;>
    by_cases hall : (block.all (fun b => w.submitted b.1.Txid)) = true <;>
    simp [hend, hall]

/-- The first loop of `processFilteredBlock` (lines 54-57) calls
`keepObservedTime` for every transaction of the block, in the order of the
block and with no test on the id: the ledger after the loop is the ledger
after these calls, and the loop panics exactly when one of the calls does. -/
theorem keepObservedTimes_fold (block : List (FilteredTransaction × Int)) :
    ∀ w : World, List.Chain (· ≤ ·) w.clock (block.map Prod.snd) →
      (w.keepObservedTimes block).map (fun w1 => w1.timeKeepers) =
        block.foldlM (fun tks b => keepObservedTime w.txid2id tks b.1.Txid b.2)
          w.timeKeepers := by
  induction block with
  | nil => intro w _; rfl
  | cons b rest ih =>
    intro w hchain
    obtain ⟨tx, now⟩ := b
    simp only [List.map_cons, List.chain_cons] at hchain
    obtain ⟨hclk, hrest⟩ := hchain
    unfold World.keepObservedTimes
    simp only [World.readClock, hclk, if_true, List.foldlM_cons]
    cases hk : keepObservedTime w.txid2id w.timeKeepers tx.Txid now with
    | none => rfl
    | some tks =>
      simp only [Option.bind_eq_bind, Option.some_bind]
      exact ih { w with clock := now, timeKeepers := tks } hrest

/-- C25: for a txid that is not a key of `txid2id` the index resolves to 0.
On a ledger with an entry 0, each of `keepProposedTime`, `keepEndorsedTime`,
`keepBroadcastTime` and `keepObservedTime` then overwrites the timestamp of
the transaction 0, and the latencies derived from it.  `processFilteredBlock`
applies `keepObservedTime` to every transaction of every block, in the order
of the block and without a test whether the id is in the map: the ledger
after a block is the ledger after these calls (the clock readings of a block
are in order); in particular a block of one transaction whose id is not in
the map overwrites the observed time and the latencies of the transaction 0.
On the ledger of `TxNum = 0` each of the four accesses is out of range. -/
theorem unknown_txid_index_zero (txid2id : TxidMap) (tks : TimeKeepers) (txid : String)
    (t : Int) (tk : TimeKeeper) (hkey : txid2id.lookup txid = none)
    (htk : tks.transactions[0]? = some tk) (he : 0 < tks.endorseLatency.length)
    (ht : 0 < tks.totalLatency.length) (ho : 0 < tks.orderCommitLatency.length) :
    txid2id.get txid = 0 ∧
    keepProposedTime txid2id tks txid t =
      some { tks with transactions := tks.transactions.set 0 { tk with ProposedTime := t } } ∧
    keepEndorsedTime txid2id tks txid t =
      some { tks with
        transactions := tks.transactions.set 0 { tk with EndorsedTime := t }
        endorseLatency := tks.endorseLatency.set 0 (t - tk.ProposedTime) } ∧
    keepBroadcastTime txid2id tks txid t =
      some { tks with transactions := tks.transactions.set 0 { tk with BroadcastTime := t } } ∧
    keepObservedTime txid2id tks txid t =
      some { tks with
        transactions := tks.transactions.set 0 { tk with ObservedTime := t }
        totalLatency := tks.totalLatency.set 0 (t - tk.ProposedTime)
        orderCommitLatency := tks.orderCommitLatency.set 0 (t - tk.BroadcastTime) } ∧
    (∀ (cfg : Config) (w : World) (tx : FilteredTransaction), w.txid2id = txid2id →
      w.timeKeepers = tks → tx.Txid = txid → w.observerEndCh = false → w.clock ≤ t →
      ∃ w1, w.processFilteredBlock cfg [(tx, t)] = some w1 ∧
        w1.timeKeepers =
          { tks with
            transactions := tks.transactions.set 0 { tk with ObservedTime := t }
            totalLatency := tks.totalLatency.set 0 (t - tk.ProposedTime)
            orderCommitLatency := tks.orderCommitLatency.set 0 (t - tk.BroadcastTime) }) ∧
    (∀ (cfg : Config) (w : World) (block : List (FilteredTransaction × Int)),
      w.observerEndCh = false → List.Chain (· ≤ ·) w.clock (block.map Prod.snd) →
      (w.processFilteredBlock cfg block).map (fun w1 => w1.timeKeepers) =
        block.foldlM (fun tks b => keepObservedTime w.txid2id tks b.1.Txid b.2)
          w.timeKeepers) ∧
    (∀ (cfg : Config) (tks0 : TimeKeepers), cfg.TxNum = 0 → initTimeKeepers cfg = some tks0 →
      keepProposedTime txid2id tks0 txid t = none ∧ keepEndorsedTime txid2id tks0 txid t = none ∧
      keepBroadcastTime txid2id tks0 txid t = none ∧
      keepObservedTime txid2id tks0 txid t = none) := by
  have hget := TxidMap.get_of_not_key txid2id txid hkey
  have hobs : keepObservedTime txid2id tks txid t =
      some { tks with
        transactions := tks.transactions.set 0 { tk with ObservedTime := t }
        totalLatency := tks.totalLatency.set 0 (t - tk.ProposedTime)
        orderCommitLatency := tks.orderCommitLatency.set 0 (t - tk.BroadcastTime) } := by
    simp only [keepObservedTime, hget, htk, ht, ho, and_self, if_true]
  refine ⟨hget, ?_, ?_, ?_, hobs, ?_, ?_, ?_⟩
  · simp only [keepProposedTime, hget, htk]
  · simp only [keepEndorsedTime, hget, htk, he, if_true]
  · simp only [keepBroadcastTime, hget, htk]
  · intro cfg w tx hmap htks htx hend hclk
    subst hmap htks htx
    simp only [World.processFilteredBlock, hend, Bool.false_eq_true, if_false,
      World.keepObservedTimes, World.readClock, hclk, if_true, hobs]
    exact ⟨_, rfl, rfl⟩
  · intro cfg w block hend hchain
    rw [← keepObservedTimes_fold block w hchain]
    simp only [World.processFilteredBlock, hend, Bool.false_eq_true, if_false]
    cases w.keepObservedTimes block <;> rfl
  · intro cfg tks0 h0 hinit
    unfold initTimeKeepers at hinit
    rw [h0] at hinit
    simp only [lt_self_iff_false, if_false, Int.toNat_zero, List.replicate_zero,
      Option.some.injEq] at hinit
    subst hinit
    simp [keepProposedTime, keepEndorsedTime, keepBroadcastTime, keepObservedTime]

/-- C25, at a ledger of one transaction and a map that knows `tx0` only: the
times of the id `other` are kept in the entry of `tx0`, and a block that
carries `tx0` (observed at 10) and then `other` (observed at 12) leaves the
observed time 12 and the latencies of `other` in the entry of `tx0`. -/
theorem unknown_txid_index_zero_witness :
    List.lookup "other" [("tx0", 0)] = none ∧
    singleLedger.transactions[0]? = some ⟨5, 0, 9, 0⟩ ∧
    0 < singleLedger.endorseLatency.length ∧ 0 < singleLedger.totalLatency.length ∧
    0 < singleLedger.orderCommitLatency.length ∧
    keepObservedTime [("tx0", 0)] singleLedger "other" 12 =
      some ⟨[⟨5, 0, 9, 12⟩], [0], [3], [7], none⟩ ∧
    TxidMap.get [("tx0", 0)] "other" = 0 ∧
    keepProposedTime [("tx0", 0)] singleLedger "other" 12 =
      some { singleLedger with
        transactions := singleLedger.transactions.set 0
          { (⟨5, 0, 9, 0⟩ : TimeKeeper) with ProposedTime := 12 } } ∧
    ledgerWorld.observerEndCh = false ∧
    List.Chain (· ≤ ·) ledgerWorld.clock
      (([(⟨"tx0", TxValidationCode_VALID⟩, 10), (⟨"other", TxValidationCode_VALID⟩, 12)] :
        List (FilteredTransaction × Int)).map Prod.snd) ∧
    (ledgerWorld.keepObservedTimes [(⟨"tx0", TxValidationCode_VALID⟩, 10)]).map
        (fun w1 => w1.timeKeepers) = some ⟨[⟨5, 0, 9, 10⟩], [0], [1], [5], none⟩ ∧
    (ledgerWorld.processFilteredBlock exampleConfig
        [(⟨"tx0", TxValidationCode_VALID⟩, 10), (⟨"other", TxValidationCode_VALID⟩, 12)]).map
        (fun w1 => w1.timeKeepers) = some ⟨[⟨5, 0, 9, 12⟩], [0], [3], [7], none⟩ ∧
    (ledgerWorld.processFilteredBlock exampleConfig
        [(⟨"tx0", TxValidationCode_VALID⟩, 10), (⟨"other", TxValidationCode_VALID⟩, 12)]).map
        (fun w1 => w1.timeKeepers) =
      ([(⟨"tx0", TxValidationCode_VALID⟩, 10), (⟨"other", TxValidationCode_VALID⟩, 12)] :
        List (FilteredTransaction × Int)).foldlM
        (fun tks b => keepObservedTime ledgerWorld.txid2id tks b.1.Txid b.2)
        ledgerWorld.timeKeepers :=
  ⟨by decide, rfl, by decide, by decide, by decide, by decide,
    (unknown_txid_index_zero [("tx0", 0)] singleLedger "other" 12 ⟨5, 0, 9, 0⟩ (by decide) rfl
      (by decide) (by decide) (by decide)).1,
    (unknown_txid_index_zero [("tx0", 0)] singleLedger "other" 12 ⟨5, 0, 9, 0⟩ (by decide) rfl
      (by decide) (by decide) (by decide)).2.1,
    rfl, List.Chain.cons (by decide) (List.Chain.cons (by decide) List.Chain.nil), rfl, rfl,
    (unknown_txid_index_zero [("tx0", 0)] singleLedger "other" 12 ⟨5, 0, 9, 0⟩ (by decide) rfl
      (by decide) (by decide) (by decide)).2.2.2.2.2.2.1 exampleConfig ledgerWorld
      [(⟨"tx0", TxValidationCode_VALID⟩, 10), (⟨"other", TxValidationCode_VALID⟩, 12)] rfl
      (List.Chain.cons (by decide) (List.Chain.cons (by decide) List.Chain.nil))⟩

/-! ### Outcome accounting along the pipeline (C4) -/

theorem flow_dispatch (cfg : Config) (w w1 : World) (L : List (Field × Nat)) (D : List Nat)
    (q i : Nat) (hf : Flow w L D q) (h : w.dispatch cfg i = some w1) : Flow w1 L D q := by
  obtain ⟨p, rest, e, j, k, c, hch, he, hc, rfl⟩ := dispatch_frame cfg w w1 i h
  have e4 := Grid.sum_update w.proposers i j k (fun c => { c with inCh := c.inCh ++ [p] }) c
    (Proposer.holding q) hc
  have h1 := hf.passed
  have h2 := hf.valid
  simp only [Proposer.holding] at e4
  refine ⟨?_, ?_⟩ <;> simp only at * <;> omega

theorem flow_propose (w w1 : World) (L : List (Field × Nat)) (D : List Nat)
    (q i j k : Nat) (now : Int) (x : Nat) (hf : Flow w L D q)
    (h : w.propose i j k now = some w1) : Flow w1 (L ++ [(.proposed, x)]) D q := by
  obtain ⟨c, p, rest, e, tks, hc, hpc, hin, he, -, rfl⟩ := propose_frame w w1 i j k now h
  have e4 := Grid.sum_update w.proposers i j k
    (fun c => { c with inCh := rest, pc := .calling p }) c (Proposer.holding q) hc
  have h1 := hf.passed
  have h2 := hf.valid
  simp only [Proposer.holding, hpc, reduceCtorEq, if_false] at e4
  refine ⟨?_, ?_⟩ <;>
    simp only [List.count_append, count_single, reduceCtorEq, false_and, if_false] at * <;>
    omega

theorem flow_endorse (cfg : Config) (w w1 : World) (L : List (Field × Nat)) (D : List Nat)
    (q i j k : Nat) (res : EndorseResult) (hf : Flow w L D q)
    (h : w.endorse cfg i j k res = some w1) : Flow w1 L D q := by
  obtain ⟨c, p, e, hc, hpc, he, hcase⟩ := endorse_frame cfg w w1 i j k res h
  have h1 := hf.passed
  have h2 := hf.valid
  have hlt : p < w.heap.length := (List.getElem?_eq_some.1 he).1
  rcases hcase with rfl | ⟨r, hq, rfl⟩ | ⟨r, rfl⟩
  · have e4 := Grid.sum_update w.proposers i j k (fun c => { c with pc := .idle }) c
      (Proposer.holding q) hc
    simp only [Proposer.holding, hpc, reduceCtorEq, if_false] at e4
    refine ⟨?_, ?_⟩ <;> simp only at * <;> omega
  · have e4 := Grid.sum_update w.proposers i j k (fun c => { c with pc := .forwarded p }) c
      (Proposer.holding q) hc
    simp only [Proposer.holding, hpc, reduceCtorEq, if_false, ProposerPC.forwarded.injEq] at e4
    refine ⟨?_, ?_⟩ <;>
      simp only [List.count_append, List.count_cons, List.count_nil, beq_iff_eq,
        List.length_set] at * <;>
      (by_cases hpq : p = q
       · subst hpq
         simp only [if_true] at *
         omega
       · simp only [hpq, if_false] at *
         omega)
  · have e4 := Grid.sum_update w.proposers i j k (fun c => { c with pc := .idle }) c
      (Proposer.holding q) hc
    simp only [Proposer.holding, hpc, reduceCtorEq, if_false] at e4
    refine ⟨?_, ?_⟩ <;> simp only [List.length_set] at * <;> omega

theorem flow_stamp (cfg : Config) (txids : List String) (hnd : txids.Nodup) (w w1 : World)
    (L : List (Field × Nat)) (D : List Nat) (q i j k : Nat) (now : Int)
    (hs : Stage cfg txids w L q) (hf : Flow w L D q) (h : w.stamp i j k now = some w1) :
    Flow w1 (L ++ w.writes (.stamp i j k now)) D q := by
  obtain ⟨c, p, e, tks, hc, hpc, he, -, rfl⟩ := stamp_frame w w1 i j k now h
  have hw : w.writes (.stamp i j k now) = [(.endorsed, p)] := by
    simp only [World.writes, hc, hpc, he]
    rw [hs.map, index_of_pointer txids hnd w.heap hs.heap p e he]
  rw [hw]
  have e4 := Grid.sum_update w.proposers i j k (fun c => { c with pc := .idle }) c
    (Proposer.holding q) hc
  have h1 := hf.passed
  have h2 := hf.valid
  simp only [Proposer.holding, hpc, reduceCtorEq, if_false, ProposerPC.forwarded.injEq] at e4
  refine ⟨?_, ?_⟩ <;>
    simp only [List.count_append, count_single, true_and, List.length_set] at * <;>
    (by_cases hpq : p = q
     · subst hpq
       simp only [if_true] at *
       omega
     · simp only [hpq, if_false] at *
       omega)

theorem flow_integrate
    (CreateSignedTx : Bytes → List ProposalResponse → Except String Envelope) (w w1 : World)
    (L : List (Field × Nat)) (D : List Nat) (q : Nat) (hf : Flow w L D q)
    (h : w.integrate CreateSignedTx = some w1) :
    Flow w1 L (D ++ w.discarded CreateSignedTx .integrate) q := by
  have h1 := hf.passed
  have h2 := hf.valid
  unfold World.integrate at h
  cases hch : w.endorsedCh with
  | nil => simp [hch] at h
  | cons p rest =>
    simp only [hch] at h
    cases he : w.heap[p]? with
    | none => simp [he] at h
    | some e =>
      simp only [he] at h
      rw [hch] at h1 h2
      cases hi : Integrator.Integrate CreateSignedTx e with
      | error err =>
        simp only [hi, Option.some.injEq] at h
        subst h
        have hd : w.discarded CreateSignedTx .integrate = [p] := by
          simp only [World.discarded, hch, he, hi]
        rw [hd]
        refine ⟨?_, ?_⟩ <;>
          simp only [List.count_append, List.count_cons, List.count_nil, beq_iff_eq] at * <;>
          omega
      | ok e1 =>
        simp only [hi, Option.some.injEq] at h
        subst h
        have hd : w.discarded CreateSignedTx .integrate = [] := by
          simp only [World.discarded, hch, he, hi]
        rw [hd]
        refine ⟨?_, ?_⟩ <;>
          simp only [List.count_append, List.count_cons, List.count_nil, beq_iff_eq,
            List.append_nil, List.length_set] at * <;>
          omega

theorem flow_broadcast (w w1 : World) (L : List (Field × Nat)) (D : List Nat) (q : Nat)
    (now : Int) (x : Nat) (hf : Flow w L D q) (h : w.broadcast now = some w1) :
    Flow w1 (L ++ [(.broadcast, x)]) D q := by
  obtain ⟨p, rest, e, tks, hch, he, -, rfl⟩ := broadcast_frame w w1 now h
  have h1 := hf.passed
  have h2 := hf.valid
  rw [hch] at h1 h2
  refine ⟨?_, ?_⟩ <;>
    simp only [List.count_append, List.count_cons, List.count_nil, beq_iff_eq, count_single,
      reduceCtorEq, false_and, if_false] at * <;>
    omega

theorem keepObservedTimes_counters (block : List (FilteredTransaction × Int)) (w w1 : World)
    (h : w.keepObservedTimes block = some w1) :
    w1.validTxNum = w.validTxNum ∧ w1.Metric = w.Metric := by
  induction block generalizing w with
  | nil =>
    simp only [World.keepObservedTimes, Option.some.injEq] at h
    subst h
    exact ⟨rfl, rfl⟩
  | cons b rest ih =>
    obtain ⟨tx, now⟩ := b
    unfold World.keepObservedTimes at h
    unfold World.readClock at h
    by_cases hclk : w.clock ≤ now
    · simp only [hclk, if_true] at h
      cases hk : keepObservedTime w.txid2id w.timeKeepers tx.Txid now with
      | none => simp [hk] at h
      | some tks =>
        simp only [hk] at h
        have hrest := ih _ h
        exact hrest
    · simp [hclk] at h

theorem observe_counters (cfg : Config) (w w1 : World)
    (block : List (FilteredTransaction × Int)) (h : w.observe cfg block = some w1) :
    w1.ordererCh = w.ordererCh ∧
      w1.validTxNum + w1.Metric.Abort = w.validTxNum + w.Metric.Abort + block.length := by
  unfold World.observe at h
  split at h
  · simp at h
  · cases hk : w.keepObservedTimes block with
    | none => simp [hk] at h
    | some w2 =>
      simp only [hk, Option.some.injEq] at h
      obtain ⟨-, -, -, -, -, -, f7⟩ := keepObservedTimes_frame block w w2 hk
      obtain ⟨g1, g2⟩ := keepObservedTimes_counters block w w2 hk
      subst h
      refine ⟨f7, ?_⟩
      have hsum := classify_sum (block.map (fun b => b.1)) w2.validTxNum w2.Metric
      simp only [List.length_map] at hsum
      simp only
      rw [hsum, g1, g2]

theorem flow_observe (cfg : Config) (w w1 : World) (L : List (Field × Nat)) (D : List Nat)
    (q : Nat) (block : List (FilteredTransaction × Int)) (hf : Flow w L D q)
    (h : w.observe cfg block = some w1) :
    Flow w1 (L ++ w.writes (.observe block)) D q := by
  obtain ⟨-, -, f2, -, f4, f5, f6⟩ := observe_frame cfg w w1 block h
  obtain ⟨f7, -⟩ := observe_counters cfg w w1 block h
  have h1 := hf.passed
  have h2 := hf.valid
  have hc : (w.writes (.observe block)).count (.endorsed, q) = 0 := by
    simp only [World.writes]
    exact count_observed_map _ _ _ _ (by decide)
  refine ⟨?_, ?_⟩ <;> simp only [List.count_append, hc, f2, f4, f5, f6, f7] at * <;> omega

theorem flow_step (cfg : Config) (txids : List String) (hnd : txids.Nodup)
    (CreateSignedTx : Bytes → List ProposalResponse → Except String Envelope) (w w1 : World)
    (L : List (Field × Nat)) (D : List Nat) (q : Nat) (a : Action)
    (hs : Stage cfg txids w L q) (hf : Flow w L D q)
    (h : World.step cfg CreateSignedTx w a = some w1) :
    Flow w1 (L ++ w.writes a) (D ++ w.discarded CreateSignedTx a) q := by
  cases a with
  | dispatch i =>
    simp only [World.writes, World.discarded, List.append_nil]
    exact flow_dispatch cfg w w1 L D q i hf h
  | propose i j k now =>
    simp only [World.discarded, List.append_nil]
    obtain ⟨c, p, rest, e, tks, hc, hpc, hin, he, -, -⟩ := propose_frame w w1 i j k now h
    have hw : w.writes (.propose i j k now) = [(.proposed, w.txid2id.get e.Txid)] := by
      simp only [World.writes, hc, hin, he]
    rw [hw]
    exact flow_propose w w1 L D q i j k now _ hf h
  | endorse i j k res =>
    simp only [World.writes, World.discarded, List.append_nil]
    exact flow_endorse cfg w w1 L D q i j k res hf h
  | stamp i j k now =>
    simp only [World.discarded, List.append_nil]
    exact flow_stamp cfg txids hnd w w1 L D q i j k now hs hf h
  | integrate =>
    simp only [World.writes, List.append_nil]
    exact flow_integrate CreateSignedTx w w1 L D q hf h
  | broadcast now =>
    simp only [World.discarded, List.append_nil]
    obtain ⟨p, rest, e, tks, hch, he, -, -⟩ := broadcast_frame w w1 now h
    have hw : w.writes (.broadcast now) = [(.broadcast, w.txid2id.get e.Txid)] := by
      simp only [World.writes, hch, he]
    rw [hw]
    exact flow_broadcast w w1 L D q now _ hf h
  | observe block =>
    simp only [World.discarded, List.append_nil]
    exact flow_observe cfg w w1 L D q block hf h

theorem flow_run (cfg : Config) (txids : List String) (hnd : txids.Nodup)
    (CreateSignedTx : Bytes → List ProposalResponse → Except String Envelope) (q : Nat)
    (sched : List Action) :
    ∀ (w w1 : World) (L : List (Field × Nat)) (D : List Nat), Stage cfg txids w L q →
      Flow w L D q → World.run cfg CreateSignedTx w sched = some w1 →
      Flow w1 (L ++ World.log cfg CreateSignedTx w sched)
        (D ++ World.discards cfg CreateSignedTx w sched) q := by
  induction sched with
  | nil =>
    intro w w1 L D _ hf h
    simp only [World.run, Option.some.injEq] at h
    subst h
    simpa [World.log, World.discards] using hf
  | cons a as ih =>
    intro w w1 L D hs hf h
    unfold World.run at h
    unfold World.log World.discards
    cases hst : World.step cfg CreateSignedTx w a with
    | none => simp [hst] at h
    | some w2 =>
      simp only [hst] at h ⊢
      rw [← List.append_assoc, ← List.append_assoc]
      exact ih w2 w1 _ _ (Stage.step cfg txids hnd CreateSignedTx w w2 L q a hs hst)
        (flow_step cfg txids hnd CreateSignedTx w w2 L D q a hs hf hst) h

theorem counters_step (cfg : Config)
    (CreateSignedTx : Bytes → List ProposalResponse → Except String Envelope) (w w1 : World)
    (a : Action) (h : World.step cfg CreateSignedTx w a = some w1) :
    w1.validTxNum + w1.Metric.Abort =
      w.validTxNum + w.Metric.Abort + (committed [a]).length +
        (w.discarded CreateSignedTx a).length := by
  cases a with
  | dispatch i =>
    obtain ⟨p, rest, e, j, k, c, -, -, -, rfl⟩ := dispatch_frame cfg w w1 i h
    simp [committed, World.discarded]
  | propose i j k now =>
    obtain ⟨c, p, rest, e, tks, -, -, -, -, -, rfl⟩ := propose_frame w w1 i j k now h
    simp [committed, World.discarded]
  | endorse i j k res =>
    obtain ⟨c, p, e, -, -, -, hcase⟩ := endorse_frame cfg w w1 i j k res h
    rcases hcase with rfl | ⟨r, -, rfl⟩ | ⟨r, rfl⟩ <;> simp [committed, World.discarded]
  | stamp i j k now =>
    obtain ⟨c, p, e, tks, -, -, -, -, rfl⟩ := stamp_frame w w1 i j k now h
    simp [committed, World.discarded]
  | integrate =>
    simp only [World.step] at h
    unfold World.integrate at h
    cases hch : w.endorsedCh with
    | nil => simp [hch] at h
    | cons p rest =>
      simp only [hch] at h
      cases he : w.heap[p]? with
      | none => simp [he] at h
      | some e =>
        simp only [he] at h
        cases hi : Integrator.Integrate CreateSignedTx e with
        | error err =>
          simp only [hi, Option.some.injEq] at h
          subst h
          simp [committed, World.discarded, hch, he, hi, MetricInstance.AddAbort]
          omega
        | ok e1 =>
          simp only [hi, Option.some.injEq] at h
          subst h
          simp [committed, World.discarded, hch, he, hi]
  | broadcast now =>
    obtain ⟨p, rest, e, tks, -, -, -, rfl⟩ := broadcast_frame w w1 now h
    simp [committed, World.discarded]
  | observe block =>
    obtain ⟨-, hsum⟩ := observe_counters cfg w w1 block h
    simp [committed, World.discarded, hsum]

theorem committed_cons (a : Action) (as : List Action) :
    committed (a :: as) = committed [a] ++ committed as := by
  cases a <;> simp [committed]

theorem counters_run (cfg : Config)
    (CreateSignedTx : Bytes → List ProposalResponse → Except String Envelope)
    (sched : List Action) :
    ∀ (w w1 : World), World.run cfg CreateSignedTx w sched = some w1 →
      w1.validTxNum + w1.Metric.Abort =
        w.validTxNum + w.Metric.Abort + (committed sched).length +
          (World.discards cfg CreateSignedTx w sched).length := by
  induction sched with
  | nil =>
    intro w w1 h
    simp only [World.run, Option.some.injEq] at h
    subst h
    simp [committed, World.discards]
  | cons a as ih =>
    intro w w1 h
    unfold World.run at h
    unfold World.discards
    cases hst : World.step cfg CreateSignedTx w a with
    | none => simp [hst] at h
    | some w2 =>
      simp only [hst] at h ⊢
      have h1 := counters_step cfg CreateSignedTx w w2 a hst
      have h2 := ih w2 w1 h
      rw [committed_cons, List.length_append, List.length_append]
      omega

theorem orderer_step (cfg : Config)
    (CreateSignedTx : Bytes → List ProposalResponse → Except String Envelope) (w w1 : World)
    (a : Action) (h : World.step cfg CreateSignedTx w a = some w1) :
    ∀ p ∈ w.ordererCh, p ∈ w1.ordererCh := by
  cases a with
  | dispatch i =>
    obtain ⟨p, rest, e, j, k, c, -, -, -, rfl⟩ := dispatch_frame cfg w w1 i h
    exact fun _ hp => hp
  | propose i j k now =>
    obtain ⟨c, p, rest, e, tks, -, -, -, -, -, rfl⟩ := propose_frame w w1 i j k now h
    exact fun _ hp => hp
  | endorse i j k res =>
    obtain ⟨c, p, e, -, -, -, hcase⟩ := endorse_frame cfg w w1 i j k res h
    rcases hcase with rfl | ⟨r, -, rfl⟩ | ⟨r, rfl⟩ <;> exact fun _ hp => hp
  | stamp i j k now =>
    obtain ⟨c, p, e, tks, -, -, -, -, rfl⟩ := stamp_frame w w1 i j k now h
    exact fun _ hp => hp
  | integrate =>
    obtain ⟨p, rest, e, -, -, hcase⟩ := integrate_frame CreateSignedTx w w1 h
    rcases hcase with rfl | ⟨envelope, rfl⟩ <;> exact fun _ hp => hp
  | broadcast now =>
    obtain ⟨p, rest, e, tks, -, -, -, rfl⟩ := broadcast_frame w w1 now h
    exact fun _ hp => List.mem_append_left _ hp
  | observe block =>
    obtain ⟨f7, -⟩ := observe_counters cfg w w1 block h
    intro p hp
    rw [f7]
    exact hp

theorem orderer_run (cfg : Config)
    (CreateSignedTx : Bytes → List ProposalResponse → Except String Envelope)
    (sched : List Action) :
    ∀ (w w1 : World), World.run cfg CreateSignedTx w sched = some w1 →
      ∀ p ∈ w.ordererCh, p ∈ w1.ordererCh := by
  induction sched with
  | nil =>
    intro w w1 h
    simp only [World.run, Option.some.injEq] at h
    subst h
    exact fun _ hp => hp
  | cons a as ih =>
    intro w w1 h
    unfold World.run at h
    cases hst : World.step cfg CreateSignedTx w a with
    | none => simp [hst] at h
    | some w2 =>
      simp only [hst] at h
      exact fun p hp => ih w2 w1 h p (orderer_step cfg CreateSignedTx w w2 a hst p hp)

/-- Every transaction id of a committed block is the id of a record that was
handed to the orderer. -/
theorem committed_submitted (cfg : Config) (txids : List String) (hnd : txids.Nodup)
    (CreateSignedTx : Bytes → List ProposalResponse → Except String Envelope)
    (sched : List Action) :
    ∀ (w w1 : World) (L : List (Field × Nat)), Stage cfg txids w L 0 →
      World.run cfg CreateSignedTx w sched = some w1 →
      ∀ t ∈ committed sched, ∃ p ∈ w1.ordererCh, txids[p]? = some t := by
  induction sched with
  | nil =>
    intro w w1 L _ _ t ht
    simp [committed] at ht
  | cons a as ih =>
    intro w w1 L hs h t ht
    unfold World.run at h
    cases hst : World.step cfg CreateSignedTx w a with
    | none => simp [hst] at h
    | some w2 =>
      simp only [hst] at h
      have hs2 := Stage.step cfg txids hnd CreateSignedTx w w2 L 0 a hs hst
      rw [committed_cons, List.mem_append] at ht
      rcases ht with ht | ht
      · cases a with
        | observe block =>
          obtain ⟨hsub, -⟩ := observe_frame cfg w w2 block hst
          obtain ⟨f7, -⟩ := observe_counters cfg w w2 block hst
          simp only [committed, List.append_nil, List.mem_map] at ht
          obtain ⟨b, hb, rfl⟩ := ht
          have hsb := hsub b hb
          unfold World.submitted at hsb
          rw [List.any_eq_true] at hsb
          obtain ⟨p, hp, hpe⟩ := hsb
          cases he : w.heap[p]? with
          | none => simp [he] at hpe
          | some e =>
            simp only [he, beq_iff_eq] at hpe
            refine ⟨p, orderer_run cfg CreateSignedTx as w2 w1 h p (by rw [f7]; exact hp), ?_⟩
            rw [← hs.heap, List.getElem?_map, he, ← hpe]
            rfl
        | dispatch i => simp [committed] at ht
        | propose i j k now => simp [committed] at ht
        | endorse i j k res => simp [committed] at ht
        | stamp i j k now => simp [committed] at ht
        | integrate => simp [committed] at ht
        | broadcast now => simp [committed] at ht
      · exact ih w2 w1 _ hs2 h t ht

theorem flow_start (cfg : Config) (txids : List String) (w0 : World) (q : Nat)
    (h : World.start cfg txids = some w0) : Flow w0 [] [] q := by
  unfold World.start at h
  cases hg : NewProposers cfg with
  | none => simp [hg] at h
  | some g =>
    cases ht : initTimeKeepers cfg with
    | none => simp [hg, ht] at h
    | some tks =>
      simp only [hg, ht, Option.some.injEq] at h
      subst h
      refine ⟨?_, ?_⟩ <;> simp

/-- C4 (amended): in every state a run of the pipeline reaches from its start
on pairwise distinct transaction ids, the observer's valid count plus the
abort counter equals the number of transactions the observer has observed and
classified plus the number of records discarded by integrators.  No record is
discarded twice and no discarded record is handed to the orderer; so when the
committed blocks deliver no transaction id twice (they deliver submitted
transactions only), the sum does not exceed the number of transactions of the
run, the planned total `TxNum`. -/
theorem outcome_accounting (cfg : Config)
    (CreateSignedTx : Bytes → List ProposalResponse → Except String Envelope)
    (txids : List String) (sched : List Action) (w0 w : World) (hnd : txids.Nodup)
    (hstart : World.start cfg txids = some w0)
    (hrun : World.run cfg CreateSignedTx w0 sched = some w) :
    w.validTxNum + w.Metric.Abort =
      (committed sched).length + (World.discards cfg CreateSignedTx w0 sched).length ∧
    (World.discards cfg CreateSignedTx w0 sched ++ w.ordererCh).Nodup ∧
    ((committed sched).Nodup →
      w.validTxNum + w.Metric.Abort ≤ txids.length ∧
      ((txids.length : Int) = cfg.TxNum →
        ((w.validTxNum + w.Metric.Abort : Nat) : Int) ≤ cfg.TxNum)) := by
  have hcnt := counters_run cfg CreateSignedTx sched w0 w hrun
  have hw0 : w0.validTxNum + w0.Metric.Abort = 0 := by
    unfold World.start at hstart
    cases hg : NewProposers cfg with
    | none => simp [hg] at hstart
    | some g =>
      cases ht : initTimeKeepers cfg with
      | none => simp [hg, ht] at hstart
      | some tks =>
        simp only [hg, ht, Option.some.injEq] at hstart
        subst hstart
        rfl
  have hstage : ∀ q, Stage cfg txids w (World.log cfg CreateSignedTx w0 sched) q := by
    intro q
    have := Stage.run cfg txids hnd CreateSignedTx q sched w0 w []
      (Stage.start cfg txids w0 q hstart) hrun
    rwa [List.nil_append] at this
  have hflow : ∀ q, Flow w (World.log cfg CreateSignedTx w0 sched)
      (World.discards cfg CreateSignedTx w0 sched) q := by
    intro q
    have := flow_run cfg txids hnd CreateSignedTx q sched w0 w [] []
      (Stage.start cfg txids w0 q hstart) (flow_start cfg txids w0 q hstart) hrun
    rwa [List.nil_append, List.nil_append] at this
  have hnodup : (World.discards cfg CreateSignedTx w0 sched ++ w.ordererCh).Nodup := by
    rw [List.nodup_iff_count_le_one]
    intro q
    have h1 := (hflow q).passed
    have h2 := (hstage q).once
    rw [List.count_append]
    omega
  have hlen : w.heap.length = txids.length := by
    rw [← (hstage 0).heap, List.length_map]
  have hbound : (World.discards cfg CreateSignedTx w0 sched ++ w.ordererCh).length ≤
      txids.length := by
    have hsub : ∀ q ∈ World.discards cfg CreateSignedTx w0 sched ++ w.ordererCh,
        q ∈ List.range txids.length := by
      intro q hq
      rw [List.mem_range, ← hlen]
      apply (hflow q).valid
      have hpos := List.count_pos_iff.2 hq
      rw [List.count_append] at hpos
      omega
    have := (List.Nodup.subperm hnodup hsub).length_le
    simpa using this
  refine ⟨by omega, hnodup, ?_⟩
  intro hc
  have hsubm := committed_submitted cfg txids hnd CreateSignedTx sched w0 w []
    (Stage.start cfg txids w0 0 hstart) hrun
  have hmapnd : ((committed sched).map (buildTxidMap txids).get).Nodup := by
    apply List.Nodup.map_on _ hc
    intro x hx y hy hxy
    obtain ⟨i, -, hi⟩ := hsubm x hx
    obtain ⟨j, -, hj⟩ := hsubm y hy
    rw [buildTxidMap_get txids hnd i x hi, buildTxidMap_get txids hnd j y hj] at hxy
    subst hxy
    rw [hi] at hj
    exact Option.some.inj hj
  have hmapsub : ∀ q ∈ (committed sched).map (buildTxidMap txids).get, q ∈ w.ordererCh := by
    intro q hq
    rw [List.mem_map] at hq
    obtain ⟨t, ht, rfl⟩ := hq
    obtain ⟨p, hp, hpt⟩ := hsubm t ht
    rw [buildTxidMap_get txids hnd p t hpt]
    exact hp
  have hcle : (committed sched).length ≤ w.ordererCh.length := by
    have := (List.Nodup.subperm hmapnd hmapsub).length_le
    simpa using this
  rw [List.length_append] at hbound
  have hfin : w.validTxNum + w.Metric.Abort ≤ txids.length := by omega
  refine ⟨hfin, ?_⟩
  intro hl
  rw [← hl]
  exact_mod_cast hfin

/-- C4 (amended), at a run of two planned transactions: the record of `tx0` is
discarded by an integrator, the transaction `tx1` is committed as valid. -/
theorem outcome_accounting_witness :
    ∃ w0 w, World.start twoTransactions ["tx0", "tx1"] = some w0 ∧
      World.run twoTransactions pickyAssembly w0 mixedSchedule = some w ∧
      w.validTxNum = 1 ∧ w.Metric.Abort = 1 ∧
      committed mixedSchedule = ["tx1"] ∧
      World.discards twoTransactions pickyAssembly w0 mixedSchedule = [0] ∧
      w.ordererCh = [1] ∧ (committed mixedSchedule).Nodup ∧
      ((["tx0", "tx1"] : List String).length : Int) = twoTransactions.TxNum ∧
      (w.validTxNum + w.Metric.Abort =
        (committed mixedSchedule).length +
          (World.discards twoTransactions pickyAssembly w0 mixedSchedule).length ∧
      (World.discards twoTransactions pickyAssembly w0 mixedSchedule ++ w.ordererCh).Nodup ∧
      ((committed mixedSchedule).Nodup →
        w.validTxNum + w.Metric.Abort ≤ (["tx0", "tx1"] : List String).length ∧
        (((["tx0", "tx1"] : List String).length : Int) = twoTransactions.TxNum →
          ((w.validTxNum + w.Metric.Abort : Nat) : Int) ≤ twoTransactions.TxNum))) :=
  ⟨_, _, rfl, rfl, rfl, rfl, rfl, rfl, rfl, by decide, by decide,
    outcome_accounting twoTransactions pickyAssembly ["tx0", "tx1"] mixedSchedule _ _
      (by decide) rfl rfl⟩

end Tape
